import Mathlib

/-!
# AmyBin: the 32-bit byte-code interpreter of `driver.cpp`

A shallow embedding of the fetch/decode/execute loop of `main` in `driver.cpp`.

* A `byte` is a `Fin 256`; the memory buffer is a `List Byte` whose length is
  `MEMORY_SIZE_BYTES`.
* The three registers are four-byte cells (`Reg`), as in the source.
* `currentInstructionAddress` is an `unsigned int`: a `Nat` reduced modulo `2^32`
  wherever the source does arithmetic on it.
* `int address` is an `Int` obtained by reading four little-endian bytes as a signed
  32-bit value.  Only the first `2^31` bytes of a buffer can be named by such an address,
  so statements about data addresses are made for buffers of at most `2^31` bytes.
* The source never checks a bound.  An access outside the buffer, an integer division
  by zero and the quotient `INT_MIN / -1` have no defined result in C++; the handlers
  return `none` there.
* The float handlers are kept, with IEEE-754 arithmetic and `%f` formatting taken as
  parameters (`FloatOps`) acting on the raw four-byte patterns.
* `DEBUG` is `false` in the source, so the tracing output is not modelled; of
  `printMemory` the indices of its buffer reads are modelled, not the printed text.
* The opcode constants of `assembler.cpp`, which declares nothing else, live in the
  namespace `Assembler`.
-/

namespace AmyBin

/-- The source's `typedef unsigned char byte`. -/
abbrev Byte := Fin 256

/-! ## Opcode constants (driver.cpp, lines 32-198) -/

def OPCODE_LOADAI : Byte := 0b00000001
def OPCODE_LOADAM : Byte := 0b00000010
def OPCODE_LOADAR : Byte := 0b00000011
def OPCODE_LOADBI : Byte := 0b00000100
def OPCODE_LOADBM : Byte := 0b00000101
def OPCODE_LOADBR : Byte := 0b00000110
def OPCODE_LOADRI : Byte := 0b00000111
def OPCODE_LOADRM : Byte := 0b00001000
def OPCODE_STOREAM : Byte := 0b00001001
def OPCODE_STOREAR : Byte := 0b00001010
def OPCODE_STOREBM : Byte := 0b00001011
def OPCODE_STOREBR : Byte := 0b00001100
def OPCODE_STORERM : Byte := 0b00001101
def OPCODE_ADDINT : Byte := 0b00100000
def OPCODE_ADDFLOAT : Byte := 0b00100001
def OPCODE_SUBINT : Byte := 0b00100010
def OPCODE_SUBFLOAT : Byte := 0b00100011
def OPCODE_MULTINT : Byte := 0b00100100
def OPCODE_MULTFLOAT : Byte := 0b00100101
def OPCODE_DIVINT : Byte := 0b00100110
def OPCODE_DIVFLOAT : Byte := 0b00100111
def OPCODE_MODINT : Byte := 0b00101000
def OPCODE_CMPINT : Byte := 0b01000000
def OPCODE_CMPFLOAT : Byte := 0b01000001
def OPCODE_JMP : Byte := 0b01000010
def OPCODE_JEQ : Byte := 0b01000011
def OPCODE_JNE : Byte := 0b01000100
def OPCODE_JLT : Byte := 0b01000101
def OPCODE_JLE : Byte := 0b01000110
def OPCODE_JGT : Byte := 0b01000111
def OPCODE_JGE : Byte := 0b01001000
def OPCODE_PRINTINT : Byte := 0b10000000
def OPCODE_PRINTCHAR : Byte := 0b10000001
def OPCODE_PRINTFLOAT : Byte := 0b10000010
def OPCODE_PRINTRINT : Byte := 0b10000011
def OPCODE_PRINTRFLOAT : Byte := 0b10000100
def OPCODE_HLT : Byte := 0b11111111

/-- Every opcode constant the source declares, in declaration order. -/
def definedOpcodes : List Byte :=
  [OPCODE_LOADAI, OPCODE_LOADAM, OPCODE_LOADAR, OPCODE_LOADBI, OPCODE_LOADBM,
   OPCODE_LOADBR, OPCODE_LOADRI, OPCODE_LOADRM, OPCODE_STOREAM, OPCODE_STOREAR,
   OPCODE_STOREBM, OPCODE_STOREBR, OPCODE_STORERM, OPCODE_ADDINT, OPCODE_ADDFLOAT,
   OPCODE_SUBINT, OPCODE_SUBFLOAT, OPCODE_MULTINT, OPCODE_MULTFLOAT, OPCODE_DIVINT,
   OPCODE_DIVFLOAT, OPCODE_MODINT, OPCODE_CMPINT, OPCODE_CMPFLOAT, OPCODE_JMP,
   OPCODE_JEQ, OPCODE_JNE, OPCODE_JLT, OPCODE_JLE, OPCODE_JGT, OPCODE_JGE,
   OPCODE_PRINTINT, OPCODE_PRINTCHAR, OPCODE_PRINTFLOAT, OPCODE_PRINTRINT,
   OPCODE_PRINTRFLOAT, OPCODE_HLT]

/-! ## Flag masks (driver.cpp, lines 373-380) -/

def FLAG_MASK_GT : Byte := 0b00001000
def FLAG_MASK_LT : Byte := 0b00000100
def FLAG_MASK_EQ : Byte := 0b00000010
def FLAG_MASK_NE : Byte := 0b00000001
def FLAG_CLEAR : Byte := 0b00000000

/-! ## Registers and 32-bit values -/

/-- A four-byte register (`byte aRegister[4]`), index 0 first. -/
structure Reg where
  b0 : Byte
  b1 : Byte
  b2 : Byte
  b3 : Byte
deriving DecidableEq, Repr

/-- The register initialiser `{0x00, 0x00, 0x00, 0x00}`. -/
def Reg.zero : Reg := ⟨0, 0, 0, 0⟩

/-- The four bytes read as an unsigned little-endian 32-bit number. -/
def Reg.toNat (r : Reg) : Nat :=
  r.b0.val + 256 * r.b1.val + 65536 * r.b2.val + 16777216 * r.b3.val

/-- The four bytes read through `*(int*)`: a signed two's-complement 32-bit number. -/
def Reg.toInt (r : Reg) : Int :=
  if r.toNat < 2147483648 then (r.toNat : Int) else (r.toNat : Int) - 4294967296

/-- The bytes `(byte*)&c` of a 32-bit pattern given as an unsigned number. -/
def Reg.ofNat (u : Nat) : Reg :=
  ⟨⟨u % 256, Nat.mod_lt _ (by decide)⟩, ⟨u / 256 % 256, Nat.mod_lt _ (by decide)⟩,
   ⟨u / 65536 % 256, Nat.mod_lt _ (by decide)⟩, ⟨u / 16777216 % 256, Nat.mod_lt _ (by decide)⟩⟩

/-- The bytes of an `int` result: the mathematical value reduced modulo `2^32`. -/
def Reg.ofInt (c : Int) : Reg := Reg.ofNat (c % 4294967296).toNat

/-- Conversion of an `int` to `unsigned int` (assignment of an `int` to
`currentInstructionAddress`). -/
def toUnsigned (i : Int) : Nat := (i % 4294967296).toNat

/-- The value of `currentInstructionAddress + k` in `unsigned int` arithmetic. -/
def pcPlus (pc k : Nat) : Nat := (pc + k) % 4294967296

/-! ## Memory accesses -/

/-- The read `memory[i]` for an `int` index expression `i`: defined when `i` is a value
of type `int` that indexes the buffer. -/
def readAt (memory : List Byte) (i : Int) : Option Byte :=
  if 0 ≤ i ∧ i < 2147483648 then memory[i.toNat]? else none

/-- The write `memory[i] = v` for an `int` index expression `i`, defined like the read. -/
def writeAt (memory : List Byte) (i : Int) (v : Byte) : Option (List Byte) :=
  if 0 ≤ i ∧ i < 2147483648 ∧ i.toNat < memory.length then some (memory.set i.toNat v) else none

/-- The four reads `memory[address+0] .. memory[address+3]` of the load handlers. -/
def load4 (memory : List Byte) (address : Int) : Option Reg := do
  let x0 ← readAt memory (address + 0)
  let x1 ← readAt memory (address + 1)
  let x2 ← readAt memory (address + 2)
  let x3 ← readAt memory (address + 3)
  some ⟨x0, x1, x2, x3⟩

/-- The four writes `memory[address+0] = r[0]; ..; memory[address+3] = r[3]`. -/
def store4 (memory : List Byte) (address : Int) (r : Reg) : Option (List Byte) := do
  let m0 ← writeAt memory (address + 0) r.b0
  let m1 ← writeAt m0 (address + 1) r.b1
  let m2 ← writeAt m1 (address + 2) r.b2
  writeAt m2 (address + 3) r.b3

/-- The four bytes at `base .. base+3`: what `*(int*)&memory[base]` reads. -/
def word (memory : List Byte) (base : Nat) : Option Reg := do
  let x0 ← memory[base]?
  let x1 ← memory[base + 1]?
  let x2 ← memory[base + 2]?
  let x3 ← memory[base + 3]?
  some ⟨x0, x1, x2, x3⟩

/-- The four bytes `*(int*)(memory + address)` reads, for an `int address`. -/
def wordAt (memory : List Byte) (address : Int) : Option Reg :=
  if 0 ≤ address then word memory address.toNat else none

/-- The operand bytes `memory[pc+1] .. memory[pc+4]` of the load-immediate handlers. -/
def immediate (memory : List Byte) (pc : Nat) : Option Reg := do
  let x0 ← memory[pcPlus pc 1]?
  let x1 ← memory[pcPlus pc 2]?
  let x2 ← memory[pcPlus pc 3]?
  let x3 ← memory[pcPlus pc 4]?
  some ⟨x0, x1, x2, x3⟩

/-- The operand read `*(int*)&memory[currentInstructionAddress+1]`. -/
def operand (memory : List Byte) (pc : Nat) : Option Int :=
  (word memory (pcPlus pc 1)).map Reg.toInt

/-! ## Machine state -/

/-- How the execution loop stands: still iterating, left by the `break` of `hlt`, left
by the `break` of the unknown-instruction branch, or left because the loop condition
`currentInstructionAddress < MEMORY_SIZE_BYTES` failed. -/
inductive Status where
  | running
  | halted
  | faulted
  | offEnd
deriving DecidableEq, Repr

/-- The variables of `main` that the loop reads and writes, with the text written to
standard output so far. -/
structure State where
  pc : Nat
  aRegister : Reg
  bRegister : Reg
  addrRegister : Reg
  flags : Byte
  memory : List Byte
  out : String
  status : Status
deriving DecidableEq, Repr

/-- IEEE-754 single precision arithmetic and `printf ("%f", ..)`, on raw bit patterns. -/
structure FloatOps where
  add : Reg → Reg → Reg
  sub : Reg → Reg → Reg
  mul : Reg → Reg → Reg
  div : Reg → Reg → Reg
  fmt : Reg → String

/-- One digit printed by `%x` for a value below 16. -/
def hexDigit (n : Nat) : Char := "0123456789abcdef".toList.getD n '?'

/-- The text of
`printf ("Invalid opcode %x%x\n", (0b11110000 & opcode) >> 4, (0b00001111 & opcode) >> 0)`. -/
def invalidOpcodeText (opcode : Byte) : String :=
  "Invalid opcode " ++
    String.mk [hexDigit ((0b11110000 &&& opcode.val) >>> 4),
               hexDigit ((0b00001111 &&& opcode.val) >>> 0)] ++ "\n"

/-- The text of `printf ("%d", value)`. -/
def printfD (value : Int) : String := toString value

/-- The text of `printf ("%c", c)`: the single byte `c`. -/
def printfC (c : Byte) : String := String.singleton (Char.ofNat c.val)

/-- The flags computed by the `cmpint` handler from `a` and `b`. -/
def cmpFlags (a b : Int) : Byte :=
  let f0 := FLAG_CLEAR
  let f1 := if a < b then f0 ||| FLAG_MASK_LT else f0
  let f2 := if a = b then f1 ||| FLAG_MASK_EQ else f1 ||| FLAG_MASK_NE
  if a > b then f2 ||| FLAG_MASK_GT else f2

/-- The condition `flags & mask` of a conditional jump. -/
def flagSet (flags mask : Byte) : Bool := (flags &&& mask) ≠ 0

/-- The fall-through `currentInstructionAddress += 5`. -/
def State.next (s : State) : State := { s with pc := pcPlus s.pc 5 }

/-- The taken jump `currentInstructionAddress = *(int*)&memory[pc+1]; continue`. -/
def jump (s : State) : Option State := do
  let target ← operand s.memory s.pc
  some { s with pc := toUnsigned target }

/-- A conditional jump: taken when `cond` holds, else the fall-through. -/
def jumpIf (cond : Bool) (s : State) : Option State :=
  if cond then jump s else some s.next

/-- The shared shape of the arithmetic handlers: the result bytes `c` are stored at the
operand address. -/
def storeResult (s : State) (c : Reg) : Option State := do
  let address ← operand s.memory s.pc
  let m ← store4 s.memory address c
  some { s with memory := m, pc := pcPlus s.pc 5 }

/-- The `int` quotient `a / b`: truncation toward zero; no result for a zero divisor or
for a quotient outside the `int` range. -/
def divInt (a b : Int) : Option Int :=
  if b = 0 ∨ (a = -2147483648 ∧ b = -1) then none else some (Int.tdiv a b)

/-- The `int` remainder `a % b`, defined exactly where `a / b` is. -/
def modInt (a b : Int) : Option Int :=
  if b = 0 ∨ (a = -2147483648 ∧ b = -1) then none else some (Int.tmod a b)

/-! ## The instruction handlers (driver.cpp, lines 441-988) -/

/-- The dispatch chain of the loop body, in source order, for the fetched `opcode`. -/
def execute (fp : FloatOps) (s : State) (opcode : Byte) : Option State :=
  -- --- Data Move
  if opcode = OPCODE_LOADAI then do
    let v ← immediate s.memory s.pc
    some { s with aRegister := v, pc := pcPlus s.pc 5 }
  else if opcode = OPCODE_LOADAM then do
    let address ← operand s.memory s.pc
    let v ← load4 s.memory address
    some { s with aRegister := v, pc := pcPlus s.pc 5 }
  else if opcode = OPCODE_LOADAR then do
    let v ← load4 s.memory s.addrRegister.toInt
    some { s with aRegister := v, pc := pcPlus s.pc 5 }
  else if opcode = OPCODE_LOADBI then do
    let v ← immediate s.memory s.pc
    some { s with bRegister := v, pc := pcPlus s.pc 5 }
  else if opcode = OPCODE_LOADBM then do
    let address ← operand s.memory s.pc
    let v ← load4 s.memory address
    some { s with bRegister := v, pc := pcPlus s.pc 5 }
  else if opcode = OPCODE_LOADBR then do
    let v ← load4 s.memory s.addrRegister.toInt
    some { s with bRegister := v, pc := pcPlus s.pc 5 }
  else if opcode = OPCODE_LOADRI then do
    let v ← immediate s.memory s.pc
    some { s with addrRegister := v, pc := pcPlus s.pc 5 }
  else if opcode = OPCODE_LOADRM then do
    let address ← operand s.memory s.pc
    let v ← load4 s.memory address
    some { s with addrRegister := v, pc := pcPlus s.pc 5 }
  else if opcode = OPCODE_STOREAM then do
    let address ← operand s.memory s.pc
    let m ← store4 s.memory address s.aRegister
    some { s with memory := m, pc := pcPlus s.pc 5 }
  else if opcode = OPCODE_STOREAR then do
    let m ← store4 s.memory s.addrRegister.toInt s.aRegister
    some { s with memory := m, pc := pcPlus s.pc 5 }
  else if opcode = OPCODE_STOREBM then do
    let address ← operand s.memory s.pc
    let m ← store4 s.memory address s.bRegister
    some { s with memory := m, pc := pcPlus s.pc 5 }
  else if opcode = OPCODE_STOREBR then do
    let m ← store4 s.memory s.addrRegister.toInt s.bRegister
    some { s with memory := m, pc := pcPlus s.pc 5 }
  else if opcode = OPCODE_STORERM then do
    let address ← operand s.memory s.pc
    let m ← store4 s.memory address s.addrRegister
    some { s with memory := m, pc := pcPlus s.pc 5 }
  -- --- arithmetic
  else if opcode = OPCODE_ADDINT then
    storeResult s (Reg.ofInt (s.aRegister.toInt + s.bRegister.toInt))
  else if opcode = OPCODE_ADDFLOAT then
    storeResult s (fp.add s.aRegister s.bRegister)
  else if opcode = OPCODE_SUBINT then
    storeResult s (Reg.ofInt (s.aRegister.toInt - s.bRegister.toInt))
  else if opcode = OPCODE_SUBFLOAT then
    storeResult s (fp.sub s.aRegister s.bRegister)
  else if opcode = OPCODE_MULTINT then
    storeResult s (Reg.ofInt (s.aRegister.toInt * s.bRegister.toInt))
  else if opcode = OPCODE_MULTFLOAT then
    storeResult s (fp.mul s.aRegister s.bRegister)
  else if opcode = OPCODE_DIVINT then do
    let c ← divInt s.aRegister.toInt s.bRegister.toInt
    storeResult s (Reg.ofInt c)
  else if opcode = OPCODE_DIVFLOAT then
    storeResult s (fp.div s.aRegister s.bRegister)
  else if opcode = OPCODE_MODINT then do
    let c ← modInt s.aRegister.toInt s.bRegister.toInt
    storeResult s (Reg.ofInt c)
  -- --- branching
  else if opcode = OPCODE_CMPINT then
    some { s with flags := cmpFlags s.aRegister.toInt s.bRegister.toInt, pc := pcPlus s.pc 5 }
  else if opcode = OPCODE_JMP then jump s
  else if opcode = OPCODE_JEQ then jumpIf (flagSet s.flags FLAG_MASK_EQ) s
  else if opcode = OPCODE_JNE then jumpIf (flagSet s.flags FLAG_MASK_NE) s
  else if opcode = OPCODE_JLT then jumpIf (flagSet s.flags FLAG_MASK_LT) s
  else if opcode = OPCODE_JLE then jumpIf (flagSet s.flags (FLAG_MASK_LT ||| FLAG_MASK_EQ)) s
  else if opcode = OPCODE_JGT then jumpIf (flagSet s.flags FLAG_MASK_GT) s
  else if opcode = OPCODE_JGE then jumpIf (flagSet s.flags (FLAG_MASK_GT ||| FLAG_MASK_EQ)) s
  -- --- i/o
  else if opcode = OPCODE_PRINTINT then do
    let address ← operand s.memory s.pc
    let value ← wordAt s.memory address
    some { s with out := s.out ++ printfD value.toInt, pc := pcPlus s.pc 5 }
  else if opcode = OPCODE_PRINTCHAR then do
    let address ← operand s.memory s.pc
    let c ← (if 0 ≤ address then s.memory[address.toNat]? else none)
    some { s with out := s.out ++ printfC c, pc := pcPlus s.pc 5 }
  else if opcode = OPCODE_PRINTFLOAT then do
    let address ← operand s.memory s.pc
    let value ← wordAt s.memory address
    some { s with out := s.out ++ fp.fmt value, pc := pcPlus s.pc 5 }
  else if opcode = OPCODE_PRINTRINT then do
    let value ← wordAt s.memory s.addrRegister.toInt
    some { s with out := s.out ++ printfD value.toInt, pc := pcPlus s.pc 5 }
  else if opcode = OPCODE_PRINTRFLOAT then do
    let value ← wordAt s.memory s.addrRegister.toInt
    some { s with out := s.out ++ fp.fmt value, pc := pcPlus s.pc 5 }
  -- --- other
  else if opcode = OPCODE_HLT then
    some { s with status := Status.halted }
  else
    some { s with out := s.out ++ invalidOpcodeText opcode, status := Status.faulted }

/-- One evaluation of the loop: the loop condition, the fetch and the dispatch.  A state
that has left the loop is returned as it is. -/
def step (fp : FloatOps) (s : State) : Option State :=
  if s.status ≠ Status.running then some s
  else if s.pc < s.memory.length then
    (s.memory[s.pc]?).bind (execute fp s)
  else some { s with status := Status.offEnd }

/-- At most `n` iterations of the loop. -/
def run (fp : FloatOps) : Nat → State → Option State
  | 0, s => some s
  | n + 1, s => (step fp s).bind (run fp n)

/-! ## Start-up (driver.cpp, lines 254-380) -/

/-- The state before the first fetch, for the given buffer contents. -/
def initialState (memory : List Byte) : State :=
  { pc := 0, aRegister := Reg.zero, bRegister := Reg.zero, addrRegister := Reg.zero,
    flags := 0, memory := memory, out := "", status := Status.running }

/-- The copy `std::memcpy (memory, instructions, sizeof(instructions))` into the buffer
returned by `malloc`, whose prior contents `heap` the source does not initialise. -/
def loadImage (heap image : List Byte) : Option (List Byte) :=
  if image.length ≤ heap.length then some (image ++ heap.drop image.length) else none

/-- The little-endian instruction `opcode b0 b1 b2 b3`. -/
def instr (opcode : Byte) (r : Reg) : List Byte := [opcode, r.b0, r.b1, r.b2, r.b3]

/-- The `instructions` array of `main` (the print-array program). -/
def instructions : List Byte :=
  [OPCODE_LOADAI,    0x00, 0x00, 0x00, 0x00,
   OPCODE_LOADBI,    0x14, 0x00, 0x00, 0x00,
   OPCODE_CMPINT,    0x00, 0x00, 0x00, 0x00,
   OPCODE_JGE,       0x3c, 0x00, 0x00, 0x00,
   OPCODE_LOADBI,    0x41, 0x00, 0x00, 0x00,
   OPCODE_ADDINT,    0x55, 0x00, 0x00, 0x00,
   OPCODE_LOADRM,    0x55, 0x00, 0x00, 0x00,
   OPCODE_PRINTRINT, 0x00, 0x00, 0x00, 0x00,
   OPCODE_LOADBI,    0x04, 0x00, 0x00, 0x00,
   OPCODE_ADDINT,    0x59, 0x00, 0x00, 0x00,
   OPCODE_LOADAM,    0x59, 0x00, 0x00, 0x00,
   OPCODE_JMP,       0x05, 0x00, 0x00, 0x00,
   OPCODE_HLT,       0x00, 0x00, 0x00, 0x00,
   0x0f, 0x00, 0x00, 0x00,
   0x0d, 0x00, 0x00, 0x00,
   0x01, 0x00, 0x00, 0x00,
   0x02, 0x00, 0x00, 0x00,
   0x06, 0x00, 0x00, 0x00,
   0x00, 0x00, 0x00, 0x00,
   0x00, 0x00, 0x00, 0x00]

/-- The size `MEMORY_SIZE_BYTES = 32*4` of the buffer `main` allocates. -/
def MEMORY_SIZE_BYTES : Nat := 32 * 4

/-- The body of `main` for an arbitrary `image` in place of `instructions`: the copy into
the buffer with prior contents `heap`, then at most `n` loop iterations. -/
def runImage (fp : FloatOps) (n : Nat) (heap image : List Byte) : Option State :=
  (loadImage heap image).bind fun memory => run fp n (initialState memory)

/-- The program `main`, for the prior contents `heap` of the allocated buffer, cut off
after `n` loop iterations. -/
def main (fp : FloatOps) (n : Nat) (heap : List Byte) : Option State :=
  runImage fp n heap instructions

/-! ## Auxiliary definitions for the statements -/

/-- The state `s` with the bytes `t` appended to its memory. -/
def State.extend (s : State) (t : List Byte) : State := { s with memory := s.memory ++ t }

/-- Whatever `x` returns, `y` returns with `t` appended to the memory. -/
def Lifts (t : List Byte) (x y : Option State) : Prop :=
  ∀ s', x = some s' → y = some (s'.extend t)

/-- The state in which the print-array program stops, on a buffer that holds the image
and nothing else. -/
def printArrayFinal : State :=
  { pc := 0x3c
    aRegister := ⟨0x14, 0, 0, 0⟩
    bRegister := ⟨0x14, 0, 0, 0⟩
    addrRegister := ⟨0x51, 0, 0, 0⟩
    flags := 0b0010
    memory := instructions.take 0x55 ++ [0x51, 0, 0, 0, 0x14, 0, 0, 0]
    out := "1513126"
    status := Status.halted }

/-- The bytes `code` lie in `memory` from address `p` on. -/
@[reducible] def ProgAt (memory : List Byte) (p : Nat) (code : List Byte) : Prop :=
  (memory.drop p).take code.length = code

/-- The opcodes the dispatch chain of `execute` has a branch for, in chain order. -/
def handledOpcodes : List Byte :=
  [OPCODE_LOADAI, OPCODE_LOADAM, OPCODE_LOADAR, OPCODE_LOADBI, OPCODE_LOADBM,
   OPCODE_LOADBR, OPCODE_LOADRI, OPCODE_LOADRM, OPCODE_STOREAM, OPCODE_STOREAR,
   OPCODE_STOREBM, OPCODE_STOREBR, OPCODE_STORERM, OPCODE_ADDINT, OPCODE_ADDFLOAT,
   OPCODE_SUBINT, OPCODE_SUBFLOAT, OPCODE_MULTINT, OPCODE_MULTFLOAT, OPCODE_DIVINT,
   OPCODE_DIVFLOAT, OPCODE_MODINT, OPCODE_CMPINT, OPCODE_JMP,
   OPCODE_JEQ, OPCODE_JNE, OPCODE_JLT, OPCODE_JLE, OPCODE_JGT, OPCODE_JGE,
   OPCODE_PRINTINT, OPCODE_PRINTCHAR, OPCODE_PRINTFLOAT, OPCODE_PRINTRINT,
   OPCODE_PRINTRFLOAT, OPCODE_HLT]

/-- A register that has both a load-immediate and a store-direct instruction named in
the round-trip property. -/
inductive RegName where
  | A
  | B
deriving DecidableEq, Repr

/-- The opcode of `loadXi`. -/
def RegName.loadImm : RegName → Byte
  | RegName.A => OPCODE_LOADAI
  | RegName.B => OPCODE_LOADBI

/-- The opcode of `storeXm`. -/
def RegName.storeMem : RegName → Byte
  | RegName.A => OPCODE_STOREAM
  | RegName.B => OPCODE_STOREBM

/-- Float operations for closed examples in which no float instruction runs. -/
def idleFloatOps : FloatOps :=
  { add := fun a _ => a, sub := fun a _ => a, mul := fun a _ => a, div := fun a _ => a,
    fmt := fun _ => "" }

/-- The program `loadai 1.0f; loadbi 2.0f; cmpfloat; jlt 0x14; hlt; hlt`. -/
def cmpfloatProgram : List Byte :=
  instr OPCODE_LOADAI ⟨0x00, 0x00, 0x80, 0x3f⟩ ++ instr OPCODE_LOADBI ⟨0x00, 0x00, 0x00, 0x40⟩ ++
  instr OPCODE_CMPFLOAT Reg.zero ++ instr OPCODE_JLT ⟨0x14, 0, 0, 0⟩ ++
  instr OPCODE_HLT Reg.zero ++ instr OPCODE_HLT Reg.zero

/-- A state about to execute `divint 8` with `A = 7` and `B = 0`, in a 16-byte memory. -/
def divZeroState : State :=
  { initialState (instr OPCODE_DIVINT ⟨8, 0, 0, 0⟩ ++ List.replicate 11 0) with
    aRegister := ⟨7, 0, 0, 0⟩ }

/-- A state about to execute `modint 8` with `A = 7` and `B = 0`, in a 16-byte memory. -/
def modZeroState : State :=
  { initialState (instr OPCODE_MODINT ⟨8, 0, 0, 0⟩ ++ List.replicate 11 0) with
    aRegister := ⟨7, 0, 0, 0⟩ }

/-- The condition under which the handler of `opcode` overwrites the program counter
with its operand: `jmp` always, a conditional jump when its flag test succeeds. -/
def takesJump (flags : Byte) (opcode : Byte) : Bool :=
  opcode == OPCODE_JMP ||
  (opcode == OPCODE_JEQ && flagSet flags FLAG_MASK_EQ) ||
  (opcode == OPCODE_JNE && flagSet flags FLAG_MASK_NE) ||
  (opcode == OPCODE_JLT && flagSet flags FLAG_MASK_LT) ||
  (opcode == OPCODE_JLE && flagSet flags (FLAG_MASK_LT ||| FLAG_MASK_EQ)) ||
  (opcode == OPCODE_JGT && flagSet flags FLAG_MASK_GT) ||
  (opcode == OPCODE_JGE && flagSet flags (FLAG_MASK_GT ||| FLAG_MASK_EQ))

/-- The image `printint 0x0a; hlt`: ten bytes, whose `printint` reads the four bytes that
follow the image. -/
def readsPastImage : List Byte :=
  instr OPCODE_PRINTINT ⟨0x0a, 0, 0, 0⟩ ++ instr OPCODE_HLT Reg.zero

/-- What one pass through the dispatch chain does to the program counter and to the
loop: a fall-through of five bytes, a jump to the operand, or a `break`. -/
def PcEffect (s : State) (op : Byte) (x : Option State) : Prop :=
  ∀ s', x = some s' →
    (s'.pc = pcPlus s.pc 5 ∧ s'.status = s.status ∧ takesJump s.flags op = false ∧
      op ∈ handledOpcodes ∧ op ≠ OPCODE_HLT) ∨
    (takesJump s.flags op = true ∧ s'.status = s.status ∧
      (operand s.memory s.pc).map toUnsigned = some s'.pc) ∨
    (s'.pc = s.pc ∧ s'.status ≠ Status.running ∧ (op = OPCODE_HLT ∨ op ∉ handledOpcodes))

/-- A state about to execute `printrint` with `R = 0`, in a 5-byte memory. -/
def printrintState : State := initialState (instr OPCODE_PRINTRINT ⟨0xaa, 0xbb, 0xcc, 0xdd⟩)

/-- A state about to execute `jmp 1` at address 0, in a 5-byte memory. -/
def jmpPlusOneState : State := initialState (instr OPCODE_JMP ⟨1, 0, 0, 0⟩)

/-- The three registers: `aRegister`, `bRegister`, `addrRegister`. -/
inductive RegId where
  | A
  | B
  | R
deriving DecidableEq, Repr

/-- The opcode of the load-immediate instruction of a register. -/
def RegId.loadi : RegId → Byte
  | RegId.A => OPCODE_LOADAI
  | RegId.B => OPCODE_LOADBI
  | RegId.R => OPCODE_LOADRI

/-- The opcode of the load-direct instruction of a register. -/
def RegId.loadm : RegId → Byte
  | RegId.A => OPCODE_LOADAM
  | RegId.B => OPCODE_LOADBM
  | RegId.R => OPCODE_LOADRM

/-- The opcode of the store-direct instruction of a register. -/
def RegId.storem : RegId → Byte
  | RegId.A => OPCODE_STOREAM
  | RegId.B => OPCODE_STOREBM
  | RegId.R => OPCODE_STORERM

/-- The contents of a register in a state. -/
def State.reg (s : State) : RegId → Reg
  | RegId.A => s.aRegister
  | RegId.B => s.bRegister
  | RegId.R => s.addrRegister

/-- The state with one register replaced. -/
def State.setReg (s : State) (X : RegId) (v : Reg) : State :=
  match X with
  | RegId.A => { s with aRegister := v }
  | RegId.B => { s with bRegister := v }
  | RegId.R => { s with addrRegister := v }

/-- The memory after the four byte writes of a store at address `a`. -/
def poke4 (m : List Byte) (a : Nat) (r : Reg) : List Byte :=
  (((m.set a r.b0).set (a + 1) r.b1).set (a + 2) r.b2).set (a + 3) r.b3

/-- A state about to execute `loadrm 8`, with data bytes `de ad be ef` at address 8. -/
def loadrmState : State :=
  { initialState (instr OPCODE_LOADRM ⟨8, 0, 0, 0⟩ ++ [0, 0, 0, 0xde, 0xad, 0xbe, 0xef, 0]) with
    aRegister := ⟨1, 2, 3, 4⟩, bRegister := ⟨5, 6, 7, 8⟩, flags := 0b0101, out := "x" }

/-- A state about to execute `stoream 256` (operand bytes `00 01 00 00`) with
`A = 11 22 33 44`, in a 260-byte memory. -/
def stoream256State : State :=
  { initialState (instr OPCODE_STOREAM ⟨0x00, 0x01, 0x00, 0x00⟩ ++ List.replicate 255 0) with
    aRegister := ⟨0x11, 0x22, 0x33, 0x44⟩ }

/-- The three integer operations whose result is always defined. -/
inductive IntOp where
  | add
  | sub
  | mul
deriving DecidableEq, Repr

/-- The opcode of an integer operation. -/
def IntOp.opcode : IntOp → Byte
  | IntOp.add => OPCODE_ADDINT
  | IntOp.sub => OPCODE_SUBINT
  | IntOp.mul => OPCODE_MULTINT

/-- The mathematical result of an integer operation. -/
def IntOp.eval : IntOp → Int → Int → Int
  | IntOp.add, a, b => a + b
  | IntOp.sub, a, b => a - b
  | IntOp.mul, a, b => a * b

/-- An integer reduced modulo `2^32` to the range `0 .. 2^32 - 1`. -/
def wrap32 (x : Int) : Nat := (x % 4294967296).toNat

/-- A state about to execute `multint 8` with `A = 65536` and `B = -65536`, in a 12-byte
memory whose last four bytes are `ff`. -/
def multintState : State :=
  { initialState (instr OPCODE_MULTINT ⟨8, 0, 0, 0⟩ ++ [0, 0, 0, 0xff, 0xff, 0xff, 0xff]) with
    aRegister := ⟨0, 0, 1, 0⟩, bRegister := ⟨0, 0, 0xff, 0xff⟩ }

/-- A state about to execute `cmpint` with `A = INT32_MIN`, `B = 1` and all flag bits set. -/
def cmpintMinState : State :=
  { initialState (instr OPCODE_CMPINT Reg.zero) with
    aRegister := ⟨0, 0, 0, 0x80⟩, bRegister := ⟨1, 0, 0, 0⟩, flags := 0xff }

/-- The six conditional jumps. -/
inductive CondJump where
  | jeq
  | jne
  | jlt
  | jle
  | jgt
  | jge
deriving DecidableEq, Repr

/-- The opcode of a conditional jump. -/
def CondJump.opcode : CondJump → Byte
  | CondJump.jeq => OPCODE_JEQ
  | CondJump.jne => OPCODE_JNE
  | CondJump.jlt => OPCODE_JLT
  | CondJump.jle => OPCODE_JLE
  | CondJump.jgt => OPCODE_JGT
  | CondJump.jge => OPCODE_JGE

/-- The flag condition of a conditional jump, in terms of the single flag bits: EQ for
`jeq`, NE for `jne`, LT for `jlt`, LT or EQ for `jle`, GT for `jgt`, GT or EQ for `jge`. -/
def CondJump.holds (f : Byte) : CondJump → Bool
  | CondJump.jeq => flagSet f FLAG_MASK_EQ
  | CondJump.jne => flagSet f FLAG_MASK_NE
  | CondJump.jlt => flagSet f FLAG_MASK_LT
  | CondJump.jle => flagSet f FLAG_MASK_LT || flagSet f FLAG_MASK_EQ
  | CondJump.jgt => flagSet f FLAG_MASK_GT
  | CondJump.jge => flagSet f FLAG_MASK_GT || flagSet f FLAG_MASK_EQ

/-- A state about to execute `jmp 0xffffffff`, in a 5-byte memory. -/
def jmpFarState : State := initialState [OPCODE_JMP, 0xff, 0xff, 0xff, 0xff]

/-- A state about to execute `jle 0x0100` with only the EQ flag set. -/
def jleState : State :=
  { initialState (instr OPCODE_JLE ⟨0x00, 0x01, 0x00, 0x00⟩) with flags := FLAG_MASK_EQ }

/-- The decimal text of an integer: its digits, after a `-` when it is negative. -/
def decimal (v : Int) : String :=
  if v < 0 then "-" ++ String.mk (Nat.toDigits 10 v.natAbs) else String.mk (Nat.toDigits 10 v.toNat)

/-- A state about to execute `printint 5` on the bytes `fe ff ff ff` (the int -2), with
`ab` already written to the output. -/
def printintState : State :=
  { initialState (instr OPCODE_PRINTINT ⟨5, 0, 0, 0⟩ ++ [0xfe, 0xff, 0xff, 0xff]) with
    out := "ab" }

/-- A state about to execute `hlt`, followed in memory by `printint 0` and an invalid
byte; registers, flags and output are not at their initial values. -/
def hltThenCodeState : State :=
  { initialState (instr OPCODE_HLT ⟨1, 2, 3, 4⟩ ++ instr OPCODE_PRINTINT Reg.zero ++ [0x00]) with
    aRegister := ⟨9, 9, 9, 9⟩, flags := 0b1001, out := "out" }

/-- The five instructions that take their address from the register `R`. -/
inductive Indirect where
  | loadar
  | loadbr
  | storear
  | storebr
  | printrint
deriving DecidableEq, Repr

/-- The opcode of an `R`-suffixed instruction. -/
def Indirect.opcode : Indirect → Byte
  | Indirect.loadar => OPCODE_LOADAR
  | Indirect.loadbr => OPCODE_LOADBR
  | Indirect.storear => OPCODE_STOREAR
  | Indirect.storebr => OPCODE_STOREBR
  | Indirect.printrint => OPCODE_PRINTRINT

/-- The opcode of the direct counterpart of an `R`-suffixed instruction. -/
def Indirect.direct : Indirect → Byte
  | Indirect.loadar => OPCODE_LOADAM
  | Indirect.loadbr => OPCODE_LOADBM
  | Indirect.storear => OPCODE_STOREAM
  | Indirect.storebr => OPCODE_STOREBM
  | Indirect.printrint => OPCODE_PRINTINT

/-- Whether the instruction reads the four bytes addressed by `R` (the loads and
`printrint`) rather than writing them (the stores). -/
def Indirect.reads : Indirect → Bool
  | Indirect.loadar => true
  | Indirect.loadbr => true
  | Indirect.storear => false
  | Indirect.storebr => false
  | Indirect.printrint => true

/-- The memory with the five bytes at `p` replaced by the instruction `op r`. -/
def setInstr (m : List Byte) (p : Nat) (op : Byte) (r : Reg) : List Byte :=
  ((((m.set p op).set (p + 1) r.b0).set (p + 2) r.b1).set (p + 3) r.b2).set (p + 4) r.b3

/-- The state in which the instruction at the program counter is replaced by `op r`. -/
def State.withInstr (s : State) (op : Byte) (r : Reg) : State :=
  { s with memory := setInstr s.memory s.pc op r }

/-- Two results of a step are both undefined, or both defined and equal in program counter,
registers, flags, output, loop state and memory size, and in every memory byte outside the
five bytes `p .. p+4`. -/
def SameOutside (p : Nat) (x y : Option State) : Prop :=
  match x, y with
  | some a, some b =>
      a.pc = b.pc ∧ a.aRegister = b.aRegister ∧ a.bRegister = b.bRegister ∧
      a.addrRegister = b.addrRegister ∧ a.flags = b.flags ∧ a.out = b.out ∧
      a.status = b.status ∧ a.memory.length = b.memory.length ∧
      ∀ j, j < p ∨ p + 4 < j → a.memory[j]? = b.memory[j]?
  | none, none => True
  | _, _ => False

/-- A state about to execute `loadar` with operand bytes `09 09 09 09` and `R = 1`: the
register addresses the operand field of the instruction itself. -/
def loadarSelfState : State :=
  { initialState (instr OPCODE_LOADAR ⟨9, 9, 9, 9⟩) with addrRegister := ⟨1, 0, 0, 0⟩ }

/-- A state about to execute `loadar` with operand bytes `09 09 09 09` and `R = 5`: the
register addresses the four data bytes `de ad be ef` after the instruction. -/
def loadarState : State :=
  { initialState (instr OPCODE_LOADAR ⟨9, 9, 9, 9⟩ ++ [0xde, 0xad, 0xbe, 0xef]) with
    addrRegister := ⟨5, 0, 0, 0⟩ }

/-- A state whose program counter, 5, is the size of its 5-byte memory. -/
def pastEndState : State := { initialState (instr OPCODE_HLT Reg.zero) with pc := 5 }

/-- A state about to execute `jmp 0x80000000`, in a 5-byte memory. -/
def jmpTopBitState : State := initialState (instr OPCODE_JMP ⟨0, 0, 0, 0x80⟩)

/-- The image `jmp 0`: one instruction at address 0 that jumps to itself. -/
def jmpSelf : List Byte := instr OPCODE_JMP Reg.zero

/-- What one pass through the dispatch chain does to the flags byte: nothing, or, for
`cmpint`, the assignment of the comparison result. -/
def FlagsEffect (s : State) (op : Byte) (x : Option State) : Prop :=
  ∀ s', x = some s' →
    s'.flags = s.flags ∨
    (op = OPCODE_CMPINT ∧ s'.flags = cmpFlags s.aRegister.toInt s.bRegister.toInt)

/-- The four flag bytes named by the specification: clear, EQ, LT|NE, GT|NE. -/
def validFlags : List Byte := [0b0000, 0b0010, 0b0101, 0b1001]

/-- The image `loadbi 1; cmpint`, which compares `A = 0` with `B = 1`. -/
def cmpLessProgram : List Byte :=
  instr OPCODE_LOADBI ⟨1, 0, 0, 0⟩ ++ instr OPCODE_CMPINT Reg.zero

/-- The image `loadai 1; cmpint`, which compares `A = 1` with `B = 0`. -/
def cmpGreaterProgram : List Byte :=
  instr OPCODE_LOADAI ⟨1, 0, 0, 0⟩ ++ instr OPCODE_CMPINT Reg.zero

/-- No `cmpint` is executed in the first `n` loop passes from `s`. -/
def NoCompare (fp : FloatOps) (s : State) (n : Nat) : Prop :=
  ∀ k, k < n → ∀ u, run fp k s = some u → u.status = Status.running →
    u.memory[u.pc]? ≠ some OPCODE_CMPINT

/-- The image `loadai 0x000000ff; stoream 10` followed by four zero bytes: the store
writes to address 10, the address of the next instruction. -/
def selfModProgram : List Byte :=
  instr OPCODE_LOADAI ⟨0xff, 0, 0, 0⟩ ++ instr OPCODE_STOREAM ⟨10, 0, 0, 0⟩ ++ [0, 0, 0, 0]

/-- The memory `selfModProgram ++ rest` after its store has been executed. -/
def selfModStored (rest : List Byte) : List Byte :=
  instr OPCODE_LOADAI ⟨0xff, 0, 0, 0⟩ ++ instr OPCODE_STOREAM ⟨10, 0, 0, 0⟩ ++
    [0xff, 0, 0, 0] ++ rest

/-- The signed relation that the name of a conditional jump states. -/
def CondJump.rel : CondJump → Int → Int → Bool
  | CondJump.jeq, a, b => decide (a = b)
  | CondJump.jne, a, b => decide (a ≠ b)
  | CondJump.jlt, a, b => decide (a < b)
  | CondJump.jle, a, b => decide (a ≤ b)
  | CondJump.jgt, a, b => decide (a > b)
  | CondJump.jge, a, b => decide (a ≥ b)

/-- The two integer division instructions. -/
inductive DivOp where
  | div
  | mod
deriving DecidableEq, Repr

/-- The opcode of a division instruction. -/
def DivOp.opcode : DivOp → Byte
  | DivOp.div => OPCODE_DIVINT
  | DivOp.mod => OPCODE_MODINT

/-- The member of the pair (quotient, remainder) that a division instruction stores. -/
def DivOp.pick : DivOp → Int → Int → Int
  | DivOp.div, q, _ => q
  | DivOp.mod, _, r => r

/-- A state about to execute `divint 8` with `A = -7` and `B = 2`, in a 12-byte memory. -/
def divintState : State :=
  { initialState (instr OPCODE_DIVINT ⟨8, 0, 0, 0⟩ ++ List.replicate 7 0) with
    aRegister := ⟨0xf9, 0xff, 0xff, 0xff⟩, bRegister := ⟨2, 0, 0, 0⟩ }

/-- A state about to execute `modint 8` with `A = -7` and `B = 2`, in a 12-byte memory. -/
def modintState : State :=
  { initialState (instr OPCODE_MODINT ⟨8, 0, 0, 0⟩ ++ List.replicate 7 0) with
    aRegister := ⟨0xf9, 0xff, 0xff, 0xff⟩, bRegister := ⟨2, 0, 0, 0⟩ }

/-- A branch of the dispatch chain: the opcode constant it compares the fetched opcode
with, and its body. -/
@[reducible] def Branch : Type := Byte × (FloatOps → State → Option State)

/-- The branches of the dispatch chain of `execute`, in source order. -/
def branches : List Branch :=
  [(OPCODE_LOADAI, fun _ s => do
      let v ← immediate s.memory s.pc
      some { s with aRegister := v, pc := pcPlus s.pc 5 }),
   (OPCODE_LOADAM, fun _ s => do
      let address ← operand s.memory s.pc
      let v ← load4 s.memory address
      some { s with aRegister := v, pc := pcPlus s.pc 5 }),
   (OPCODE_LOADAR, fun _ s => do
      let v ← load4 s.memory s.addrRegister.toInt
      some { s with aRegister := v, pc := pcPlus s.pc 5 }),
   (OPCODE_LOADBI, fun _ s => do
      let v ← immediate s.memory s.pc
      some { s with bRegister := v, pc := pcPlus s.pc 5 }),
   (OPCODE_LOADBM, fun _ s => do
      let address ← operand s.memory s.pc
      let v ← load4 s.memory address
      some { s with bRegister := v, pc := pcPlus s.pc 5 }),
   (OPCODE_LOADBR, fun _ s => do
      let v ← load4 s.memory s.addrRegister.toInt
      some { s with bRegister := v, pc := pcPlus s.pc 5 }),
   (OPCODE_LOADRI, fun _ s => do
      let v ← immediate s.memory s.pc
      some { s with addrRegister := v, pc := pcPlus s.pc 5 }),
   (OPCODE_LOADRM, fun _ s => do
      let address ← operand s.memory s.pc
      let v ← load4 s.memory address
      some { s with addrRegister := v, pc := pcPlus s.pc 5 }),
   (OPCODE_STOREAM, fun _ s => do
      let address ← operand s.memory s.pc
      let m ← store4 s.memory address s.aRegister
      some { s with memory := m, pc := pcPlus s.pc 5 }),
   (OPCODE_STOREAR, fun _ s => do
      let m ← store4 s.memory s.addrRegister.toInt s.aRegister
      some { s with memory := m, pc := pcPlus s.pc 5 }),
   (OPCODE_STOREBM, fun _ s => do
      let address ← operand s.memory s.pc
      let m ← store4 s.memory address s.bRegister
      some { s with memory := m, pc := pcPlus s.pc 5 }),
   (OPCODE_STOREBR, fun _ s => do
      let m ← store4 s.memory s.addrRegister.toInt s.bRegister
      some { s with memory := m, pc := pcPlus s.pc 5 }),
   (OPCODE_STORERM, fun _ s => do
      let address ← operand s.memory s.pc
      let m ← store4 s.memory address s.addrRegister
      some { s with memory := m, pc := pcPlus s.pc 5 }),
   (OPCODE_ADDINT, fun _ s =>
      storeResult s (Reg.ofInt (s.aRegister.toInt + s.bRegister.toInt))),
   (OPCODE_ADDFLOAT, fun fp s => storeResult s (fp.add s.aRegister s.bRegister)),
   (OPCODE_SUBINT, fun _ s =>
      storeResult s (Reg.ofInt (s.aRegister.toInt - s.bRegister.toInt))),
   (OPCODE_SUBFLOAT, fun fp s => storeResult s (fp.sub s.aRegister s.bRegister)),
   (OPCODE_MULTINT, fun _ s =>
      storeResult s (Reg.ofInt (s.aRegister.toInt * s.bRegister.toInt))),
   (OPCODE_MULTFLOAT, fun fp s => storeResult s (fp.mul s.aRegister s.bRegister)),
   (OPCODE_DIVINT, fun _ s => do
      let c ← divInt s.aRegister.toInt s.bRegister.toInt
      storeResult s (Reg.ofInt c)),
   (OPCODE_DIVFLOAT, fun fp s => storeResult s (fp.div s.aRegister s.bRegister)),
   (OPCODE_MODINT, fun _ s => do
      let c ← modInt s.aRegister.toInt s.bRegister.toInt
      storeResult s (Reg.ofInt c)),
   (OPCODE_CMPINT, fun _ s =>
      some { s with flags := cmpFlags s.aRegister.toInt s.bRegister.toInt,
                    pc := pcPlus s.pc 5 }),
   (OPCODE_JMP, fun _ s => jump s),
   (OPCODE_JEQ, fun _ s => jumpIf (flagSet s.flags FLAG_MASK_EQ) s),
   (OPCODE_JNE, fun _ s => jumpIf (flagSet s.flags FLAG_MASK_NE) s),
   (OPCODE_JLT, fun _ s => jumpIf (flagSet s.flags FLAG_MASK_LT) s),
   (OPCODE_JLE, fun _ s => jumpIf (flagSet s.flags (FLAG_MASK_LT ||| FLAG_MASK_EQ)) s),
   (OPCODE_JGT, fun _ s => jumpIf (flagSet s.flags FLAG_MASK_GT) s),
   (OPCODE_JGE, fun _ s => jumpIf (flagSet s.flags (FLAG_MASK_GT ||| FLAG_MASK_EQ)) s),
   (OPCODE_PRINTINT, fun _ s => do
      let address ← operand s.memory s.pc
      let value ← wordAt s.memory address
      some { s with out := s.out ++ printfD value.toInt, pc := pcPlus s.pc 5 }),
   (OPCODE_PRINTCHAR, fun _ s => do
      let address ← operand s.memory s.pc
      let c ← (if 0 ≤ address then s.memory[address.toNat]? else none)
      some { s with out := s.out ++ printfC c, pc := pcPlus s.pc 5 }),
   (OPCODE_PRINTFLOAT, fun fp s => do
      let address ← operand s.memory s.pc
      let value ← wordAt s.memory address
      some { s with out := s.out ++ fp.fmt value, pc := pcPlus s.pc 5 }),
   (OPCODE_PRINTRINT, fun _ s => do
      let value ← wordAt s.memory s.addrRegister.toInt
      some { s with out := s.out ++ printfD value.toInt, pc := pcPlus s.pc 5 }),
   (OPCODE_PRINTRFLOAT, fun fp s => do
      let value ← wordAt s.memory s.addrRegister.toInt
      some { s with out := s.out ++ fp.fmt value, pc := pcPlus s.pc 5 }),
   (OPCODE_HLT, fun _ s => some { s with status := Status.halted })]

/-- An if-else chain that tries the branches `bs` in list order and ends in the `else`
of the dispatch chain, the invalid-opcode diagnostic. -/
def dispatch (bs : List Branch) (fp : FloatOps) (s : State) (opcode : Byte) : Option State :=
  match bs with
  | [] => some { s with out := s.out ++ invalidOpcodeText opcode, status := Status.faulted }
  | b :: rest => if opcode = b.1 then b.2 fp s else dispatch rest fp s opcode

/-- One pass through the dispatch chain leaves the size of the memory as it is. -/
def LengthEffect (s : State) (x : Option State) : Prop :=
  ∀ s', x = some s' → s'.memory.length = s.memory.length

/-- No jump is taken in the first `n` loop passes from `s`: no pass that fetches an
opcode fetches `jmp` or a conditional jump whose flag test succeeds. -/
def NoJump (fp : FloatOps) (s : State) (n : Nat) : Prop :=
  ∀ k, k < n → ∀ u, run fp k s = some u → u.status = Status.running →
    ∀ op, u.memory[u.pc]? = some op → takesJump u.flags op = false

/-- A 7-byte memory that holds the opcode of `cmpint` at addresses 0 and 5. -/
def cmpintTwice : List Byte := [OPCODE_CMPINT, 0, 0, 0, 0, OPCODE_CMPINT, 0]

/-- The state in which the run on `cmpintTwice` leaves the loop: two `cmpint` executed,
program counter 10. -/
def cmpintTwiceEnd : State :=
  { initialState cmpintTwice with flags := 0b0010, pc := 10, status := Status.offEnd }

/-- A 128-byte image: `jmp 0x7f` at address 0, zero bytes, and the opcode of `hlt` in the
last byte, at address 127. -/
def jmpToLastByte : List Byte :=
  instr OPCODE_JMP ⟨0x7f, 0, 0, 0⟩ ++ List.replicate 122 0 ++ [OPCODE_HLT]

/-- The state of the run on `jmpToLastByte` after its jump: program counter 127. -/
def atLastByteState : State := { initialState jmpToLastByte with pc := 127 }

/-- A running state with the opcode of `loadai` in the last byte of a 128-byte memory. -/
def loadaiLastByteState : State :=
  { initialState (List.replicate 127 0 ++ [OPCODE_LOADAI]) with pc := 127 }

/-- The opcodes whose handlers read the operand field `memory[pc+1 .. pc+4]` whatever the
registers and flags are. -/
def operandReaders : List Byte :=
  [OPCODE_LOADAI, OPCODE_LOADAM, OPCODE_LOADBI, OPCODE_LOADBM, OPCODE_LOADRI, OPCODE_LOADRM,
   OPCODE_STOREAM, OPCODE_STOREBM, OPCODE_STORERM, OPCODE_ADDINT, OPCODE_ADDFLOAT,
   OPCODE_SUBINT, OPCODE_SUBFLOAT, OPCODE_MULTINT, OPCODE_MULTFLOAT, OPCODE_DIVFLOAT,
   OPCODE_JMP, OPCODE_PRINTINT, OPCODE_PRINTCHAR, OPCODE_PRINTFLOAT]

/-! ## The alternate instruction set (assembler.cpp, lines 19-208)

The file declares opcode constants only.  Each is initialised with `opcode_counter++`;
the initialisers of one translation unit run in declaration order. -/

namespace Assembler

/-- The declaration `byte opcode_counter = 0b00000001;` (line 22). -/
def opcode_counter : Byte := 0b00000001

/-- The expression `opcode_counter++` for the counter value `c`: its value, which is `c`,
and the counter afterwards, which is `c + 1` converted back to `byte`. -/
def postIncrement (c : Byte) : Byte × Byte :=
  (c, ⟨(c.val + 1) % 256, Nat.mod_lt _ (by decide)⟩)

/-- The counter after the initialisers of the first `k` opcode constants have run. -/
def counterAfter : Nat → Byte
  | 0 => opcode_counter
  | k + 1 => (postIncrement (counterAfter k)).2

def OPCODE_LUI : Byte := (postIncrement (counterAfter 0)).1
def OPCODE_LLI : Byte := (postIncrement (counterAfter 1)).1
def OPCODE_LB : Byte := (postIncrement (counterAfter 2)).1
def OPCODE_LH : Byte := (postIncrement (counterAfter 3)).1
def OPCODE_LW : Byte := (postIncrement (counterAfter 4)).1
def OPCODE_SB : Byte := (postIncrement (counterAfter 5)).1
def OPCODE_SH : Byte := (postIncrement (counterAfter 6)).1
def OPCODE_SW : Byte := (postIncrement (counterAfter 7)).1
def OPCODE_ADD : Byte := (postIncrement (counterAfter 8)).1
def OPCODE_SUB : Byte := (postIncrement (counterAfter 9)).1
def OPCODE_MUL : Byte := (postIncrement (counterAfter 10)).1
def OPCODE_DIV : Byte := (postIncrement (counterAfter 11)).1
def OPCODE_MOD : Byte := (postIncrement (counterAfter 12)).1
def OPCODE_SLL : Byte := (postIncrement (counterAfter 13)).1
def OPCODE_SRL : Byte := (postIncrement (counterAfter 14)).1
def OPCODE_SRA : Byte := (postIncrement (counterAfter 15)).1
def OPCODE_OR : Byte := (postIncrement (counterAfter 16)).1
def OPCODE_AND : Byte := (postIncrement (counterAfter 17)).1
def OPCODE_XOR : Byte := (postIncrement (counterAfter 18)).1
def OPCODE_ADDI : Byte := (postIncrement (counterAfter 19)).1
def OPCODE_SUBI : Byte := (postIncrement (counterAfter 20)).1
def OPCODE_MULI : Byte := (postIncrement (counterAfter 21)).1
def OPCODE_DIVI : Byte := (postIncrement (counterAfter 22)).1
def OPCODE_MODI : Byte := (postIncrement (counterAfter 23)).1
def OPCODE_SLLI : Byte := (postIncrement (counterAfter 24)).1
def OPCODE_SRLI : Byte := (postIncrement (counterAfter 25)).1
def OPCODE_SRAI : Byte := (postIncrement (counterAfter 26)).1
def OPCODE_ORI : Byte := (postIncrement (counterAfter 27)).1
def OPCODE_ANDI : Byte := (postIncrement (counterAfter 28)).1
def OPCODE_XORI : Byte := (postIncrement (counterAfter 29)).1
def OPCODE_BEQ : Byte := (postIncrement (counterAfter 30)).1
def OPCODE_BNE : Byte := (postIncrement (counterAfter 31)).1
def OPCODE_BLT : Byte := (postIncrement (counterAfter 32)).1
def OPCODE_BLE : Byte := (postIncrement (counterAfter 33)).1
def OPCODE_BGT : Byte := (postIncrement (counterAfter 34)).1
def OPCODE_BGE : Byte := (postIncrement (counterAfter 35)).1
def OPCODE_JMP : Byte := (postIncrement (counterAfter 36)).1
def OPCODE_CALL : Byte := (postIncrement (counterAfter 37)).1
def OPCODE_RET : Byte := (postIncrement (counterAfter 38)).1
def OPCODE_PUSH : Byte := (postIncrement (counterAfter 39)).1
def OPCODE_POP : Byte := (postIncrement (counterAfter 40)).1
def OPCODE_NOP : Byte := (postIncrement (counterAfter 41)).1
def OPCODE_HLT : Byte := (postIncrement (counterAfter 42)).1
def OPCODE_GETCHAR : Byte := (postIncrement (counterAfter 43)).1
def OPCODE_PUTCHAR : Byte := (postIncrement (counterAfter 44)).1

/-- The opcode constants of `assembler.cpp`, in declaration order. -/
def declaredOpcodes : List Byte :=
  [OPCODE_LUI, OPCODE_LLI, OPCODE_LB, OPCODE_LH, OPCODE_LW, OPCODE_SB, OPCODE_SH, OPCODE_SW,
   OPCODE_ADD, OPCODE_SUB, OPCODE_MUL, OPCODE_DIV, OPCODE_MOD, OPCODE_SLL, OPCODE_SRL,
   OPCODE_SRA, OPCODE_OR, OPCODE_AND, OPCODE_XOR, OPCODE_ADDI, OPCODE_SUBI, OPCODE_MULI,
   OPCODE_DIVI, OPCODE_MODI, OPCODE_SLLI, OPCODE_SRLI, OPCODE_SRAI, OPCODE_ORI, OPCODE_ANDI,
   OPCODE_XORI, OPCODE_BEQ, OPCODE_BNE, OPCODE_BLT, OPCODE_BLE, OPCODE_BGT, OPCODE_BGE,
   OPCODE_JMP, OPCODE_CALL, OPCODE_RET, OPCODE_PUSH, OPCODE_POP, OPCODE_NOP, OPCODE_HLT,
   OPCODE_GETCHAR, OPCODE_PUTCHAR]

end Assembler

/-! ## The buffer reads of `printMemory` (driver.cpp, lines 202-246)

The body of `printMemory` touches the buffer only in the expressions `memory[j]` of its
two inner loops, eight times per byte in the binary column and twice in the hex column;
it has no assignment through `memory`.  The functions below list the indices `j` of
these reads in execution order; the printed text is left out. -/

/-- The largest `int`. -/
def INT_MAX : Int := 2147483647

/-- The smallest `int`. -/
def INT_MIN : Int := -2147483648

/-- The values of `j` in a loop `for (int j = i; j < bound; ++j)`. -/
def forRange (i bound : Int) : List Int :=
  (List.range (bound - i).toNat).map fun (k : Nat) => i + (k : Int)

/-- The indices read while one line is printed: the loop of the binary column, then the
loop of the hex column, both `for (int j = i; j < i+bytesPerLine; ++j)`. -/
def lineReads (i bytesPerLine : Int) : List Int :=
  (forRange i (i + bytesPerLine)).flatMap (fun j => List.replicate 8 j) ++
  (forRange i (i + bytesPerLine)).flatMap (fun j => List.replicate 2 j)

/-- The outer loop `for (int i = ..; i < memory_size; i+=bytesPerLine)` from the value
`i`, for at most `fuel` lines.  There is no result when `i + bytesPerLine` is not an
`int`, or when the loop has not ended after `fuel` lines. -/
def printMemoryFrom (memory_size bytesPerLine : Int) : Nat → Int → Option (List Int)
  | 0, i => if i < memory_size then none else some []
  | fuel + 1, i =>
    if i < memory_size then
      if INT_MIN ≤ i + bytesPerLine ∧ i + bytesPerLine ≤ INT_MAX then
        (printMemoryFrom memory_size bytesPerLine fuel (i + bytesPerLine)).map
          fun rest => lineReads i bytesPerLine ++ rest
      else none
    else some []

/-- The indices of the buffer reads of `printMemory (memory, memory_size, bytesPerLine)`,
in execution order.  With `bytesPerLine >= 1` the loop prints at most `memory_size`
lines. -/
def printMemoryReads (memory_size bytesPerLine : Int) : Option (List Int) :=
  printMemoryFrom memory_size bytesPerLine memory_size.toNat 0

/-- The character of a hexadecimal digit in lower case: `0` to `9` for the values 0 to 9,
`a` to `f` for the values 10 to 15. -/
def lowerHexDigit (d : Nat) : Char :=
  if d < 10 then Char.ofNat ('0'.toNat + d) else Char.ofNat ('a'.toNat + (d - 10))

/-- The 16-byte image `divint 8` followed by zero bytes: from the initial state its first
pass divides `A = 0` by `B = 0`. -/
def divZeroImage : List Byte := instr OPCODE_DIVINT ⟨8, 0, 0, 0⟩ ++ List.replicate 11 0

/-- An 8-byte memory: `loadai 0` at address 0 and the opcode of `loadai` at address 5,
whose operand field would be the bytes 6 to 9. -/
def loadaiCutOff : List Byte := instr OPCODE_LOADAI Reg.zero ++ [OPCODE_LOADAI, 0, 0]

/-! # Theorems -/

/-! ## Growing the buffer: a run that stays inside a prefix never sees the rest -/

theorem getElem?_append_some {m : List Byte} {i : Nat} {v : Byte} (t : List Byte)
    (h : m[i]? = some v) : (m ++ t)[i]? = some v := by
  have hi : i < m.length := by
    by_contra hc
    rw [List.getElem?_eq_none (by omega)] at h
    cases h
  rw [List.getElem?_append_left hi]
  exact h

theorem readAt_append {m : List Byte} {i : Int} {v : Byte} (t : List Byte)
    (h : readAt m i = some v) : readAt (m ++ t) i = some v := by
  unfold readAt at h ⊢
  split_ifs at h ⊢ with hc
  · exact getElem?_append_some t h

theorem writeAt_append {m m' : List Byte} {i : Int} {v : Byte} (t : List Byte)
    (h : writeAt m i v = some m') : writeAt (m ++ t) i v = some (m' ++ t) := by
  unfold writeAt at h ⊢
  by_cases hc : 0 ≤ i ∧ i < 2147483648 ∧ i.toNat < m.length
  · rw [if_pos hc] at h
    have hc' : 0 ≤ i ∧ i < 2147483648 ∧ i.toNat < (m ++ t).length :=
      ⟨hc.1, hc.2.1, by rw [List.length_append]; omega⟩
    rw [if_pos hc', List.set_append_left _ _ hc.2.2]
    cases h
    rfl
  · rw [if_neg hc] at h
    cases h

theorem load4_append {m : List Byte} {a : Int} {r : Reg} (t : List Byte)
    (h : load4 m a = some r) : load4 (m ++ t) a = some r := by
  simp only [load4, bind, Option.bind_eq_some] at h ⊢
  obtain ⟨x0, h0, x1, h1, x2, h2, x3, h3, hr⟩ := h
  exact ⟨x0, readAt_append t h0, x1, readAt_append t h1, x2, readAt_append t h2,
    x3, readAt_append t h3, hr⟩

theorem store4_append {m m' : List Byte} {a : Int} {r : Reg} (t : List Byte)
    (h : store4 m a r = some m') : store4 (m ++ t) a r = some (m' ++ t) := by
  simp only [store4, bind, Option.bind_eq_some] at h ⊢
  obtain ⟨m0, h0, m1, h1, m2, h2, h3⟩ := h
  exact ⟨m0 ++ t, writeAt_append t h0, m1 ++ t, writeAt_append t h1, m2 ++ t,
    writeAt_append t h2, writeAt_append t h3⟩

theorem word_append {m : List Byte} {b : Nat} {r : Reg} (t : List Byte)
    (h : word m b = some r) : word (m ++ t) b = some r := by
  simp only [word, bind, Option.bind_eq_some] at h ⊢
  obtain ⟨x0, h0, x1, h1, x2, h2, x3, h3, hr⟩ := h
  exact ⟨x0, getElem?_append_some t h0, x1, getElem?_append_some t h1,
    x2, getElem?_append_some t h2, x3, getElem?_append_some t h3, hr⟩

theorem wordAt_append {m : List Byte} {a : Int} {r : Reg} (t : List Byte)
    (h : wordAt m a = some r) : wordAt (m ++ t) a = some r := by
  unfold wordAt at h ⊢
  split_ifs at h ⊢
  exact word_append t h

theorem immediate_append {m : List Byte} {pc : Nat} {r : Reg} (t : List Byte)
    (h : immediate m pc = some r) : immediate (m ++ t) pc = some r := by
  simp only [immediate, bind, Option.bind_eq_some] at h ⊢
  obtain ⟨x0, h0, x1, h1, x2, h2, x3, h3, hr⟩ := h
  exact ⟨x0, getElem?_append_some t h0, x1, getElem?_append_some t h1,
    x2, getElem?_append_some t h2, x3, getElem?_append_some t h3, hr⟩

theorem operand_append {m : List Byte} {pc : Nat} {a : Int} (t : List Byte)
    (h : operand m pc = some a) : operand (m ++ t) pc = some a := by
  simp only [operand, Option.map_eq_some'] at h ⊢
  obtain ⟨r, hr, ha⟩ := h
  exact ⟨r, word_append t hr, ha⟩

theorem jump_append {s s' : State} (t : List Byte) (h : jump s = some s') :
    jump (s.extend t) = some (s'.extend t) := by
  simp only [jump, bind, Option.bind_eq_some] at h ⊢
  obtain ⟨a, ha, hs⟩ := h
  refine ⟨a, operand_append t ha, ?_⟩
  cases hs
  rfl

theorem jumpIf_append {c : Bool} {s s' : State} (t : List Byte) (h : jumpIf c s = some s') :
    jumpIf c (s.extend t) = some (s'.extend t) := by
  unfold jumpIf at h ⊢
  split_ifs at h ⊢
  · exact jump_append t h
  · cases h
    rfl

theorem storeResult_append {s s' : State} {c : Reg} (t : List Byte)
    (h : storeResult s c = some s') : storeResult (s.extend t) c = some (s'.extend t) := by
  simp only [storeResult, bind, Option.bind_eq_some] at h ⊢
  obtain ⟨a, ha, m, hm, hs⟩ := h
  refine ⟨a, operand_append t ha, m ++ t, store4_append t hm, ?_⟩
  cases hs
  rfl

theorem lifts_ite {t : List Byte} {c : Prop} [Decidable c] {a a' b b' : Option State}
    (h₁ : c → Lifts t a a') (h₂ : ¬c → Lifts t b b') :
    Lifts t (if c then a else b) (if c then a' else b') := by
  by_cases hc : c
  · rw [if_pos hc, if_pos hc]
    exact h₁ hc
  · rw [if_neg hc, if_neg hc]
    exact h₂ hc

theorem execute_lifts (fp : FloatOps) (s : State) (op : Byte) (t : List Byte) :
    Lifts t (execute fp s op) (execute fp (s.extend t) op) := by
  unfold execute
  repeat' refine lifts_ite (fun _ => ?_) (fun _ => ?_)
  all_goals intro s' h
  all_goals first
    | exact storeResult_append t h
    | exact jump_append t h
    | exact jumpIf_append t h
    | (cases h; rfl)
    | (simp only [bind, Option.bind_eq_some] at h ⊢
       obtain ⟨a, ha, v, hv, hs⟩ := h
       cases hs
       first
         | exact ⟨a, operand_append t ha, v, load4_append t hv, rfl⟩
         | exact ⟨a, operand_append t ha, v ++ t, store4_append t hv, rfl⟩
         | exact ⟨a, operand_append t ha, v, wordAt_append t hv, rfl⟩
         | exact ⟨a, operand_append t ha, v, by
             simp only [State.extend]; split_ifs at hv ⊢; exact getElem?_append_some t hv, rfl⟩)
    | (simp only [bind, Option.bind_eq_some] at h ⊢
       obtain ⟨v, hv, hs⟩ := h
       first
         | exact ⟨v, hv, storeResult_append t hs⟩
         | (cases hs
            first
              | exact ⟨v, immediate_append t hv, rfl⟩
              | exact ⟨v, load4_append t hv, rfl⟩
              | exact ⟨v ++ t, store4_append t hv, rfl⟩
              | exact ⟨v, wordAt_append t hv, rfl⟩))

theorem step_append (fp : FloatOps) {s s' : State} (t : List Byte)
    (h : step fp s = some s') (hs : s'.status ≠ Status.offEnd) :
    step fp (s.extend t) = some (s'.extend t) := by
  unfold step at h ⊢
  by_cases hr : s.status ≠ Status.running
  · rw [if_pos hr] at h
    have hr' : (s.extend t).status ≠ Status.running := hr
    rw [if_pos hr']
    cases h
    rfl
  · rw [if_neg hr] at h
    have hr' : ¬ (s.extend t).status ≠ Status.running := hr
    rw [if_neg hr']
    by_cases hp : s.pc < s.memory.length
    · rw [if_pos hp] at h
      have hp' : (s.extend t).pc < (s.extend t).memory.length := by
        show s.pc < (s.memory ++ t).length
        rw [List.length_append]
        omega
      rw [if_pos hp']
      rw [Option.bind_eq_some] at h ⊢
      obtain ⟨op, hop, hex⟩ := h
      exact ⟨op, getElem?_append_some t hop, execute_lifts fp s op t s' hex⟩
    · rw [if_neg hp] at h
      cases h
      exact absurd rfl hs

theorem step_of_not_running (fp : FloatOps) {s : State} (h : s.status ≠ Status.running) :
    step fp s = some s := by
  unfold step
  rw [if_pos h]

theorem run_of_not_running (fp : FloatOps) (n : Nat) {s : State}
    (h : s.status ≠ Status.running) : run fp n s = some s := by
  induction n with
  | zero => rfl
  | succ n ih =>
    show (step fp s).bind (run fp n) = some s
    rw [step_of_not_running fp h]
    exact ih

theorem run_append (fp : FloatOps) (t : List Byte) (n : Nat) :
    ∀ {s s' : State}, run fp n s = some s' → s'.status ≠ Status.offEnd →
      run fp n (s.extend t) = some (s'.extend t) := by
  induction n with
  | zero =>
    intro s s' h _
    cases h
    rfl
  | succ n ih =>
    intro s s' h hs
    change (step fp s).bind (run fp n) = some s' at h
    show (step fp (s.extend t)).bind (run fp n) = some (s'.extend t)
    rw [Option.bind_eq_some] at h ⊢
    obtain ⟨s₁, h₁, h₂⟩ := h
    have hs₁ : s₁.status ≠ Status.offEnd := by
      intro hoff
      have hnr : s₁.status ≠ Status.running := by rw [hoff]; decide
      rw [run_of_not_running fp n hnr] at h₂
      cases h₂
      exact hs hoff
    exact ⟨s₁.extend t, step_append fp t h₁ hs₁, ih h₂ hs⟩

theorem run_add (fp : FloatOps) (m n : Nat) (s : State) :
    run fp (m + n) s = (run fp m s).bind (run fp n) := by
  induction m generalizing s with
  | zero => simp [run]
  | succ m ih =>
    rw [Nat.succ_add]
    show (step fp s).bind (run fp (m + n)) = ((step fp s).bind (run fp m)).bind (run fp n)
    cases step fp s with
    | none => rfl
    | some s₁ => exact ih s₁

set_option maxRecDepth 100000 in
theorem run_instructions (fp : FloatOps) :
    run fp 60 (initialState instructions) = some printArrayFinal := by
  rfl

/-! ## Fetching -/

theorem pcPlus_eq {pc k : Nat} (h : pc + k < 4294967296) : pcPlus pc k = pc + k :=
  Nat.mod_eq_of_lt h

theorem ProgAt.get {m : List Byte} {p : Nat} {code : List Byte} (h : ProgAt m p code)
    (k : Nat) (hk : k < code.length) : m[p + k]? = code[k]? := by
  have h' := congrArg (fun l : List Byte => l[k]?) h
  simp only [List.getElem?_take, hk, if_true, List.getElem?_drop] at h'
  exact h'

theorem ProgAt.of_get {m : List Byte} {p : Nat} {code : List Byte}
    (h : ∀ k, k < code.length → m[p + k]? = code[k]?) : ProgAt m p code := by
  unfold ProgAt
  apply List.ext_getElem?
  intro k
  rw [List.getElem?_take, List.getElem?_drop]
  by_cases hk : k < code.length
  · rw [if_pos hk]
    exact h k hk
  · rw [if_neg hk, List.getElem?_eq_none (by omega)]

theorem ProgAt.head {m : List Byte} {p : Nat} {xs ys : List Byte} (h : ProgAt m p (xs ++ ys)) :
    ProgAt m p xs := by
  apply ProgAt.of_get
  intro k hk
  rw [h.get k (by rw [List.length_append]; omega), List.getElem?_append_left hk]

theorem ProgAt.tail {m : List Byte} {p : Nat} {xs ys : List Byte} (h : ProgAt m p (xs ++ ys)) :
    ProgAt m (p + xs.length) ys := by
  apply ProgAt.of_get
  intro k hk
  rw [Nat.add_assoc, h.get (xs.length + k) (by rw [List.length_append]; omega),
    List.getElem?_append_right (by omega)]
  congr 1
  omega

theorem ProgAt.opcode {m : List Byte} {p : Nat} {op : Byte} {r : Reg}
    (h : ProgAt m p (instr op r)) : m[p]? = some op :=
  h.get 0 (by simp [instr])

theorem ProgAt.word {m : List Byte} {p : Nat} {op : Byte} {r : Reg}
    (h : ProgAt m p (instr op r)) : word m (p + 1) = some r := by
  have h1 := h.get 1 (by simp [instr])
  have h2 := h.get 2 (by simp [instr])
  have h3 := h.get 3 (by simp [instr])
  have h4 := h.get 4 (by simp [instr])
  simp only [instr, List.getElem?_cons_succ, List.getElem?_cons_zero] at h1 h2 h3 h4
  simp only [AmyBin.word, Nat.add_assoc, h1, h2, h3, h4, bind, Option.bind]

theorem ProgAt.lt_length {m : List Byte} {p : Nat} {code : List Byte} (h : ProgAt m p code)
    (k : Nat) (hk : k < code.length) : p + k < m.length := by
  have h' := h.get k hk
  by_contra hc
  rw [List.getElem?_eq_none (by omega), List.getElem?_eq_getElem hk] at h'
  cases h'

theorem ProgAt.immediate {m : List Byte} {p : Nat} {op : Byte} {r : Reg}
    (h : ProgAt m p (instr op r)) (hp : p + 5 < 4294967296) : immediate m p = some r := by
  have hw := h.word
  simp only [AmyBin.word, Nat.add_assoc] at hw
  simp only [AmyBin.immediate, pcPlus_eq (show p + 1 < 4294967296 by omega),
    pcPlus_eq (show p + 2 < 4294967296 by omega), pcPlus_eq (show p + 3 < 4294967296 by omega),
    pcPlus_eq (show p + 4 < 4294967296 by omega)]
  exact hw

theorem ProgAt.operand {m : List Byte} {p : Nat} {op : Byte} {r : Reg}
    (h : ProgAt m p (instr op r)) (hp : p + 5 < 4294967296) : operand m p = some r.toInt := by
  rw [AmyBin.operand, pcPlus_eq (by omega), h.word]
  rfl

theorem step_fetch (fp : FloatOps) {s : State} {op : Byte} (hrun : s.status = Status.running)
    (hop : s.memory[s.pc]? = some op) : step fp s = execute fp s op := by
  have hlt : s.pc < s.memory.length := by
    by_contra hc
    rw [List.getElem?_eq_none (by omega)] at hop
    cases hop
  unfold step
  rw [if_neg (by simp [hrun]), if_pos hlt, hop]
  rfl

/-! ## 32-bit values -/

theorem Reg.toNat_lt (r : Reg) : r.toNat < 4294967296 := by
  have h0 := r.b0.isLt
  have h1 := r.b1.isLt
  have h2 := r.b2.isLt
  have h3 := r.b3.isLt
  unfold Reg.toNat
  omega

theorem toUnsigned_toInt (r : Reg) : toUnsigned r.toInt = r.toNat := by
  have h := r.toNat_lt
  unfold toUnsigned Reg.toInt
  split_ifs <;> omega

theorem Reg.toNat_ofNat {u : Nat} (h : u < 4294967296) : (Reg.ofNat u).toNat = u := by
  unfold Reg.toNat Reg.ofNat
  simp only
  omega

theorem Reg.toInt_ofNat {u : Nat} (h : u < 2147483648) : (Reg.ofNat u).toInt = (u : Int) := by
  unfold Reg.toInt
  rw [Reg.toNat_ofNat (by omega), if_pos h]

theorem cmpFlags_eq (a b : Int) :
    cmpFlags a b = if a < b then 0b0101 else if a = b then 0b0010 else 0b1001 := by
  unfold cmpFlags
  rcases lt_trichotomy a b with h | h | h
  · have h₂ : ¬ a = b := by omega
    have h₃ : ¬ a > b := by omega
    simp only [h, h₂, h₃, if_true, if_false]
    rfl
  · subst h
    simp only [lt_irrefl, gt_iff_lt, if_true, if_false]
    rfl
  · have h₁ : ¬ a < b := by omega
    have h₂ : ¬ a = b := by omega
    simp only [h, h₁, h₂, if_true, if_false]
    rfl

theorem jumpIf_eq {c : Bool} {s : State} {L : Reg} (hop : operand s.memory s.pc = some L.toInt)
    (hpc : s.pc + 5 < 4294967296) :
    jumpIf c s = some { s with pc := if c then L.toNat else s.pc + 5 } := by
  cases c
  · simp [jumpIf, State.next, pcPlus_eq hpc]
  · simp [jumpIf, jump, hop, toUnsigned_toInt]

/-! ## Single steps -/

theorem step_loadai (fp : FloatOps) {s : State} {v : Reg} (hrun : s.status = Status.running)
    (hprog : ProgAt s.memory s.pc (instr OPCODE_LOADAI v)) (hpc : s.pc + 5 < 4294967296) :
    step fp s = some { s with aRegister := v, pc := s.pc + 5 } := by
  rw [step_fetch fp hrun hprog.opcode]
  show (immediate s.memory s.pc).bind _ = _
  rw [hprog.immediate hpc, pcPlus_eq hpc]
  rfl

theorem step_loadbi (fp : FloatOps) {s : State} {v : Reg} (hrun : s.status = Status.running)
    (hprog : ProgAt s.memory s.pc (instr OPCODE_LOADBI v)) (hpc : s.pc + 5 < 4294967296) :
    step fp s = some { s with bRegister := v, pc := s.pc + 5 } := by
  rw [step_fetch fp hrun hprog.opcode]
  show (immediate s.memory s.pc).bind _ = _
  rw [hprog.immediate hpc, pcPlus_eq hpc]
  rfl

theorem step_cmpint (fp : FloatOps) {s : State} (hrun : s.status = Status.running)
    (hop : s.memory[s.pc]? = some OPCODE_CMPINT) :
    step fp s = some { s with flags := cmpFlags s.aRegister.toInt s.bRegister.toInt,
                              pc := pcPlus s.pc 5 } := by
  rw [step_fetch fp hrun hop]
  rfl

theorem step_jge (fp : FloatOps) {s : State} {L : Reg} (hrun : s.status = Status.running)
    (hprog : ProgAt s.memory s.pc (instr OPCODE_JGE L)) (hpc : s.pc + 5 < 4294967296) :
    step fp s = some { s with pc := if flagSet s.flags (FLAG_MASK_GT ||| FLAG_MASK_EQ)
                                    then L.toNat else s.pc + 5 } := by
  rw [step_fetch fp hrun hprog.opcode]
  exact jumpIf_eq (hprog.operand hpc) hpc

theorem run_zero (fp : FloatOps) (s : State) : run fp 0 s = some s := rfl

theorem run_succ (fp : FloatOps) (n : Nat) (s : State) :
    run fp (n + 1) s = (step fp s).bind (run fp n) := rfl

theorem run_succ_of_step (fp : FloatOps) (n : Nat) {s s₁ : State} (h : step fp s = some s₁) :
    run fp (n + 1) s = run fp n s₁ := by
  rw [run_succ, h]
  rfl

theorem flagSet_cmpFlags_ge (a b : Int) :
    flagSet (cmpFlags a b) (FLAG_MASK_GT ||| FLAG_MASK_EQ) = true ↔ b ≤ a := by
  rw [cmpFlags_eq]
  rcases lt_trichotomy a b with h | h | h
  · rw [if_pos h]
    exact ⟨fun hf => absurd hf (by decide), fun hle => absurd hle (by omega)⟩
  · rw [if_neg (by omega), if_pos h]
    exact ⟨fun _ => by omega, fun _ => by decide⟩
  · rw [if_neg (by omega), if_neg (by omega)]
    exact ⟨fun _ => by omega, fun _ => by decide⟩

/-! ## Stores -/

theorem writeAt_eq {m : List Byte} {i : Int} {n : Nat} (v : Byte) (hi : i = (n : Int))
    (h : n < m.length) (hN : m.length ≤ 2147483648) : writeAt m i v = some (m.set n v) := by
  subst hi
  unfold writeAt
  rw [if_pos ⟨by omega, by omega, by simpa using h⟩]
  simp

theorem store4_eq {m : List Byte} {a : Nat} (r : Reg) (h : a + 3 < m.length)
    (hN : m.length ≤ 2147483648) :
    store4 m (a : Int) r
      = some ((((m.set a r.b0).set (a + 1) r.b1).set (a + 2) r.b2).set (a + 3) r.b3) := by
  simp only [store4, bind, Option.bind_eq_some]
  exact ⟨_, writeAt_eq r.b0 (show (a : Int) + 0 = (a : Int) by omega) (by omega) hN,
    _, writeAt_eq r.b1 (show (a : Int) + 1 = ((a + 1 : Nat) : Int) by omega)
      (by rw [List.length_set]; omega) (by rw [List.length_set]; exact hN),
    _, writeAt_eq r.b2 (show (a : Int) + 2 = ((a + 2 : Nat) : Int) by omega)
      (by simp only [List.length_set]; omega) (by simp only [List.length_set]; exact hN),
    writeAt_eq r.b3 (show (a : Int) + 3 = ((a + 3 : Nat) : Int) by omega)
      (by simp only [List.length_set]; omega) (by simp only [List.length_set]; exact hN)⟩

theorem stored_bytes {m : List Byte} {a : Nat} (r : Reg) (h : a + 3 < m.length) :
    let m' := (((m.set a r.b0).set (a + 1) r.b1).set (a + 2) r.b2).set (a + 3) r.b3
    m'.length = m.length ∧ m'[a]? = some r.b0 ∧ m'[a + 1]? = some r.b1 ∧
      m'[a + 2]? = some r.b2 ∧ m'[a + 3]? = some r.b3 := by
  intro m'
  refine ⟨by simp [m'], ?_, ?_, ?_, ?_⟩ <;>
    simp [m', List.getElem?_set, show a < m.length by omega, show a + 1 < m.length by omega,
      show a + 2 < m.length by omega, h]

theorem step_store (fp : FloatOps) {s : State} {op : Byte} {A r : Reg} {m' : List Byte}
    (hrun : s.status = Status.running) (hprog : ProgAt s.memory s.pc (instr op A))
    (hop : (op = OPCODE_STOREAM ∧ r = s.aRegister) ∨ (op = OPCODE_STOREBM ∧ r = s.bRegister))
    (hpc : s.pc + 5 < 4294967296) (hst : store4 s.memory A.toInt r = some m') :
    step fp s = some { s with memory := m', pc := s.pc + 5 } := by
  rw [step_fetch fp hrun hprog.opcode]
  rcases hop with ⟨rfl, rfl⟩ | ⟨rfl, rfl⟩
  · show (operand s.memory s.pc).bind _ = _
    rw [hprog.operand hpc]
    show (store4 s.memory A.toInt s.aRegister).bind _ = _
    rw [hst, pcPlus_eq hpc]
    rfl
  · show (operand s.memory s.pc).bind _ = _
    rw [hprog.operand hpc]
    show (store4 s.memory A.toInt s.bRegister).bind _ = _
    rw [hst, pcPlus_eq hpc]
    rfl

/-! ## The program counter -/

theorem takesJump_jeq (f : Byte) : takesJump f OPCODE_JEQ = flagSet f FLAG_MASK_EQ := by
  unfold takesJump
  cases flagSet f FLAG_MASK_EQ <;> rfl

theorem takesJump_jne (f : Byte) : takesJump f OPCODE_JNE = flagSet f FLAG_MASK_NE := by
  unfold takesJump
  cases flagSet f FLAG_MASK_NE <;> rfl

theorem takesJump_jlt (f : Byte) : takesJump f OPCODE_JLT = flagSet f FLAG_MASK_LT := by
  unfold takesJump
  cases flagSet f FLAG_MASK_LT <;> rfl

theorem takesJump_jle (f : Byte) :
    takesJump f OPCODE_JLE = flagSet f (FLAG_MASK_LT ||| FLAG_MASK_EQ) := by
  unfold takesJump
  cases flagSet f (FLAG_MASK_LT ||| FLAG_MASK_EQ) <;> rfl

theorem takesJump_jgt (f : Byte) : takesJump f OPCODE_JGT = flagSet f FLAG_MASK_GT := by
  unfold takesJump
  cases flagSet f FLAG_MASK_GT <;> rfl

theorem takesJump_jge (f : Byte) :
    takesJump f OPCODE_JGE = flagSet f (FLAG_MASK_GT ||| FLAG_MASK_EQ) := by
  unfold takesJump
  cases flagSet f (FLAG_MASK_GT ||| FLAG_MASK_EQ) <;> rfl

theorem storeResult_effect {s s' : State} {c : Reg} (h : storeResult s c = some s') :
    s'.pc = pcPlus s.pc 5 ∧ s'.status = s.status := by
  simp only [storeResult, bind, Option.bind_eq_some] at h
  obtain ⟨_, _, _, _, heq⟩ := h
  cases heq
  exact ⟨rfl, rfl⟩

theorem jump_effect {s s' : State} (h : jump s = some s') :
    s'.status = s.status ∧ (operand s.memory s.pc).map toUnsigned = some s'.pc := by
  simp only [jump, bind, Option.bind_eq_some] at h
  obtain ⟨t, ht, heq⟩ := h
  cases heq
  rw [ht]
  exact ⟨rfl, rfl⟩

theorem jumpIf_effect {c : Bool} {s s' : State} (h : jumpIf c s = some s') :
    (c = false ∧ s'.pc = pcPlus s.pc 5 ∧ s'.status = s.status) ∨
    (c = true ∧ s'.status = s.status ∧ (operand s.memory s.pc).map toUnsigned = some s'.pc) := by
  cases c
  · left
    cases h
    exact ⟨rfl, rfl, rfl⟩
  · right
    exact ⟨rfl, jump_effect h⟩

theorem pcEffect_ite {s : State} {op : Byte} {c : Prop} [Decidable c] {a b : Option State}
    (h₁ : c → PcEffect s op a) (h₂ : ¬c → PcEffect s op b) :
    PcEffect s op (if c then a else b) := by
  by_cases hc : c
  · rw [if_pos hc]
    exact h₁ hc
  · rw [if_neg hc]
    exact h₂ hc

theorem execute_pcEffect (fp : FloatOps) (s : State) (op : Byte) :
    PcEffect s op (execute fp s op) := by
  unfold execute
  iterate 36 (refine pcEffect_ite (fun h => ?_) (fun h => ?_); swap)
  all_goals intro s' hs'
  all_goals first
    | (subst h
       rcases jumpIf_effect hs' with ⟨hc, hp, hst⟩ | ⟨hc, hst, hp⟩
       · left
         refine ⟨hp, hst, ?_, by decide, by decide⟩
         simp only [takesJump_jeq, takesJump_jne, takesJump_jlt, takesJump_jle, takesJump_jgt,
           takesJump_jge]
         exact hc
       · right
         left
         refine ⟨?_, hst, hp⟩
         simp only [takesJump_jeq, takesJump_jne, takesJump_jlt, takesJump_jle, takesJump_jgt,
           takesJump_jge]
         exact hc)
    | (subst h
       right
       left
       exact ⟨rfl, jump_effect hs'⟩)
    | (subst h
       have he : s'.pc = pcPlus s.pc 5 ∧ s'.status = s.status := by
         first
           | exact storeResult_effect hs'
           | (cases hs'
              exact ⟨rfl, rfl⟩)
           | (simp only [bind, Option.bind_eq_some] at hs'
              first
                | (obtain ⟨_, _, heq⟩ := hs'
                   first
                     | exact storeResult_effect heq
                     | (cases heq
                        exact ⟨rfl, rfl⟩))
                | (obtain ⟨_, _, _, _, heq⟩ := hs'
                   cases heq
                   exact ⟨rfl, rfl⟩))
       exact Or.inl ⟨he.1, he.2, rfl, by decide, by decide⟩)
    | (subst h
       cases hs'
       right
       right
       exact ⟨rfl, fun hc => (by cases hc), Or.inl rfl⟩)
    | (cases hs'
       right
       right
       refine ⟨rfl, fun hc => (by cases hc), Or.inr ?_⟩
       simp only [handledOpcodes, List.mem_cons, List.mem_nil_iff, or_false, not_or]
       simp only [*, not_false_eq_true, and_self])

/-! ## Hex digits of a byte -/

set_option maxRecDepth 100000 in
theorem nibble_high : ∀ b : Byte, (0b11110000 &&& b.val) >>> 4 = b.val / 16 := by
  decide

set_option maxRecDepth 100000 in
theorem nibble_low : ∀ b : Byte, (0b00001111 &&& b.val) >>> 0 = b.val % 16 := by
  decide

/-! ## Loads -/

theorem load4_ofNat (m : List Byte) (a : Nat) (h : a + 3 < 2147483648) :
    load4 m (a : Int) = word m a := by
  have e₀ : readAt m ((a : Int) + 0) = m[a]? := by
    unfold readAt
    rw [if_pos ⟨by omega, by omega⟩]
    simp
  have e₁ : readAt m ((a : Int) + 1) = m[a + 1]? := by
    unfold readAt
    rw [if_pos ⟨by omega, by omega⟩]
    congr 1
  have e₂ : readAt m ((a : Int) + 2) = m[a + 2]? := by
    unfold readAt
    rw [if_pos ⟨by omega, by omega⟩]
    congr 1
  have e₃ : readAt m ((a : Int) + 3) = m[a + 3]? := by
    unfold readAt
    rw [if_pos ⟨by omega, by omega⟩]
    congr 1
  unfold load4 word
  rw [e₀, e₁, e₂, e₃]

theorem word_of_bytes {m : List Byte} {a : Nat} {w : Reg} (h₀ : m[a]? = some w.b0)
    (h₁ : m[a + 1]? = some w.b1) (h₂ : m[a + 2]? = some w.b2) (h₃ : m[a + 3]? = some w.b3) :
    word m a = some w := by
  unfold word
  rw [h₀, h₁, h₂, h₃]
  rfl

theorem step_loadi (fp : FloatOps) {s : State} (X : RegId) {v : Reg}
    (hrun : s.status = Status.running) (hprog : ProgAt s.memory s.pc (instr X.loadi v))
    (hpc : s.pc + 5 < 4294967296) :
    step fp s = some { (s.setReg X v) with pc := s.pc + 5 } := by
  rw [step_fetch fp hrun hprog.opcode]
  cases X
  all_goals
    show (immediate s.memory s.pc).bind _ = _
    rw [hprog.immediate hpc, pcPlus_eq hpc]
    rfl

theorem step_loadm (fp : FloatOps) {s : State} (X : RegId) {A : Reg} {v : Reg}
    (hrun : s.status = Status.running) (hprog : ProgAt s.memory s.pc (instr X.loadm A))
    (hpc : s.pc + 5 < 4294967296) (hld : load4 s.memory A.toInt = some v) :
    step fp s = some { (s.setReg X v) with pc := s.pc + 5 } := by
  rw [step_fetch fp hrun hprog.opcode]
  cases X
  all_goals
    show (operand s.memory s.pc).bind _ = _
    rw [hprog.operand hpc]
    show (load4 s.memory A.toInt).bind _ = _
    rw [hld, pcPlus_eq hpc]
    rfl

theorem setReg_frame (s : State) (X : RegId) (v : Reg) (p : Nat) :
    ({ (s.setReg X v) with pc := p } : State).reg X = v ∧
    (∀ Y, Y ≠ X → ({ (s.setReg X v) with pc := p } : State).reg Y = s.reg Y) ∧
    ({ (s.setReg X v) with pc := p } : State).flags = s.flags ∧
    ({ (s.setReg X v) with pc := p } : State).memory = s.memory ∧
    ({ (s.setReg X v) with pc := p } : State).out = s.out ∧
    ({ (s.setReg X v) with pc := p } : State).pc = p ∧
    ({ (s.setReg X v) with pc := p } : State).status = s.status := by
  cases X
  all_goals
    refine ⟨rfl, ?_, rfl, rfl, rfl, rfl, rfl⟩
    intro Y hY
    cases Y
    all_goals first
      | rfl
      | exact absurd rfl hY

/-! ## Stores: the four written bytes and the frame -/

theorem store4_poke {m : List Byte} {a : Nat} (r : Reg) (h : a + 3 < m.length)
    (hN : m.length ≤ 2147483648) : store4 m (a : Int) r = some (poke4 m a r) :=
  store4_eq r h hN

theorem poke4_length (m : List Byte) (a : Nat) (r : Reg) : (poke4 m a r).length = m.length := by
  simp [poke4]

theorem poke4_bytes {m : List Byte} {a : Nat} (r : Reg) (h : a + 3 < m.length) :
    (poke4 m a r)[a]? = some r.b0 ∧ (poke4 m a r)[a + 1]? = some r.b1 ∧
      (poke4 m a r)[a + 2]? = some r.b2 ∧ (poke4 m a r)[a + 3]? = some r.b3 :=
  (stored_bytes r h).2

theorem poke4_frame (m : List Byte) (a : Nat) (r : Reg) (j : Nat) (hj : j < a ∨ a + 3 < j) :
    (poke4 m a r)[j]? = m[j]? := by
  unfold poke4
  rw [List.getElem?_set_ne (by omega), List.getElem?_set_ne (by omega),
    List.getElem?_set_ne (by omega), List.getElem?_set_ne (by omega)]

theorem step_storem (fp : FloatOps) {s : State} (X : RegId) {addr : Nat}
    (hrun : s.status = Status.running)
    (hprog : ProgAt s.memory s.pc (instr X.storem (Reg.ofNat addr)))
    (haddr : addr + 3 < s.memory.length) (hN : s.memory.length ≤ 2147483648) :
    step fp s = some { s with memory := poke4 s.memory addr (s.reg X), pc := s.pc + 5 } := by
  have hlen := hprog.lt_length 4 (by simp [instr])
  have hpc : s.pc + 5 < 4294967296 := by omega
  have hst : store4 s.memory (Reg.ofNat addr).toInt (s.reg X)
      = some (poke4 s.memory addr (s.reg X)) := by
    rw [Reg.toInt_ofNat (by omega)]
    exact store4_poke _ haddr hN
  rw [step_fetch fp hrun hprog.opcode]
  cases X
  all_goals
    simp only [State.reg] at hst ⊢
    show (operand s.memory s.pc).bind _ = _
    rw [hprog.operand hpc]
    show (store4 s.memory (Reg.ofNat addr).toInt _).bind _ = _
    rw [hst, pcPlus_eq hpc]
    rfl

theorem storeResult_poke {s : State} {op : Byte} {addr : Nat} (c : Reg)
    (hprog : ProgAt s.memory s.pc (instr op (Reg.ofNat addr)))
    (haddr : addr + 3 < s.memory.length) (hN : s.memory.length ≤ 2147483648) :
    storeResult s c = some { s with memory := poke4 s.memory addr c, pc := s.pc + 5 } := by
  have hlen := hprog.lt_length 4 (by simp [instr])
  have hpc : s.pc + 5 < 4294967296 := by omega
  unfold storeResult
  rw [hprog.operand hpc]
  show (store4 s.memory (Reg.ofNat addr).toInt c).bind _ = _
  rw [Reg.toInt_ofNat (by omega), store4_poke c haddr hN, pcPlus_eq hpc]
  rfl

theorem step_intOp (fp : FloatOps) {s : State} (o : IntOp) {addr : Nat}
    (hrun : s.status = Status.running)
    (hprog : ProgAt s.memory s.pc (instr o.opcode (Reg.ofNat addr)))
    (haddr : addr + 3 < s.memory.length) (hN : s.memory.length ≤ 2147483648) :
    step fp s = some { s with
      memory := poke4 s.memory addr (Reg.ofInt (o.eval s.aRegister.toInt s.bRegister.toInt))
      pc := s.pc + 5 } := by
  rw [step_fetch fp hrun hprog.opcode]
  cases o
  all_goals
    show storeResult s _ = _
    exact storeResult_poke _ hprog haddr hN

/-! ## Jumps -/

theorem ProgAt.operand_of_lt {m : List Byte} {p : Nat} {op : Byte} {r : Reg}
    (h : ProgAt m p (instr op r)) (hp : p + 1 < 4294967296) :
    AmyBin.operand m p = some r.toInt := by
  rw [AmyBin.operand, pcPlus_eq hp, h.word]
  rfl

set_option maxRecDepth 100000 in
theorem flagSet_lt_or_eq : ∀ f : Byte,
    flagSet f (FLAG_MASK_LT ||| FLAG_MASK_EQ) = (flagSet f FLAG_MASK_LT || flagSet f FLAG_MASK_EQ) := by
  decide

set_option maxRecDepth 100000 in
theorem flagSet_gt_or_eq : ∀ f : Byte,
    flagSet f (FLAG_MASK_GT ||| FLAG_MASK_EQ) = (flagSet f FLAG_MASK_GT || flagSet f FLAG_MASK_EQ) := by
  decide

theorem step_jmp (fp : FloatOps) {s : State} {L : Reg} (hrun : s.status = Status.running)
    (hprog : ProgAt s.memory s.pc (instr OPCODE_JMP L)) (hpc : s.pc + 1 < 4294967296) :
    step fp s = some { s with pc := L.toNat } := by
  rw [step_fetch fp hrun hprog.opcode]
  show jump s = _
  unfold jump
  rw [hprog.operand_of_lt hpc, ← toUnsigned_toInt L]
  rfl

theorem step_condJump (fp : FloatOps) {s : State} (J : CondJump) {L : Reg}
    (hrun : s.status = Status.running) (hprog : ProgAt s.memory s.pc (instr J.opcode L))
    (hpc : s.pc + 5 < 4294967296) :
    step fp s = some { s with pc := if J.holds s.flags then L.toNat else s.pc + 5 } := by
  rw [step_fetch fp hrun hprog.opcode]
  have hop := hprog.operand hpc
  cases J
  · exact jumpIf_eq hop hpc
  · exact jumpIf_eq hop hpc
  · exact jumpIf_eq hop hpc
  · show jumpIf (flagSet s.flags (FLAG_MASK_LT ||| FLAG_MASK_EQ)) s = _
    rw [flagSet_lt_or_eq]
    exact jumpIf_eq hop hpc
  · exact jumpIf_eq hop hpc
  · show jumpIf (flagSet s.flags (FLAG_MASK_GT ||| FLAG_MASK_EQ)) s = _
    rw [flagSet_gt_or_eq]
    exact jumpIf_eq hop hpc

/-! ## Printing -/

theorem printfD_eq_decimal (v : Int) : printfD v = decimal v := by
  unfold printfD decimal
  cases v with
  | ofNat n =>
    have h : ¬ Int.ofNat n < 0 := Int.not_lt.2 (Int.ofNat_nonneg n)
    rw [if_neg h]
    rfl
  | negSucc n =>
    have h : Int.negSucc n < 0 := Int.negSucc_lt_zero n
    rw [if_pos h]
    rfl

theorem step_printint (fp : FloatOps) {s : State} {addr : Nat} {w : Reg}
    (hrun : s.status = Status.running)
    (hprog : ProgAt s.memory s.pc (instr OPCODE_PRINTINT (Reg.ofNat addr)))
    (hw : word s.memory addr = some w) (haddr : addr < 2147483648)
    (hpc : s.pc + 5 < 4294967296) :
    step fp s = some { s with out := s.out ++ decimal w.toInt, pc := s.pc + 5 } := by
  rw [step_fetch fp hrun hprog.opcode]
  show (operand s.memory s.pc).bind _ = _
  rw [hprog.operand hpc, Reg.toInt_ofNat haddr]
  show (wordAt s.memory (addr : Int)).bind _ = _
  have hwa : wordAt s.memory (addr : Int) = some w := by
    unfold wordAt
    rw [if_pos (by omega)]
    exact hw
  rw [hwa, pcPlus_eq hpc, ← printfD_eq_decimal]
  rfl

theorem step_printchar (fp : FloatOps) {s : State} {addr : Nat} {c : Byte}
    (hrun : s.status = Status.running)
    (hprog : ProgAt s.memory s.pc (instr OPCODE_PRINTCHAR (Reg.ofNat addr)))
    (hc : s.memory[addr]? = some c) (haddr : addr < 2147483648)
    (hpc : s.pc + 5 < 4294967296) :
    step fp s = some { s with out := s.out ++ String.singleton (Char.ofNat c.val),
                              pc := s.pc + 5 } := by
  rw [step_fetch fp hrun hprog.opcode]
  show (operand s.memory s.pc).bind _ = _
  rw [hprog.operand hpc, Reg.toInt_ofNat haddr]
  show (if (0 : Int) ≤ (addr : Int) then s.memory[((addr : Int)).toNat]? else none).bind _ = _
  rw [if_pos (by omega)]
  show (s.memory[addr]?).bind _ = _
  rw [hc, pcPlus_eq hpc]
  rfl

/-! ## Leaving the loop -/

theorem step_hlt (fp : FloatOps) {s : State} (hrun : s.status = Status.running)
    (hop : s.memory[s.pc]? = some OPCODE_HLT) :
    step fp s = some { s with status := Status.halted } := by
  rw [step_fetch fp hrun hop]
  rfl

theorem step_invalid (fp : FloatOps) {s : State} {op : Byte} (hrun : s.status = Status.running)
    (hop : s.memory[s.pc]? = some op) (hinv : op ∉ handledOpcodes) :
    step fp s = some { s with out := s.out ++ invalidOpcodeText op,
                              status := Status.faulted } := by
  rw [step_fetch fp hrun hop]
  simp only [handledOpcodes, List.mem_cons, List.mem_nil_iff, or_false, not_or] at hinv
  simp only [execute, hinv, if_false]

/-! ## Replacing the instruction at the program counter -/

theorem setInstr_length (m : List Byte) (p : Nat) (op : Byte) (r : Reg) :
    (setInstr m p op r).length = m.length := by
  simp [setInstr]

theorem setInstr_frame (m : List Byte) (p : Nat) (op : Byte) (r : Reg) (j : Nat)
    (hj : j < p ∨ p + 4 < j) : (setInstr m p op r)[j]? = m[j]? := by
  unfold setInstr
  rw [List.getElem?_set_ne (by omega), List.getElem?_set_ne (by omega),
    List.getElem?_set_ne (by omega), List.getElem?_set_ne (by omega),
    List.getElem?_set_ne (by omega)]

theorem setInstr_progAt (m : List Byte) (p : Nat) (op : Byte) (r : Reg)
    (h : p + 4 < m.length) : ProgAt (setInstr m p op r) p (instr op r) := by
  apply ProgAt.of_get
  intro k hk
  have hk5 : k < 5 := hk
  rcases (show k = 0 ∨ k = 1 ∨ k = 2 ∨ k = 3 ∨ k = 4 by omega) with rfl | rfl | rfl | rfl | rfl
  · show (((((m.set p op).set (p + 1) r.b0).set (p + 2) r.b1).set (p + 3) r.b2).set
      (p + 4) r.b3)[p]? = some op
    rw [List.getElem?_set_ne (by omega), List.getElem?_set_ne (by omega),
      List.getElem?_set_ne (by omega), List.getElem?_set_ne (by omega),
      List.getElem?_set_self (by omega)]
  · show (((((m.set p op).set (p + 1) r.b0).set (p + 2) r.b1).set (p + 3) r.b2).set
      (p + 4) r.b3)[p + 1]? = some r.b0
    rw [List.getElem?_set_ne (by omega), List.getElem?_set_ne (by omega),
      List.getElem?_set_ne (by omega), List.getElem?_set_self (by simp; omega)]
  · show (((((m.set p op).set (p + 1) r.b0).set (p + 2) r.b1).set (p + 3) r.b2).set
      (p + 4) r.b3)[p + 2]? = some r.b1
    rw [List.getElem?_set_ne (by omega), List.getElem?_set_ne (by omega),
      List.getElem?_set_self (by simp; omega)]
  · show (((((m.set p op).set (p + 1) r.b0).set (p + 2) r.b1).set (p + 3) r.b2).set
      (p + 4) r.b3)[p + 3]? = some r.b2
    rw [List.getElem?_set_ne (by omega), List.getElem?_set_self (by simp; omega)]
  · show (((((m.set p op).set (p + 1) r.b0).set (p + 2) r.b1).set (p + 3) r.b2).set
      (p + 4) r.b3)[p + 4]? = some r.b3
    rw [List.getElem?_set_self (by simp; omega)]

theorem readAt_setInstr (m : List Byte) (p : Nat) (op : Byte) (r : Reg) (i : Int)
    (hi : i < p ∨ (p : Int) + 4 < i) : readAt (setInstr m p op r) i = readAt m i := by
  unfold readAt
  by_cases hc : 0 ≤ i ∧ i < 2147483648
  · rw [if_pos hc, if_pos hc]
    exact setInstr_frame m p op r i.toNat (by omega)
  · rw [if_neg hc, if_neg hc]

theorem load4_setInstr (m : List Byte) (p : Nat) (op : Byte) (r : Reg) (a : Int)
    (ha : a + 3 < p ∨ (p : Int) + 4 < a) : load4 (setInstr m p op r) a = load4 m a := by
  unfold load4
  rw [readAt_setInstr m p op r (a + 0) (by omega), readAt_setInstr m p op r (a + 1) (by omega),
    readAt_setInstr m p op r (a + 2) (by omega), readAt_setInstr m p op r (a + 3) (by omega)]

theorem wordAt_setInstr (m : List Byte) (p : Nat) (op : Byte) (r : Reg) (a : Int)
    (ha : a + 3 < p ∨ (p : Int) + 4 < a) : wordAt (setInstr m p op r) a = wordAt m a := by
  unfold wordAt
  by_cases hc : 0 ≤ a
  · rw [if_pos hc, if_pos hc]
    unfold word
    rw [setInstr_frame m p op r a.toNat (by omega),
      setInstr_frame m p op r (a.toNat + 1) (by omega),
      setInstr_frame m p op r (a.toNat + 2) (by omega),
      setInstr_frame m p op r (a.toNat + 3) (by omega)]
  · rw [if_neg hc, if_neg hc]

/-! ## When a store is defined -/

theorem writeAt_some {m m' : List Byte} {i : Int} {v : Byte} (h : writeAt m i v = some m') :
    0 ≤ i ∧ i < 2147483648 ∧ i.toNat < m.length ∧ m'.length = m.length := by
  unfold writeAt at h
  by_cases hc : 0 ≤ i ∧ i < 2147483648 ∧ i.toNat < m.length
  · rw [if_pos hc] at h
    cases h
    exact ⟨hc.1, hc.2.1, hc.2.2, List.length_set _ _ _⟩
  · rw [if_neg hc] at h
    cases h

theorem writeAt_ofNat (m : List Byte) (n : Nat) (v : Byte) (h : n < m.length)
    (h31 : n < 2147483648) {i : Int} (hi : i = (n : Int)) :
    writeAt m i v = some (m.set n v) := by
  subst hi
  unfold writeAt
  rw [if_pos ⟨by omega, by omega, by simpa using h⟩]
  simp

theorem store4_iff (m : List Byte) (a : Int) (r : Reg) :
    store4 m a r = if 0 ≤ a ∧ a + 3 < 2147483648 ∧ a + 3 < (m.length : Int)
      then some (poke4 m a.toNat r) else none := by
  by_cases hc : 0 ≤ a ∧ a + 3 < 2147483648 ∧ a + 3 < (m.length : Int)
  · rw [if_pos hc]
    obtain ⟨n, rfl⟩ : ∃ n : Nat, a = (n : Int) := ⟨a.toNat, by omega⟩
    rw [Int.toNat_ofNat]
    simp only [store4, bind, Option.bind_eq_some]
    exact ⟨_, writeAt_ofNat m n r.b0 (by omega) (by omega) (by omega),
      _, writeAt_ofNat _ (n + 1) r.b1 (by rw [List.length_set]; omega) (by omega) (by omega),
      _, writeAt_ofNat _ (n + 2) r.b2 (by simp only [List.length_set]; omega) (by omega)
        (by omega),
      writeAt_ofNat _ (n + 3) r.b3 (by simp only [List.length_set]; omega) (by omega)
        (by omega)⟩
  · rw [if_neg hc]
    cases hs : store4 m a r with
    | none => rfl
    | some m' =>
      simp only [store4, bind, Option.bind_eq_some] at hs
      obtain ⟨m₀, h₀, m₁, h₁, m₂, h₂, h₃⟩ := hs
      obtain ⟨p₀, -, -, l₀⟩ := writeAt_some h₀
      obtain ⟨-, -, -, l₁⟩ := writeAt_some h₁
      obtain ⟨-, -, -, l₂⟩ := writeAt_some h₂
      obtain ⟨-, q₃, b₃, -⟩ := writeAt_some h₃
      exact absurd ⟨by omega, q₃, by omega⟩ hc

theorem poke4_get (m : List Byte) (a : Nat) (r : Reg) (h : a + 3 < m.length) (j : Nat) :
    (poke4 m a r)[j]? =
      if j = a then some r.b0 else if j = a + 1 then some r.b1
      else if j = a + 2 then some r.b2 else if j = a + 3 then some r.b3 else m[j]? := by
  obtain ⟨h₀, h₁, h₂, h₃⟩ := poke4_bytes r h
  by_cases e₀ : j = a
  · rw [if_pos e₀, e₀, h₀]
  · rw [if_neg e₀]
    by_cases e₁ : j = a + 1
    · rw [if_pos e₁, e₁, h₁]
    · rw [if_neg e₁]
      by_cases e₂ : j = a + 2
      · rw [if_pos e₂, e₂, h₂]
      · rw [if_neg e₂]
        by_cases e₃ : j = a + 3
        · rw [if_pos e₃, e₃, h₃]
        · rw [if_neg e₃]
          exact poke4_frame m a r j (by omega)

/-! ## The `R`-suffixed handlers and their direct counterparts -/

theorem execute_direct_eq (fp : FloatOps) (t : State) (I : Indirect)
    (hop : operand t.memory t.pc = some t.addrRegister.toInt) :
    execute fp t I.direct = execute fp t I.opcode := by
  cases I
  all_goals
    show (operand t.memory t.pc).bind _ = _
    rw [hop]
    rfl

theorem sameOutside_withInstr (s : State) (op : Byte) (x : Reg) (f : State → State)
    (hpc : ∀ u : State, (f u).pc = pcPlus u.pc 5)
    (ha : (f s).aRegister = (f (s.withInstr op x)).aRegister)
    (hb : (f s).bRegister = (f (s.withInstr op x)).bRegister)
    (hr : (f s).addrRegister = (f (s.withInstr op x)).addrRegister)
    (hf : ∀ u : State, (f u).flags = u.flags)
    (ho : (f s).out = (f (s.withInstr op x)).out)
    (hs : ∀ u : State, (f u).status = u.status)
    (hm : ∀ u : State, (f u).memory = u.memory) :
    SameOutside s.pc (some (f s)) (some (f (s.withInstr op x))) := by
  refine ⟨?_, ha, hb, hr, ?_, ho, ?_, ?_, ?_⟩
  · rw [hpc, hpc]
    rfl
  · rw [hf, hf]
    rfl
  · rw [hs, hs]
    rfl
  · rw [hm, hm]
    exact (setInstr_length _ _ _ _).symm
  · intro j hj
    rw [hm, hm]
    exact (setInstr_frame _ _ _ _ j hj).symm

theorem execute_indirect_congr (fp : FloatOps) (s : State) (I : Indirect) (op : Byte) (x : Reg)
    (hsep : I.reads = true →
      s.addrRegister.toInt + 3 < s.pc ∨ (s.pc : Int) + 4 < s.addrRegister.toInt) :
    SameOutside s.pc (execute fp s I.opcode) (execute fp (s.withInstr op x) I.opcode) := by
  cases I
  · -- loadar
    have hl : load4 (setInstr s.memory s.pc op x) s.addrRegister.toInt
        = load4 s.memory s.addrRegister.toInt := load4_setInstr _ _ _ _ _ (hsep rfl)
    show SameOutside s.pc ((load4 s.memory s.addrRegister.toInt).bind _)
      ((load4 (setInstr s.memory s.pc op x) s.addrRegister.toInt).bind _)
    rw [hl]
    cases load4 s.memory s.addrRegister.toInt with
    | none => trivial
    | some v =>
      exact sameOutside_withInstr s op x
        (fun u => { u with aRegister := v, pc := pcPlus u.pc 5 })
        (fun _ => rfl) rfl rfl rfl (fun _ => rfl) rfl (fun _ => rfl) (fun _ => rfl)
  · -- loadbr
    have hl : load4 (setInstr s.memory s.pc op x) s.addrRegister.toInt
        = load4 s.memory s.addrRegister.toInt := load4_setInstr _ _ _ _ _ (hsep rfl)
    show SameOutside s.pc ((load4 s.memory s.addrRegister.toInt).bind _)
      ((load4 (setInstr s.memory s.pc op x) s.addrRegister.toInt).bind _)
    rw [hl]
    cases load4 s.memory s.addrRegister.toInt with
    | none => trivial
    | some v =>
      exact sameOutside_withInstr s op x
        (fun u => { u with bRegister := v, pc := pcPlus u.pc 5 })
        (fun _ => rfl) rfl rfl rfl (fun _ => rfl) rfl (fun _ => rfl) (fun _ => rfl)
  · -- storear
    show SameOutside s.pc ((store4 s.memory s.addrRegister.toInt s.aRegister).bind _)
      ((store4 (setInstr s.memory s.pc op x) s.addrRegister.toInt s.aRegister).bind _)
    rw [store4_iff, store4_iff, setInstr_length]
    by_cases hc : 0 ≤ s.addrRegister.toInt ∧ s.addrRegister.toInt + 3 < 2147483648 ∧
        s.addrRegister.toInt + 3 < (s.memory.length : Int)
    · rw [if_pos hc, if_pos hc]
      refine ⟨rfl, rfl, rfl, rfl, rfl, rfl, rfl, ?_, ?_⟩
      · show (poke4 _ _ _).length = (poke4 _ _ _).length
        rw [poke4_length, poke4_length, setInstr_length]
      · intro j hj
        show (poke4 _ _ _)[j]? = (poke4 _ _ _)[j]?
        rw [poke4_get _ _ _ (by omega), poke4_get _ _ _ (by rw [setInstr_length]; omega),
          setInstr_frame _ _ _ _ j hj]
    · rw [if_neg hc, if_neg hc]
      trivial
  · -- storebr
    show SameOutside s.pc ((store4 s.memory s.addrRegister.toInt s.bRegister).bind _)
      ((store4 (setInstr s.memory s.pc op x) s.addrRegister.toInt s.bRegister).bind _)
    rw [store4_iff, store4_iff, setInstr_length]
    by_cases hc : 0 ≤ s.addrRegister.toInt ∧ s.addrRegister.toInt + 3 < 2147483648 ∧
        s.addrRegister.toInt + 3 < (s.memory.length : Int)
    · rw [if_pos hc, if_pos hc]
      refine ⟨rfl, rfl, rfl, rfl, rfl, rfl, rfl, ?_, ?_⟩
      · show (poke4 _ _ _).length = (poke4 _ _ _).length
        rw [poke4_length, poke4_length, setInstr_length]
      · intro j hj
        show (poke4 _ _ _)[j]? = (poke4 _ _ _)[j]?
        rw [poke4_get _ _ _ (by omega), poke4_get _ _ _ (by rw [setInstr_length]; omega),
          setInstr_frame _ _ _ _ j hj]
    · rw [if_neg hc, if_neg hc]
      trivial
  · -- printrint
    have hl : wordAt (setInstr s.memory s.pc op x) s.addrRegister.toInt
        = wordAt s.memory s.addrRegister.toInt := wordAt_setInstr _ _ _ _ _ (hsep rfl)
    show SameOutside s.pc ((wordAt s.memory s.addrRegister.toInt).bind _)
      ((wordAt (setInstr s.memory s.pc op x) s.addrRegister.toInt).bind _)
    rw [hl]
    cases wordAt s.memory s.addrRegister.toInt with
    | none => trivial
    | some v =>
      exact sameOutside_withInstr s op x
        (fun u => { u with out := u.out ++ printfD v.toInt, pc := pcPlus u.pc 5 })
        (fun _ => rfl) rfl rfl rfl (fun _ => rfl) rfl (fun _ => rfl) (fun _ => rfl)

/-! ## A program counter outside the memory -/

theorem step_offEnd (fp : FloatOps) {s : State} (hrun : s.status = Status.running)
    (hpc : s.memory.length ≤ s.pc) : step fp s = some { s with status := Status.offEnd } := by
  unfold step
  rw [if_neg (fun h => h hrun), if_neg (by omega)]

theorem run_offEnd (fp : FloatOps) (n : Nat) {s : State} (hrun : s.status = Status.running)
    (hpc : s.memory.length ≤ s.pc) :
    run fp (n + 1) s = some { s with status := Status.offEnd } := by
  rw [run_succ_of_step fp n (step_offEnd fp hrun hpc)]
  exact run_of_not_running fp n (fun hc => (by cases hc))

/-! ## The flags byte -/

theorem storeResult_flags {s s' : State} {c : Reg} (h : storeResult s c = some s') :
    s'.flags = s.flags := by
  simp only [storeResult, bind, Option.bind_eq_some] at h
  obtain ⟨_, _, _, _, heq⟩ := h
  cases heq
  rfl

theorem jump_flags {s s' : State} (h : jump s = some s') : s'.flags = s.flags := by
  simp only [jump, bind, Option.bind_eq_some] at h
  obtain ⟨t, _, heq⟩ := h
  cases heq
  rfl

theorem jumpIf_flags {c : Bool} {s s' : State} (h : jumpIf c s = some s') :
    s'.flags = s.flags := by
  cases c
  · cases h
    rfl
  · exact jump_flags h

theorem flagsEffect_ite {s : State} {op : Byte} {c : Prop} [Decidable c] {a b : Option State}
    (h₁ : c → FlagsEffect s op a) (h₂ : ¬c → FlagsEffect s op b) :
    FlagsEffect s op (if c then a else b) := by
  by_cases hc : c
  · rw [if_pos hc]
    exact h₁ hc
  · rw [if_neg hc]
    exact h₂ hc

theorem execute_flagsEffect (fp : FloatOps) (s : State) (op : Byte) :
    FlagsEffect s op (execute fp s op) := by
  unfold execute
  iterate 36 (refine flagsEffect_ite (fun h => ?_) (fun h => ?_); swap)
  all_goals intro s' hs'
  all_goals first
    | exact Or.inl (jumpIf_flags hs')
    | exact Or.inl (jump_flags hs')
    | exact Or.inl (storeResult_flags hs')
    | (cases hs'
       exact Or.inl rfl)
    | (cases hs'
       exact Or.inr ⟨h, rfl⟩)
    | (simp only [bind, Option.bind_eq_some] at hs'
       first
         | (obtain ⟨_, _, heq⟩ := hs'
            first
              | exact Or.inl (storeResult_flags heq)
              | (cases heq
                 exact Or.inl rfl))
         | (obtain ⟨_, _, _, _, heq⟩ := hs'
            cases heq
            exact Or.inl rfl))

/-- Every defined step leaves the flags byte alone, unless it executes `cmpint`. -/
theorem step_flags (fp : FloatOps) {s s' : State} (h : step fp s = some s') :
    s'.flags = s.flags ∨
    (s.status = Status.running ∧ s.memory[s.pc]? = some OPCODE_CMPINT ∧
      s'.flags = cmpFlags s.aRegister.toInt s.bRegister.toInt) := by
  by_cases hrun : s.status = Status.running
  · by_cases hpc : s.pc < s.memory.length
    · have hop : s.memory[s.pc]? = some (s.memory[s.pc]) := List.getElem?_eq_getElem hpc
      rw [step_fetch fp hrun hop] at h
      rcases execute_flagsEffect fp s _ s' h with hf | ⟨hc, hf⟩
      · exact Or.inl hf
      · exact Or.inr ⟨hrun, by rw [hop, hc], hf⟩
    · rw [step_offEnd fp hrun (by omega)] at h
      cases h
      exact Or.inl rfl
  · rw [step_of_not_running fp hrun] at h
    cases h
    exact Or.inl rfl

theorem cmpFlags_valid (a b : Int) : cmpFlags a b ∈ validFlags := by
  rw [cmpFlags_eq]
  split_ifs <;> decide

theorem run_flags_valid (fp : FloatOps) (n : Nat) :
    ∀ {s s' : State}, s.flags ∈ validFlags → run fp n s = some s' → s'.flags ∈ validFlags := by
  induction n with
  | zero =>
    intro s s' hs h
    cases h
    exact hs
  | succ n ih =>
    intro s s' hs h
    rw [run_succ] at h
    obtain ⟨s₁, h₁, h₂⟩ := Option.bind_eq_some.1 h
    refine ih ?_ h₂
    rcases step_flags fp h₁ with hf | ⟨_, _, hf⟩
    · rw [hf]
      exact hs
    · rw [hf]
      exact cmpFlags_valid _ _

theorem run_flags_clear (fp : FloatOps) (n : Nat) :
    ∀ {s s' : State}, run fp n s = some s' → NoCompare fp s n → s'.flags = s.flags := by
  induction n with
  | zero =>
    intro s s' h _
    cases h
    rfl
  | succ n ih =>
    intro s s' h hno
    rw [run_succ] at h
    obtain ⟨s₁, h₁, h₂⟩ := Option.bind_eq_some.1 h
    have hno₁ : NoCompare fp s₁ n := by
      intro k hk u hu
      refine hno (k + 1) (by omega) u ?_
      rw [run_succ_of_step fp k h₁]
      exact hu
    rw [ih h₂ hno₁]
    rcases step_flags fp h₁ with hf | ⟨hrun, hop, _⟩
    · exact hf
    · exact absurd hop (hno 0 (by omega) s rfl hrun)

set_option maxRecDepth 100000 in
theorem validFlags_bits : ∀ f : Byte, f ∈ validFlags →
    f &&& 0b11110000 = 0 ∧
    (flagSet f FLAG_MASK_NE = (flagSet f FLAG_MASK_LT || flagSet f FLAG_MASK_GT)) := by
  decide

/-! ## Conditional jumps after a comparison -/

theorem holds_cmpFlags (J : CondJump) (a b : Int) : J.holds (cmpFlags a b) = J.rel a b := by
  rw [cmpFlags_eq]
  rcases lt_trichotomy a b with h | h | h
  · have h₁ : ¬ a = b := by omega
    have h₂ : a ≤ b := by omega
    have h₃ : ¬ a > b := by omega
    have h₄ : ¬ a ≥ b := by omega
    rw [if_pos h]
    cases J <;> simp [CondJump.rel, h, h₁, h₂, h₃, h₄] <;> decide
  · subst h
    rw [if_neg (lt_irrefl a), if_pos rfl]
    cases J <;> simp [CondJump.rel] <;> decide
  · have h₁ : ¬ a = b := by omega
    have h₂ : ¬ a ≤ b := by omega
    have h₃ : ¬ a < b := by omega
    have h₄ : b ≤ a := by omega
    rw [if_neg h₃, if_neg h₁]
    cases J <;> simp [CondJump.rel, h, h₁, h₂, h₃, h₄] <;> decide

theorem takesJump_condJump (f : Byte) (J : CondJump) : takesJump f J.opcode = J.holds f := by
  cases J
  · exact takesJump_jeq f
  · exact takesJump_jne f
  · exact takesJump_jlt f
  · rw [CondJump.opcode, takesJump_jle, flagSet_lt_or_eq]
    rfl
  · exact takesJump_jgt f
  · rw [CondJump.opcode, takesJump_jge, flagSet_gt_or_eq]
    rfl

/-! ## Integer division -/

theorem Reg.toInt_range (r : Reg) : -2147483648 ≤ r.toInt ∧ r.toInt < 2147483648 := by
  have h := r.toNat_lt
  unfold Reg.toInt
  split_ifs <;> omega

theorem Reg.toInt_ofInt {c : Int} (h₁ : -2147483648 ≤ c) (h₂ : c < 2147483648) :
    (Reg.ofInt c).toInt = c := by
  unfold Reg.ofInt Reg.toInt
  rw [Reg.toNat_ofNat (by omega)]
  split_ifs <;> omega

theorem natAbs_tmod_lt (a : Int) {b : Int} (hb : b ≠ 0) : (Int.tmod a b).natAbs < b.natAbs := by
  have hpos : 0 < b.natAbs := Int.natAbs_pos.2 hb
  cases a <;> cases b <;> simp only [Int.tmod, Int.natAbs_neg, Int.natAbs_ofNat] <;>
    exact Nat.mod_lt _ hpos

theorem tmod_nonpos (a b : Int) (ha : a ≤ 0) : Int.tmod a b ≤ 0 := by
  cases a with
  | ofNat m =>
    have hm : (m : Int) ≤ 0 := ha
    have : m = 0 := by omega
    subst this
    simp
  | negSucc m =>
    cases b <;> simp only [Int.tmod] <;>
      exact Int.neg_nonpos_of_nonneg (Int.ofNat_nonneg _)

theorem tdiv_range {a b : Int} (ha₁ : -2147483648 ≤ a) (ha₂ : a < 2147483648) (hb : b ≠ 0)
    (hov : ¬ (a = -2147483648 ∧ b = -1)) :
    -2147483648 ≤ Int.tdiv a b ∧ Int.tdiv a b < 2147483648 := by
  have hq : (Int.tdiv a b).natAbs = a.natAbs / b.natAbs := Int.natAbs_tdiv a b
  by_cases h1 : b = 1
  · subst h1
    rw [Int.tdiv_one]
    exact ⟨ha₁, ha₂⟩
  · by_cases h2 : b = -1
    · subst h2
      rw [Int.tdiv_neg, Int.tdiv_one]
      omega
    · have hb2 : 2 ≤ b.natAbs := by omega
      have hle : a.natAbs / b.natAbs ≤ a.natAbs / 2 :=
        Nat.div_le_div_left hb2 (by decide)
      omega

theorem step_divOp (fp : FloatOps) {s : State} (o : DivOp) {addr : Nat}
    (hrun : s.status = Status.running)
    (hprog : ProgAt s.memory s.pc (instr o.opcode (Reg.ofNat addr)))
    (haddr : addr + 3 < s.memory.length) (hN : s.memory.length ≤ 2147483648)
    (hb : s.bRegister.toInt ≠ 0)
    (hov : ¬ (s.aRegister.toInt = -2147483648 ∧ s.bRegister.toInt = -1)) :
    step fp s = some { s with
      memory := poke4 s.memory addr (Reg.ofInt (o.pick
        (Int.tdiv s.aRegister.toInt s.bRegister.toInt)
        (Int.tmod s.aRegister.toInt s.bRegister.toInt)))
      pc := s.pc + 5 } := by
  have hdef : ¬ (s.bRegister.toInt = 0 ∨
      (s.aRegister.toInt = -2147483648 ∧ s.bRegister.toInt = -1)) := by
    rintro (h | h)
    · exact hb h
    · exact hov h
  rw [step_fetch fp hrun hprog.opcode]
  cases o
  · show (divInt s.aRegister.toInt s.bRegister.toInt).bind _ = _
    rw [divInt, if_neg hdef]
    exact storeResult_poke _ hprog haddr hN
  · show (modInt s.aRegister.toInt s.bRegister.toInt).bind _ = _
    rw [modInt, if_neg hdef]
    exact storeResult_poke _ hprog haddr hN

/-! ## The order of the dispatch chain -/

theorem execute_eq_dispatch (fp : FloatOps) (s : State) (op : Byte) :
    execute fp s op = dispatch branches fp s op := rfl

theorem dispatch_perm {bs bs' : List Branch} (hp : bs.Perm bs') (fp : FloatOps) (s : State)
    (op : Byte) (hnd : (bs.map Prod.fst).Nodup) :
    dispatch bs fp s op = dispatch bs' fp s op := by
  induction hp with
  | nil => rfl
  | cons x _ ih =>
    rw [List.map_cons, List.nodup_cons] at hnd
    show (if op = x.1 then _ else _) = (if op = x.1 then _ else _)
    rw [ih hnd.2]
  | swap x y l =>
    rw [List.map_cons, List.map_cons, List.nodup_cons] at hnd
    have hne : y.1 ≠ x.1 := fun h => hnd.1 (h ▸ List.mem_cons_self _ _)
    show (if op = y.1 then _ else if op = x.1 then _ else _)
      = (if op = x.1 then _ else if op = y.1 then _ else _)
    by_cases hy : op = y.1
    · have hx : ¬ op = x.1 := fun h => hne (hy.symm.trans h)
      rw [if_pos hy, if_neg hx, if_pos hy]
    · rw [if_neg hy, if_neg hy]
  | trans h₁ _ ih₁ ih₂ =>
    rw [ih₁ hnd]
    exact ih₂ ((h₁.map Prod.fst).nodup_iff.1 hnd)

/-! ## The memory size -/

theorem store4_length {m m' : List Byte} {a : Int} {r : Reg} (h : store4 m a r = some m') :
    m'.length = m.length := by
  rw [store4_iff] at h
  split_ifs at h
  cases h
  exact poke4_length _ _ _

theorem storeResult_length {s s' : State} {c : Reg} (h : storeResult s c = some s') :
    s'.memory.length = s.memory.length := by
  simp only [storeResult, bind, Option.bind_eq_some] at h
  obtain ⟨_, _, m, hm, heq⟩ := h
  cases heq
  exact store4_length hm

theorem jump_length {s s' : State} (h : jump s = some s') :
    s'.memory.length = s.memory.length := by
  simp only [jump, bind, Option.bind_eq_some] at h
  obtain ⟨t, _, heq⟩ := h
  cases heq
  rfl

theorem jumpIf_length {c : Bool} {s s' : State} (h : jumpIf c s = some s') :
    s'.memory.length = s.memory.length := by
  cases c
  · cases h
    rfl
  · exact jump_length h

theorem lengthEffect_ite {s : State} {c : Prop} [Decidable c] {a b : Option State}
    (h₁ : c → LengthEffect s a) (h₂ : ¬c → LengthEffect s b) :
    LengthEffect s (if c then a else b) := by
  by_cases hc : c
  · rw [if_pos hc]
    exact h₁ hc
  · rw [if_neg hc]
    exact h₂ hc

theorem execute_lengthEffect (fp : FloatOps) (s : State) (op : Byte) :
    LengthEffect s (execute fp s op) := by
  unfold execute
  iterate 36 (refine lengthEffect_ite (fun h => ?_) (fun h => ?_); swap)
  all_goals intro s' hs'
  all_goals first
    | exact jumpIf_length hs'
    | exact jump_length hs'
    | exact storeResult_length hs'
    | (cases hs'
       rfl)
    | (simp only [bind, Option.bind_eq_some] at hs'
       first
         | (obtain ⟨_, _, heq⟩ := hs'
            first
              | exact storeResult_length heq
              | (cases heq
                 rfl))
         | (obtain ⟨m, hm, heq⟩ := hs'
            cases heq
            exact store4_length hm)
         | (obtain ⟨_, _, _, _, heq⟩ := hs'
            cases heq
            rfl))

theorem step_length (fp : FloatOps) {s s' : State} (h : step fp s = some s') :
    s'.memory.length = s.memory.length := by
  by_cases hrun : s.status = Status.running
  · by_cases hpc : s.pc < s.memory.length
    · have hop : s.memory[s.pc]? = some (s.memory[s.pc]) := List.getElem?_eq_getElem hpc
      rw [step_fetch fp hrun hop] at h
      exact execute_lengthEffect fp s _ s' h
    · rw [step_offEnd fp hrun (by omega)] at h
      cases h
      rfl
  · rw [step_of_not_running fp hrun] at h
    cases h
    rfl

/-! ## Runs without a taken jump -/

/-- A pass that takes no jump stops the loop or advances the program counter by 5. -/
theorem step_noJump (fp : FloatOps) {s s' : State} (hrun : s.status = Status.running)
    (h : step fp s = some s')
    (hno : ∀ op, s.memory[s.pc]? = some op → takesJump s.flags op = false) :
    s'.status ≠ Status.running ∨
      (s.pc < s.memory.length ∧ s'.pc = pcPlus s.pc 5 ∧ s'.status = Status.running) := by
  by_cases hpc : s.pc < s.memory.length
  · have hop : s.memory[s.pc]? = some (s.memory[s.pc]) := List.getElem?_eq_getElem hpc
    rw [step_fetch fp hrun hop] at h
    rcases execute_pcEffect fp s _ s' h with ⟨hp, hst, _⟩ | ⟨ht, _⟩ | ⟨_, hst, _⟩
    · exact Or.inr ⟨hpc, hp, hst.trans hrun⟩
    · rw [hno _ hop] at ht
      cases ht
    · exact Or.inl hst
  · rw [step_offEnd fp hrun (by omega)] at h
    cases h
    exact Or.inl (fun hc => (by cases hc))

theorem run_succ_right (fp : FloatOps) (n : Nat) (s : State) :
    run fp (n + 1) s = (run fp n s).bind (step fp) := by
  rw [run_add]
  congr 1
  funext u
  show (step fp u).bind (run fp 0) = step fp u
  cases step fp u <;> rfl

theorem run_noJump (fp : FloatOps) (n : Nat) :
    ∀ {s s' : State}, s.memory.length ≤ 2147483648 → run fp n s = some s' → NoJump fp s n →
      s'.status = Status.running →
      s'.pc = s.pc + 5 * n ∧ s'.memory.length = s.memory.length ∧
      (0 < n → s.pc + 5 * (n - 1) < s.memory.length) := by
  induction n with
  | zero =>
    intro s s' _ h _ _
    cases h
    exact ⟨rfl, rfl, fun h => absurd h (by decide)⟩
  | succ n ih =>
    intro s s' hN h hno hrun'
    rw [run_succ_right] at h
    obtain ⟨u, hu, hstep⟩ := Option.bind_eq_some.1 h
    have hurun : u.status = Status.running := by
      by_contra hc
      rw [step_of_not_running fp hc] at hstep
      cases hstep
      exact hc hrun'
    have hno' : NoJump fp s n := fun k hk => hno k (by omega)
    obtain ⟨hpc, hlen, _⟩ := ih hN hu hno' hurun
    rcases step_noJump fp hurun hstep (hno n (by omega) u hu hurun) with hst | ⟨hlt, hp, _⟩
    · exact absurd hrun' hst
    · rw [hlen] at hlt
      rw [pcPlus_eq (by omega)] at hp
      refine ⟨by omega, (step_length fp hstep).trans hlen, fun _ => ?_⟩
      show s.pc + 5 * n < s.memory.length
      omega

/-- The ways a pass of the loop from a running state can end. -/
theorem step_status (fp : FloatOps) {s s' : State} (hrun : s.status = Status.running)
    (h : step fp s = some s') :
    s'.status = Status.running ∨ s'.status = Status.halted ∨ s'.status = Status.faulted ∨
      (s'.status = Status.offEnd ∧ s'.memory.length ≤ s'.pc) := by
  by_cases hpc : s.pc < s.memory.length
  · have hop : s.memory[s.pc]? = some (s.memory[s.pc]) := List.getElem?_eq_getElem hpc
    have hex := h
    rw [step_fetch fp hrun hop] at hex
    rcases execute_pcEffect fp s _ s' hex with ⟨_, hst, _⟩ | ⟨_, hst, _⟩ | ⟨_, _, hop' | hop'⟩
    · exact Or.inl (hst.trans hrun)
    · exact Or.inl (hst.trans hrun)
    · rw [hop'] at hop
      rw [step_hlt fp hrun hop] at h
      cases h
      exact Or.inr (Or.inl rfl)
    · rw [step_invalid fp hrun hop hop'] at h
      cases h
      exact Or.inr (Or.inr (Or.inl rfl))
  · rw [step_offEnd fp hrun (by omega)] at h
    cases h
    exact Or.inr (Or.inr (Or.inr ⟨rfl, by show s.memory.length ≤ s.pc; omega⟩))

theorem run_offEnd_pc (fp : FloatOps) (n : Nat) :
    ∀ {s s' : State}, (s.status = Status.offEnd → s.memory.length ≤ s.pc) →
      run fp n s = some s' → s'.status = Status.offEnd → s'.memory.length ≤ s'.pc := by
  induction n with
  | zero =>
    intro s s' hs h
    cases h
    exact hs
  | succ n ih =>
    intro s s' hs h
    rw [run_succ] at h
    obtain ⟨s₁, h₁, h₂⟩ := Option.bind_eq_some.1 h
    refine ih ?_ h₂
    by_cases hrun : s.status = Status.running
    · intro hoff
      rcases step_status fp hrun h₁ with hc | hc | hc | ⟨_, hc⟩
      · rw [hc] at hoff
        cases hoff
      · rw [hc] at hoff
        cases hoff
      · rw [hc] at hoff
        cases hoff
      · exact hc
    · rw [step_of_not_running fp hrun] at h₁
      cases h₁
      exact hs

/-! ## An operand field that leaves the memory -/

theorem operand_none {m : List Byte} {p : Nat} (hlen : m.length ≤ p + 4)
    (hp : p + 4 < 4294967296) : operand m p = none := by
  have h3 : m[p + 1 + 3]? = none := List.getElem?_eq_none (by omega)
  unfold operand word
  rw [pcPlus_eq (by omega), h3]
  cases m[p + 1]? <;> cases m[p + 1 + 1]? <;> cases m[p + 1 + 2]? <;> rfl

theorem immediate_none {m : List Byte} {p : Nat} (hlen : m.length ≤ p + 4)
    (hp : p + 4 < 4294967296) : immediate m p = none := by
  have h3 : m[p + 4]? = none := List.getElem?_eq_none (by omega)
  unfold immediate
  rw [pcPlus_eq (by omega), pcPlus_eq (by omega), pcPlus_eq (by omega),
    pcPlus_eq (by omega), h3]
  cases m[p + 1]? <;> cases m[p + 2]? <;> cases m[p + 3]? <;> rfl

theorem execute_operand_outside (fp : FloatOps) {s : State} {op : Byte}
    (hlen : s.memory.length ≤ s.pc + 4) (hp : s.pc + 4 < 4294967296)
    (hmem : op ∈ operandReaders) : execute fp s op = none := by
  have hop := operand_none hlen hp
  have him := immediate_none hlen hp
  simp only [operandReaders, List.mem_cons, List.mem_nil_iff, or_false] at hmem
  rcases hmem with h | h | h | h | h | h | h | h | h | h | h | h | h | h | h | h | h | h | h | h
  all_goals
    subst h
    first
      | (show (operand s.memory s.pc).bind _ = none
         rw [hop]
         rfl)
      | (show (immediate s.memory s.pc).bind _ = none
         rw [him]
         rfl)

/-! ## The reads of `printMemory` -/

theorem mem_forRange {i bound j : Int} : j ∈ forRange i bound ↔ i ≤ j ∧ j < bound := by
  unfold forRange
  rw [List.mem_map]
  constructor
  · rintro ⟨k, hk, rfl⟩
    rw [List.mem_range] at hk
    omega
  · rintro ⟨h₁, h₂⟩
    refine ⟨(j - i).toNat, ?_, ?_⟩
    · rw [List.mem_range]
      omega
    · omega

theorem mem_lineReads {i bytesPerLine j : Int} :
    j ∈ lineReads i bytesPerLine ↔ i ≤ j ∧ j < i + bytesPerLine := by
  unfold lineReads
  rw [List.mem_append, List.mem_flatMap, List.mem_flatMap]
  constructor
  · rintro (⟨x, hx, hj⟩ | ⟨x, hx, hj⟩)
    · rw [List.eq_of_mem_replicate hj]
      exact mem_forRange.1 hx
    · rw [List.eq_of_mem_replicate hj]
      exact mem_forRange.1 hx
  · intro h
    exact Or.inl ⟨j, mem_forRange.2 h, List.mem_replicate.2 ⟨by decide, rfl⟩⟩

theorem printMemoryFrom_reads {memory_size bytesPerLine : Int} (hb : 1 ≤ bytesPerLine)
    (hmax : memory_size + bytesPerLine ≤ INT_MAX) (fuel : Nat) :
    ∀ i : Int, 0 ≤ i → memory_size - i ≤ (fuel : Int) * bytesPerLine →
      ∃ l, printMemoryFrom memory_size bytesPerLine fuel i = some l ∧
        ∀ j, j ∈ l ↔ ∃ k : Nat, i + (k : Int) * bytesPerLine < memory_size ∧
          i + (k : Int) * bytesPerLine ≤ j ∧ j < i + (k : Int) * bytesPerLine + bytesPerLine := by
  have hnone : ∀ i : Int, ¬ i < memory_size → ∀ j : Int,
      j ∈ ([] : List Int) ↔ ∃ k : Nat, i + (k : Int) * bytesPerLine < memory_size ∧
        i + (k : Int) * bytesPerLine ≤ j ∧ j < i + (k : Int) * bytesPerLine + bytesPerLine := by
    intro i hi j
    constructor
    · intro h
      cases h
    · rintro ⟨k, hk, -, -⟩
      have hk0 : 0 ≤ (k : Int) * bytesPerLine :=
        Int.mul_nonneg (Int.ofNat_nonneg k) (by omega)
      omega
  induction fuel with
  | zero =>
    intro i _ hfuel
    have hi : ¬ i < memory_size := by
      simp only [Nat.cast_zero, zero_mul] at hfuel
      omega
    refine ⟨[], ?_, hnone i hi⟩
    show (if i < memory_size then none else some []) = some []
    rw [if_neg hi]
  | succ fuel ih =>
    intro i hi0 hfuel
    by_cases hi : i < memory_size
    · have hrange : INT_MIN ≤ i + bytesPerLine ∧ i + bytesPerLine ≤ INT_MAX := by
        unfold INT_MIN
        omega
      have hfuel' : memory_size - (i + bytesPerLine) ≤ (fuel : Int) * bytesPerLine := by
        have e : ((fuel + 1 : Nat) : Int) * bytesPerLine
            = (fuel : Int) * bytesPerLine + bytesPerLine := by
          push_cast
          ring
        rw [e] at hfuel
        omega
      obtain ⟨rest, hrest, hmem⟩ := ih (i + bytesPerLine) (by omega) hfuel'
      refine ⟨lineReads i bytesPerLine ++ rest, ?_, ?_⟩
      · show (if i < memory_size then
            (if INT_MIN ≤ i + bytesPerLine ∧ i + bytesPerLine ≤ INT_MAX then
              (printMemoryFrom memory_size bytesPerLine fuel (i + bytesPerLine)).map
                fun rest => lineReads i bytesPerLine ++ rest
            else none)
          else some []) = _
        rw [if_pos hi, if_pos hrange, hrest]
        rfl
      · intro j
        rw [List.mem_append, mem_lineReads, hmem]
        constructor
        · rintro (⟨h₁, h₂⟩ | ⟨k, hk, h₁, h₂⟩)
          · refine ⟨0, ?_, ?_, ?_⟩ <;> simp only [Nat.cast_zero, zero_mul] <;> omega
          · have e : ((k + 1 : Nat) : Int) * bytesPerLine
                = (k : Int) * bytesPerLine + bytesPerLine := by
              push_cast
              ring
            refine ⟨k + 1, ?_, ?_, ?_⟩ <;> rw [e] <;> omega
        · rintro ⟨k, hk, h₁, h₂⟩
          cases k with
          | zero =>
            simp only [Nat.cast_zero, zero_mul] at hk h₁ h₂
            exact Or.inl ⟨by omega, by omega⟩
          | succ k =>
            have e : ((k + 1 : Nat) : Int) * bytesPerLine
                = (k : Int) * bytesPerLine + bytesPerLine := by
              push_cast
              ring
            rw [e] at hk h₁ h₂
            exact Or.inr ⟨k, by omega, by omega, by omega⟩
    · refine ⟨[], ?_, hnone i hi⟩
      show (if i < memory_size then _ else some []) = some []
      rw [if_neg hi]

/-- The reads of `printMemory` for a non-negative size and at least one byte per line:
they are never negative, and they all lie below `memory_size` exactly when
`bytesPerLine` divides `memory_size`; otherwise the index `memory_size` is read. -/
theorem printMemoryReads_spec {memory_size bytesPerLine : Int} (hs : 0 ≤ memory_size)
    (hb : 1 ≤ bytesPerLine) (hmax : memory_size + bytesPerLine ≤ INT_MAX) :
    ∃ l, printMemoryReads memory_size bytesPerLine = some l ∧
      (∀ j, j ∈ l → 0 ≤ j) ∧
      (memory_size % bytesPerLine = 0 → ∀ j, j ∈ l → j < memory_size) ∧
      (memory_size % bytesPerLine ≠ 0 → memory_size ∈ l) := by
  have hfuel : memory_size - 0 ≤ (memory_size.toNat : Int) * bytesPerLine := by
    have h₁ : (memory_size.toNat : Int) = memory_size := Int.toNat_of_nonneg hs
    rw [h₁]
    nlinarith
  obtain ⟨l, hl, hmem⟩ := printMemoryFrom_reads hb hmax memory_size.toNat 0 (le_refl 0) hfuel
  have hdiv := Int.ediv_add_emod memory_size bytesPerLine
  have hmod₀ := Int.emod_nonneg memory_size (show bytesPerLine ≠ 0 by omega)
  have hmod₁ := Int.emod_lt_of_pos memory_size (show 0 < bytesPerLine by omega)
  have hq : 0 ≤ memory_size / bytesPerLine := Int.ediv_nonneg hs (by omega)
  refine ⟨l, hl, ?_, ?_, ?_⟩
  · intro j hj
    obtain ⟨k, -, h₁, -⟩ := (hmem j).1 hj
    have hk0 : 0 ≤ (k : Int) * bytesPerLine := Int.mul_nonneg (Int.ofNat_nonneg k) (by omega)
    omega
  · intro h0 j hj
    obtain ⟨k, hk, -, h₂⟩ := (hmem j).1 hj
    rw [h0, add_zero] at hdiv
    have hlt : (k : Int) * bytesPerLine < (memory_size / bytesPerLine) * bytesPerLine := by
      rw [mul_comm (memory_size / bytesPerLine)]
      omega
    have hkq : (k : Int) < memory_size / bytesPerLine :=
      lt_of_mul_lt_mul_right hlt (by omega)
    have hle : ((k : Int) + 1) * bytesPerLine ≤ (memory_size / bytesPerLine) * bytesPerLine :=
      mul_le_mul_of_nonneg_right (by omega) (by omega)
    have e : ((k : Int) + 1) * bytesPerLine = (k : Int) * bytesPerLine + bytesPerLine := by ring
    rw [e, mul_comm (memory_size / bytesPerLine)] at hle
    omega
  · intro h0
    refine (hmem memory_size).2 ⟨(memory_size / bytesPerLine).toNat, ?_, ?_, ?_⟩
    all_goals
      rw [Int.toNat_of_nonneg hq, mul_comm (memory_size / bytesPerLine)]
      omega

/-! ## The digits of the diagnostic -/

theorem hexDigit_eq_lowerHexDigit : ∀ d, d < 16 → hexDigit d = lowerHexDigit d := by
  decide

theorem run_length (fp : FloatOps) (n : Nat) :
    ∀ {s s' : State}, run fp n s = some s' → s'.memory.length = s.memory.length := by
  induction n with
  | zero =>
    intro s s' h
    cases h
    rfl
  | succ n ih =>
    intro s s' h
    rw [run_succ_right] at h
    obtain ⟨u, hu, hstep⟩ := Option.bind_eq_some.1 h
    exact (step_length fp hstep).trans (ih hu)

/-- A run without a result has a first pass without a result. -/
theorem run_none_first (fp : FloatOps) (n : Nat) {s : State} (h : run fp n s = none) :
    ∃ k u, k < n ∧ run fp k s = some u ∧ step fp u = none := by
  induction n with
  | zero => cases h
  | succ n ih =>
    rw [run_succ_right] at h
    cases hn : run fp n s with
    | none =>
      obtain ⟨k, u, hk, hu, hstep⟩ := ih hn
      exact ⟨k, u, by omega, hu, hstep⟩
    | some u =>
      rw [hn] at h
      exact ⟨n, u, by omega, hn, h⟩

theorem run_of_step_none (fp : FloatOps) (n : Nat) {s : State} (h : step fp s = none) :
    run fp (n + 1) s = none := by
  rw [run_succ, h]
  rfl

/-! # The claims -/

/-- C1: the program `main` runs, on a 128-byte buffer with any prior contents, reaches
`hlt` at address 0x3c after 60 loop iterations, and from then on the text written to
standard output is exactly `1513126`. -/
theorem print_array_output (fp : FloatOps) (heap : List Byte)
    (hheap : heap.length = MEMORY_SIZE_BYTES) (n : Nat) (hn : 60 ≤ n) :
    ∃ s, main fp n heap = some s ∧ s.status = Status.halted ∧ s.out = "1513126" ∧
      s.pc = 0x3c ∧ s.memory[s.pc]? = some OPCODE_HLT := by
  have hlen : instructions.length ≤ heap.length := by
    rw [hheap]
    decide
  have h60 : run fp 60 ((initialState instructions).extend (heap.drop instructions.length))
      = some (printArrayFinal.extend (heap.drop instructions.length)) :=
    run_append fp _ 60 (run_instructions fp) (by decide)
  obtain ⟨k, rfl⟩ := Nat.exists_eq_add_of_le hn
  refine ⟨printArrayFinal.extend (heap.drop instructions.length), ?_, rfl, rfl, rfl, ?_⟩
  · unfold main runImage loadImage
    rw [if_pos hlen]
    show run fp (60 + k) ((initialState instructions).extend (heap.drop instructions.length)) = _
    rw [run_add, h60]
    exact run_of_not_running fp k (show Status.halted ≠ Status.running by decide)
  · exact getElem?_append_some _ (show printArrayFinal.memory[60]? = some OPCODE_HLT by decide)

theorem print_array_output_witness :
    ∃ s, main idleFloatOps 60 (List.replicate 128 0) = some s ∧ s.status = Status.halted ∧ s.out = "1513126" ∧
      s.pc = 0x3c ∧ s.memory[s.pc]? = some OPCODE_HLT :=
  print_array_output _ (List.replicate 128 0) rfl 60 (by decide)

/-- C2: for all register patterns `a`, `b` (signed values `a.toInt`, `b.toInt`) and every
target `L`, the four instructions `loadai a; loadbi b; cmpint; jge L` placed at the
program counter run as four normal steps and leave the program counter at `L` when
`a >= b` in signed order, and at the address after `jge` (a 32-bit address) otherwise. -/
theorem cmpint_jge_branch (fp : FloatOps) (s : State) (a b z L : Reg)
    (hrun : s.status = Status.running)
    (hprog : ProgAt s.memory s.pc
      (instr OPCODE_LOADAI a ++ instr OPCODE_LOADBI b ++ instr OPCODE_CMPINT z ++
        instr OPCODE_JGE L))
    (hpc : s.pc + 20 < 4294967296) :
    ∃ s', run fp 4 s = some s' ∧ s'.status = Status.running ∧
      s'.pc = (if b.toInt ≤ a.toInt then L.toNat else s.pc + 20) := by
  simp only [List.append_assoc] at hprog
  have p₁ := hprog.head
  have p₂ := hprog.tail.head
  have p₃ := hprog.tail.tail.head
  have p₄ := hprog.tail.tail.tail
  have e₁ := step_loadai fp hrun p₁ (by omega)
  have e₂ := step_loadbi fp (s := { s with aRegister := a, pc := s.pc + 5 }) hrun p₂
    (by show s.pc + 5 + 5 < 4294967296; omega)
  have e₃ := step_cmpint fp
    (s := { s with aRegister := a, bRegister := b, pc := s.pc + 5 + 5 }) hrun p₃.opcode
  have e₄ := step_jge fp
    (s := { s with aRegister := a, bRegister := b, flags := cmpFlags a.toInt b.toInt,
                   pc := s.pc + 5 + 5 + 5 }) hrun p₄
    (by show s.pc + 5 + 5 + 5 + 5 < 4294967296; omega)
  rw [pcPlus_eq (by show s.pc + 5 + 5 + 5 < 4294967296; omega)] at e₃
  refine ⟨{ s with aRegister := a, bRegister := b, flags := cmpFlags a.toInt b.toInt,
                   pc := if flagSet (cmpFlags a.toInt b.toInt) (FLAG_MASK_GT ||| FLAG_MASK_EQ)
                         then L.toNat else s.pc + 5 + 5 + 5 + 5 }, ?_, hrun, ?_⟩
  · exact (run_succ_of_step fp 3 e₁).trans ((run_succ_of_step fp 2 e₂).trans
      ((run_succ_of_step fp 1 e₃).trans (run_succ_of_step fp 0 e₄)))
  · show (if flagSet (cmpFlags a.toInt b.toInt) (FLAG_MASK_GT ||| FLAG_MASK_EQ) = true
        then L.toNat else s.pc + 5 + 5 + 5 + 5) = _
    by_cases h : b.toInt ≤ a.toInt
    · rw [if_pos h, if_pos ((flagSet_cmpFlags_ge _ _).2 h)]
    · rw [if_neg h, if_neg (fun hf => h ((flagSet_cmpFlags_ge _ _).1 hf))]

theorem cmpint_jge_branch_witness :
    ∃ s', run idleFloatOps 4 (initialState
        (instr OPCODE_LOADAI ⟨0, 0, 0, 0x80⟩ ++ instr OPCODE_LOADBI ⟨0xff, 0xff, 0xff, 0x7f⟩ ++
          instr OPCODE_CMPINT ⟨0, 0, 0, 0⟩ ++ instr OPCODE_JGE ⟨0, 0, 0, 0⟩)) = some s' ∧
      s'.status = Status.running ∧ s'.pc = 20 :=
  cmpint_jge_branch idleFloatOps _ ⟨0, 0, 0, 0x80⟩ ⟨0xff, 0xff, 0xff, 0x7f⟩ ⟨0, 0, 0, 0⟩
    ⟨0, 0, 0, 0⟩ rfl (by decide) (by decide)

/-- C3: for every value `I`, every address `addr` with `addr .. addr+3` inside a memory of
at most `2^31` bytes, and `X` in `{A, B}`: `loadXi I` followed by `storeXm addr`, placed at
the program counter, run as two normal steps after which `Memory[addr .. addr+3]` holds
the four little-endian bytes of `I`; nothing is assumed about where `addr` lies relative
to the two instructions. -/
theorem load_store_roundtrip (fp : FloatOps) (s : State) (X : RegName) (I addr : Nat)
    (hrun : s.status = Status.running)
    (hprog : ProgAt s.memory s.pc
      (instr X.loadImm (Reg.ofNat I) ++ instr X.storeMem (Reg.ofNat addr)))
    (haddr : addr + 3 < s.memory.length) (hN : s.memory.length ≤ 2147483648) :
    ∃ s', run fp 2 s = some s' ∧ s'.status = Status.running ∧
      s'.memory.length = s.memory.length ∧
      (s'.memory[addr]?).map Fin.val = some (I % 256) ∧
      (s'.memory[addr + 1]?).map Fin.val = some (I / 256 % 256) ∧
      (s'.memory[addr + 2]?).map Fin.val = some (I / 65536 % 256) ∧
      (s'.memory[addr + 3]?).map Fin.val = some (I / 16777216 % 256) := by
  have hlen := hprog.lt_length 9 (by simp [instr])
  have p₁ := hprog.head
  have p₂ : ProgAt s.memory (s.pc + 5) (instr X.storeMem (Reg.ofNat addr)) := hprog.tail
  have hto : (Reg.ofNat addr).toInt = (addr : Int) := Reg.toInt_ofNat (by omega)
  have hst := store4_eq (Reg.ofNat I) haddr hN
  rw [← hto] at hst
  obtain ⟨hl, h0, h1, h2, h3⟩ := stored_bytes (Reg.ofNat I) haddr
  cases X
  · have e₁ := step_loadai fp hrun p₁ (by omega)
    have e₂ := step_store fp (s := { s with aRegister := Reg.ofNat I, pc := s.pc + 5 })
      (r := Reg.ofNat I) hrun p₂ (Or.inl ⟨rfl, rfl⟩)
      (by show s.pc + 5 + 5 < 4294967296; omega) hst
    refine ⟨_, (run_succ_of_step fp 1 e₁).trans (run_succ_of_step fp 0 e₂), hrun, hl, ?_, ?_,
      ?_, ?_⟩
    · exact (congrArg (Option.map Fin.val) h0).trans rfl
    · exact (congrArg (Option.map Fin.val) h1).trans rfl
    · exact (congrArg (Option.map Fin.val) h2).trans rfl
    · exact (congrArg (Option.map Fin.val) h3).trans rfl
  · have e₁ := step_loadbi fp hrun p₁ (by omega)
    have e₂ := step_store fp (s := { s with bRegister := Reg.ofNat I, pc := s.pc + 5 })
      (r := Reg.ofNat I) hrun p₂ (Or.inr ⟨rfl, rfl⟩)
      (by show s.pc + 5 + 5 < 4294967296; omega) hst
    refine ⟨_, (run_succ_of_step fp 1 e₁).trans (run_succ_of_step fp 0 e₂), hrun, hl, ?_, ?_,
      ?_, ?_⟩
    · exact (congrArg (Option.map Fin.val) h0).trans rfl
    · exact (congrArg (Option.map Fin.val) h1).trans rfl
    · exact (congrArg (Option.map Fin.val) h2).trans rfl
    · exact (congrArg (Option.map Fin.val) h3).trans rfl

theorem load_store_roundtrip_witness :
    ∃ s', run idleFloatOps 2 (initialState
        (instr OPCODE_LOADBI (Reg.ofNat 0xDEADBEEF) ++ instr OPCODE_STOREBM (Reg.ofNat 3)))
          = some s' ∧ s'.status = Status.running ∧ s'.memory.length = 10 ∧
      (s'.memory[3]?).map Fin.val = some 0xEF ∧ (s'.memory[3 + 1]?).map Fin.val = some 0xBE ∧
      (s'.memory[3 + 2]?).map Fin.val = some 0xAD ∧ (s'.memory[3 + 3]?).map Fin.val = some 0xDE :=
  load_store_roundtrip idleFloatOps _ RegName.B 0xDEADBEEF 3 rfl (by decide) (by decide)
    (by decide)

/-- C4: whatever the registers and the previous flags, the flags left by `cmpint` have
exactly one of EQ and NE set, never both GT and LT, and neither GT nor LT together
with EQ. -/
theorem cmpint_flags_invariant (fp : FloatOps) (s : State) (hrun : s.status = Status.running)
    (hop : s.memory[s.pc]? = some OPCODE_CMPINT) :
    ∃ s', step fp s = some s' ∧
      (flagSet s'.flags FLAG_MASK_EQ = !flagSet s'.flags FLAG_MASK_NE) ∧
      ¬ (flagSet s'.flags FLAG_MASK_GT = true ∧ flagSet s'.flags FLAG_MASK_LT = true) ∧
      ¬ (flagSet s'.flags FLAG_MASK_GT = true ∧ flagSet s'.flags FLAG_MASK_EQ = true) ∧
      ¬ (flagSet s'.flags FLAG_MASK_LT = true ∧ flagSet s'.flags FLAG_MASK_EQ = true) := by
  refine ⟨_, step_cmpint fp hrun hop, ?_⟩
  show (flagSet (cmpFlags s.aRegister.toInt s.bRegister.toInt) FLAG_MASK_EQ
      = !flagSet (cmpFlags s.aRegister.toInt s.bRegister.toInt) FLAG_MASK_NE) ∧
    ¬ (flagSet (cmpFlags s.aRegister.toInt s.bRegister.toInt) FLAG_MASK_GT = true ∧
        flagSet (cmpFlags s.aRegister.toInt s.bRegister.toInt) FLAG_MASK_LT = true) ∧
    ¬ (flagSet (cmpFlags s.aRegister.toInt s.bRegister.toInt) FLAG_MASK_GT = true ∧
        flagSet (cmpFlags s.aRegister.toInt s.bRegister.toInt) FLAG_MASK_EQ = true) ∧
    ¬ (flagSet (cmpFlags s.aRegister.toInt s.bRegister.toInt) FLAG_MASK_LT = true ∧
        flagSet (cmpFlags s.aRegister.toInt s.bRegister.toInt) FLAG_MASK_EQ = true)
  rw [cmpFlags_eq]
  split_ifs <;> decide

theorem cmpint_flags_invariant_witness :
    ∃ s', step idleFloatOps
        { initialState (instr OPCODE_CMPINT Reg.zero) with
          aRegister := ⟨7, 0, 0, 0⟩, bRegister := ⟨9, 0, 0, 0⟩, flags := 0xff } = some s' ∧
      (flagSet s'.flags FLAG_MASK_EQ = !flagSet s'.flags FLAG_MASK_NE) ∧
      ¬ (flagSet s'.flags FLAG_MASK_GT = true ∧ flagSet s'.flags FLAG_MASK_LT = true) ∧
      ¬ (flagSet s'.flags FLAG_MASK_GT = true ∧ flagSet s'.flags FLAG_MASK_EQ = true) ∧
      ¬ (flagSet s'.flags FLAG_MASK_LT = true ∧ flagSet s'.flags FLAG_MASK_EQ = true) :=
  cmpint_flags_invariant idleFloatOps _ rfl (by decide)

/-- C5: `cmpfloat` (opcode 0x41) has no branch in the dispatch chain.  The program
`loadai 1.0f; loadbi 2.0f; cmpfloat; jlt 0x14; ...` stops at `cmpfloat` in the faulted
state with the diagnostic `Invalid opcode 41`: the flags stay clear, the program counter
stays at 0x0a and `jlt` is never reached, although `1.0 < 2.0`. -/
theorem cmpfloat_is_invalid_opcode (fp : FloatOps) (n : Nat) :
    run fp (3 + n) (initialState cmpfloatProgram) =
      some { pc := 0x0a, aRegister := ⟨0x00, 0x00, 0x80, 0x3f⟩,
             bRegister := ⟨0x00, 0x00, 0x00, 0x40⟩, addrRegister := Reg.zero, flags := 0,
             memory := cmpfloatProgram, out := "Invalid opcode 41\n",
             status := Status.faulted } := by
  rw [run_add]
  have h3 : run fp 3 (initialState cmpfloatProgram) =
      some { pc := 0x0a, aRegister := ⟨0x00, 0x00, 0x80, 0x3f⟩,
             bRegister := ⟨0x00, 0x00, 0x00, 0x40⟩, addrRegister := Reg.zero, flags := 0,
             memory := cmpfloatProgram, out := "Invalid opcode 41\n",
             status := Status.faulted } := rfl
  rw [h3]
  exact run_of_not_running fp n (by decide)

/-- C6, as the claim states it, fails: `divint 8` with `A = 7`, `B = 0` does not end in a
faulted state; the handler divides without a guard and the step has no defined result. -/
theorem divint_by_zero_not_faulted :
    step idleFloatOps divZeroState = none ∧
      ¬ ∃ s', step idleFloatOps divZeroState = some s' ∧ s'.status = Status.faulted := by
  have h : step idleFloatOps divZeroState = none := by decide
  refine ⟨h, ?_⟩
  rintro ⟨s', hs, -⟩
  rw [h] at hs
  cases hs

/-- C6, amended: in every state in which register B holds the integer 0, the `divint`
and `modint` handlers perform the division unguarded, so the step has no defined result:
no state is produced, in particular no faulted state and no diagnostic. -/
theorem div_mod_by_zero_undefined (fp : FloatOps) (s : State) (op : Byte)
    (hrun : s.status = Status.running) (hop : s.memory[s.pc]? = some op)
    (hdiv : op = OPCODE_DIVINT ∨ op = OPCODE_MODINT) (hb : s.bRegister.toInt = 0) :
    step fp s = none := by
  rw [step_fetch fp hrun hop]
  rcases hdiv with rfl | rfl
  · show (divInt s.aRegister.toInt s.bRegister.toInt).bind _ = none
    rw [hb]
    simp [divInt]
  · show (modInt s.aRegister.toInt s.bRegister.toInt).bind _ = none
    rw [hb]
    simp [modInt]

theorem div_mod_by_zero_undefined_witness :
    step idleFloatOps modZeroState = none :=
  div_mod_by_zero_undefined idleFloatOps _ OPCODE_MODINT rfl (by decide) (Or.inr rfl)
    (by decide)

/-- C8: for every memory size `N >= 1`, on a memory that is zero everywhere except for
`hlt` at address 0 the loop stops in the halted state at the first iteration (and stays
there), with no output, `A`, `B`, `R` and the flags zero, and the memory unchanged. -/
theorem halt_only (fp : FloatOps) (N : Nat) (hN : 1 ≤ N) (n : Nat) (hn : 1 ≤ n) :
    ∃ s, run fp n (initialState ((List.replicate N 0).set 0 OPCODE_HLT)) = some s ∧
      s.status = Status.halted ∧ s.out = "" ∧ s.aRegister = Reg.zero ∧
      s.bRegister = Reg.zero ∧ s.addrRegister = Reg.zero ∧ s.flags = 0 ∧ s.pc = 0 ∧
      s.memory = (List.replicate N 0).set 0 OPCODE_HLT := by
  obtain ⟨k, rfl⟩ := Nat.exists_eq_add_of_le hn
  have hfetch : (initialState ((List.replicate N 0).set 0 OPCODE_HLT)).memory[
      (initialState ((List.replicate N 0).set 0 OPCODE_HLT)).pc]? = some OPCODE_HLT := by
    show ((List.replicate N 0).set 0 OPCODE_HLT)[0]? = some OPCODE_HLT
    rw [List.getElem?_set_self (by rw [List.length_replicate]; omega)]
  have h₁ : step fp (initialState ((List.replicate N 0).set 0 OPCODE_HLT)) =
      some { initialState ((List.replicate N 0).set 0 OPCODE_HLT) with
        status := Status.halted } := by
    rw [step_fetch fp rfl hfetch]
    rfl
  refine ⟨{ initialState ((List.replicate N 0).set 0 OPCODE_HLT) with
    status := Status.halted }, ?_, rfl, rfl, rfl, rfl, rfl, rfl, rfl, rfl⟩
  rw [run_add, show run fp 1 _ = _ from run_succ_of_step fp 0 h₁]
  exact run_of_not_running fp k (show Status.halted ≠ Status.running by decide)

theorem halt_only_witness :
    ∃ s, run idleFloatOps 1 (initialState ((List.replicate 1 0).set 0 OPCODE_HLT)) = some s ∧
      s.status = Status.halted ∧ s.out = "" ∧ s.aRegister = Reg.zero ∧
      s.bRegister = Reg.zero ∧ s.addrRegister = Reg.zero ∧ s.flags = 0 ∧ s.pc = 0 ∧
      s.memory = (List.replicate 1 0).set 0 OPCODE_HLT :=
  halt_only idleFloatOps 1 (by decide) 1 (by decide)

set_option maxRecDepth 100000 in
/-- C9: the image `printint 0x0a; hlt` in a 128-byte buffer reaches `hlt` in two
iterations whatever the buffer held before, but what it prints is the prior content of
the four bytes after the image, which `main` never initialises: `0` when the buffer was
all zero, `16843009` when every byte was `0x01`. -/
theorem uninitialised_bytes_reach_output (fp : FloatOps) :
    ∃ s₁ s₂, runImage fp 2 (List.replicate 128 0x00) readsPastImage = some s₁ ∧
      runImage fp 2 (List.replicate 128 0x01) readsPastImage = some s₂ ∧
      s₁.status = Status.halted ∧ s₂.status = Status.halted ∧
      s₁.out = "0" ∧ s₂.out = "16843009" := by
  refine ⟨_, _, rfl, rfl, ?_, ?_, ?_, ?_⟩ <;> rfl

/-- C10, as the claim states it, fails in its last part: `jmp 1` at address 0 is a step
that moves the program counter from 0 to 1. -/
theorem jmp_advances_by_one :
    ∃ s', step idleFloatOps jmpPlusOneState = some s' ∧ s'.status = Status.running ∧
      s'.pc = jmpPlusOneState.pc + 1 :=
  ⟨_, rfl, rfl, rfl⟩

/-- C10, amended: every handler is five bytes wide.  In a step from a running state with a
32-bit successor address: an opcode of the dispatch chain other than `hlt`, `jmp` and a
conditional jump whose test succeeds leaves the loop running with the program counter at
`PC + 5`; a step that is not a taken jump never moves the program counter by 1, 2, 3 or
4; and `cmpint` and a conditional jump whose test fails, which read no operand, always
complete. -/
theorem five_byte_instructions (fp : FloatOps) (s : State) (op : Byte)
    (hrun : s.status = Status.running) (hop : s.memory[s.pc]? = some op)
    (hpc : s.pc + 5 < 4294967296) :
    (∀ s', step fp s = some s' → op ∈ handledOpcodes → op ≠ OPCODE_HLT →
        takesJump s.flags op = false → s'.pc = s.pc + 5 ∧ s'.status = Status.running) ∧
    (∀ s', step fp s = some s' → takesJump s.flags op = false →
        ∀ k, 1 ≤ k → k ≤ 4 → s'.pc ≠ s.pc + k) ∧
    ((op = OPCODE_CMPINT ∨ (op ∈ [OPCODE_JEQ, OPCODE_JNE, OPCODE_JLT, OPCODE_JLE, OPCODE_JGT,
        OPCODE_JGE] ∧ takesJump s.flags op = false)) → ∃ s', step fp s = some s') := by
  rw [step_fetch fp hrun hop]
  refine ⟨?_, ?_, ?_⟩
  · intro s' hs' hmem hhlt hjump
    rcases execute_pcEffect fp s op s' hs' with ⟨h₁, h₂, -⟩ | ⟨h₁, -⟩ | ⟨-, -, h₃⟩
    · rw [h₁, h₂, pcPlus_eq hpc]
      exact ⟨rfl, hrun⟩
    · rw [hjump] at h₁
      cases h₁
    · rcases h₃ with h₃ | h₃
      · exact absurd h₃ hhlt
      · exact absurd hmem h₃
  · intro s' hs' hjump k hk₁ hk₄
    rcases execute_pcEffect fp s op s' hs' with ⟨h₁, -⟩ | ⟨h₁, -⟩ | ⟨h₁, -⟩
    · rw [h₁, pcPlus_eq hpc]
      omega
    · rw [hjump] at h₁
      cases h₁
    · rw [h₁]
      omega
  · rintro (rfl | ⟨hmem, hjump⟩)
    · exact ⟨_, rfl⟩
    · simp only [List.mem_cons, List.mem_nil_iff, or_false] at hmem
      rcases hmem with rfl | rfl | rfl | rfl | rfl | rfl
      · rw [takesJump_jeq] at hjump
        exact ⟨s.next, show jumpIf (flagSet s.flags FLAG_MASK_EQ) s = _ by rw [hjump]; rfl⟩
      · rw [takesJump_jne] at hjump
        exact ⟨s.next, show jumpIf (flagSet s.flags FLAG_MASK_NE) s = _ by rw [hjump]; rfl⟩
      · rw [takesJump_jlt] at hjump
        exact ⟨s.next, show jumpIf (flagSet s.flags FLAG_MASK_LT) s = _ by rw [hjump]; rfl⟩
      · rw [takesJump_jle] at hjump
        exact ⟨s.next, show jumpIf (flagSet s.flags (FLAG_MASK_LT ||| FLAG_MASK_EQ)) s = _ by
          rw [hjump]; rfl⟩
      · rw [takesJump_jgt] at hjump
        exact ⟨s.next, show jumpIf (flagSet s.flags FLAG_MASK_GT) s = _ by rw [hjump]; rfl⟩
      · rw [takesJump_jge] at hjump
        exact ⟨s.next, show jumpIf (flagSet s.flags (FLAG_MASK_GT ||| FLAG_MASK_EQ)) s = _ by
          rw [hjump]; rfl⟩

theorem five_byte_instructions_witness :
    ∃ s', step idleFloatOps printrintState = some s' ∧ s'.pc = printrintState.pc + 5 ∧
      s'.status = Status.running ∧ s'.out = "-860116349" :=
  ⟨_, rfl,
    ((five_byte_instructions idleFloatOps printrintState OPCODE_PRINTRINT rfl (by decide)
      (by decide)).1 _ rfl (by decide) (by decide) rfl).1,
    rfl, by decide⟩

/-- C11: a load instruction of register `X` (one of `A`, `B`, `R`) sets `X` to the four
bytes `v` in order, where `v` is the operand field `Memory[PC+1..PC+4]` for
`loadai/loadbi/loadri` and `Memory[addr..addr+3]`, `addr` the little-endian operand, for
`loadam/loadbm/loadrm`; the other two registers, the flags, the memory and the output
are unchanged, the loop keeps running and the program counter becomes `PC + 5`. -/
theorem load_frame (fp : FloatOps) (s : State) (X : RegId) (v : Reg) (addr : Nat)
    (hrun : s.status = Status.running) (hN : s.memory.length ≤ 2147483648)
    (hsrc : ProgAt s.memory s.pc (instr X.loadi v) ∨
      (ProgAt s.memory s.pc (instr X.loadm (Reg.ofNat addr)) ∧
        s.memory[addr]? = some v.b0 ∧ s.memory[addr + 1]? = some v.b1 ∧
        s.memory[addr + 2]? = some v.b2 ∧ s.memory[addr + 3]? = some v.b3)) :
    ∃ s', step fp s = some s' ∧ s'.reg X = v ∧ (∀ Y, Y ≠ X → s'.reg Y = s.reg Y) ∧
      s'.flags = s.flags ∧ s'.memory = s.memory ∧ s'.out = s.out ∧ s'.pc = s.pc + 5 ∧
      s'.status = Status.running := by
  have hstep : step fp s = some { (s.setReg X v) with pc := s.pc + 5 } := by
    rcases hsrc with hprog | ⟨hprog, h₀, h₁, h₂, h₃⟩
    · have hlen := hprog.lt_length 4 (by simp [instr])
      exact step_loadi fp X hrun hprog (by omega)
    · have hlen := hprog.lt_length 4 (by simp [instr])
      have ha : addr + 3 < s.memory.length := by
        by_contra hc
        rw [List.getElem?_eq_none (by omega)] at h₃
        cases h₃
      refine step_loadm fp X hrun hprog (by omega) ?_
      rw [Reg.toInt_ofNat (by omega), load4_ofNat _ _ (by omega)]
      exact word_of_bytes h₀ h₁ h₂ h₃
  obtain ⟨f₁, f₂, f₃, f₄, f₅, f₆, f₇⟩ := setReg_frame s X v (s.pc + 5)
  exact ⟨_, hstep, f₁, f₂, f₃, f₄, f₅, f₆, f₇.trans hrun⟩

theorem load_frame_witness :
    ∃ s', step idleFloatOps loadrmState = some s' ∧ s'.reg RegId.R = ⟨0xde, 0xad, 0xbe, 0xef⟩ ∧
      (∀ Y, Y ≠ RegId.R → s'.reg Y = loadrmState.reg Y) ∧
      s'.flags = loadrmState.flags ∧ s'.memory = loadrmState.memory ∧
      s'.out = loadrmState.out ∧ s'.pc = loadrmState.pc + 5 ∧ s'.status = Status.running :=
  load_frame idleFloatOps loadrmState RegId.R ⟨0xde, 0xad, 0xbe, 0xef⟩ 8 rfl (by decide)
    (Or.inr ⟨by decide, by decide, by decide, by decide, by decide⟩)

/-- C12: for every address `addr` with `addr .. addr+3` inside a memory of at most `2^31`
bytes, given as the little-endian operand, the store-direct instruction of register `X`
(`stoream`, `storebm`, `storerm`) sets `Memory[addr+i]` to byte `i` of `X` for
`i = 0..3` and leaves every other memory byte, the memory size, the three registers, the
flags and the output unchanged; the loop keeps running with the program counter at
`PC + 5`.  All four operand bytes make up the address. -/
theorem store_frame (fp : FloatOps) (s : State) (X : RegId) (addr : Nat)
    (hrun : s.status = Status.running) (hN : s.memory.length ≤ 2147483648)
    (hprog : ProgAt s.memory s.pc (instr X.storem (Reg.ofNat addr)))
    (haddr : addr + 3 < s.memory.length) :
    ∃ s', step fp s = some s' ∧
      s'.memory[addr]? = some (s.reg X).b0 ∧ s'.memory[addr + 1]? = some (s.reg X).b1 ∧
      s'.memory[addr + 2]? = some (s.reg X).b2 ∧ s'.memory[addr + 3]? = some (s.reg X).b3 ∧
      (∀ j, j < addr ∨ addr + 3 < j → s'.memory[j]? = s.memory[j]?) ∧
      s'.memory.length = s.memory.length ∧
      s'.aRegister = s.aRegister ∧ s'.bRegister = s.bRegister ∧
      s'.addrRegister = s.addrRegister ∧ s'.flags = s.flags ∧ s'.out = s.out ∧
      s'.pc = s.pc + 5 ∧ s'.status = Status.running := by
  obtain ⟨h₀, h₁, h₂, h₃⟩ := poke4_bytes (s.reg X) haddr
  exact ⟨_, step_storem fp X hrun hprog haddr hN, h₀, h₁, h₂, h₃,
    fun j hj => poke4_frame _ _ _ j hj, poke4_length _ _ _, rfl, rfl, rfl, rfl, rfl, rfl, hrun⟩

set_option maxRecDepth 100000 in
theorem store_frame_witness :
    instr OPCODE_STOREAM (Reg.ofNat 256) = [OPCODE_STOREAM, 0x00, 0x01, 0x00, 0x00] ∧
    ∃ s', step idleFloatOps stoream256State = some s' ∧
      s'.memory[256]? = some 0x11 ∧ s'.memory[256 + 1]? = some 0x22 ∧
      s'.memory[256 + 2]? = some 0x33 ∧ s'.memory[256 + 3]? = some 0x44 ∧
      (∀ j, j < 256 ∨ 256 + 3 < j → s'.memory[j]? = stoream256State.memory[j]?) ∧
      s'.memory.length = stoream256State.memory.length ∧
      s'.aRegister = stoream256State.aRegister ∧ s'.bRegister = stoream256State.bRegister ∧
      s'.addrRegister = stoream256State.addrRegister ∧ s'.flags = stoream256State.flags ∧
      s'.out = stoream256State.out ∧ s'.pc = stoream256State.pc + 5 ∧
      s'.status = Status.running :=
  ⟨by decide, store_frame idleFloatOps stoream256State RegId.A 256 rfl (by decide) (by decide)
    (by decide)⟩

/-- C14: for all contents of `A` and `B` (signed values `a`, `b`) and every operand address
`addr` with `addr .. addr+3` inside a memory of at most `2^31` bytes, `addint`, `subint`
and `multint` write to `Memory[addr .. addr+3]` the little-endian bytes of `a + b`,
`a - b`, `a * b` reduced modulo `2^32`, change no other memory byte, and leave `A`, `B`,
`R`, the flags and the output unchanged; the program counter becomes `PC + 5`. -/
theorem int_arith_wraps (fp : FloatOps) (s : State) (o : IntOp) (addr : Nat)
    (hrun : s.status = Status.running) (hN : s.memory.length ≤ 2147483648)
    (hprog : ProgAt s.memory s.pc (instr o.opcode (Reg.ofNat addr)))
    (haddr : addr + 3 < s.memory.length) :
    ∃ s', step fp s = some s' ∧
      (s'.memory[addr]?).map Fin.val
        = some (wrap32 (o.eval s.aRegister.toInt s.bRegister.toInt) % 256) ∧
      (s'.memory[addr + 1]?).map Fin.val
        = some (wrap32 (o.eval s.aRegister.toInt s.bRegister.toInt) / 256 % 256) ∧
      (s'.memory[addr + 2]?).map Fin.val
        = some (wrap32 (o.eval s.aRegister.toInt s.bRegister.toInt) / 65536 % 256) ∧
      (s'.memory[addr + 3]?).map Fin.val
        = some (wrap32 (o.eval s.aRegister.toInt s.bRegister.toInt) / 16777216 % 256) ∧
      (∀ j, j < addr ∨ addr + 3 < j → s'.memory[j]? = s.memory[j]?) ∧
      s'.memory.length = s.memory.length ∧
      s'.aRegister = s.aRegister ∧ s'.bRegister = s.bRegister ∧
      s'.addrRegister = s.addrRegister ∧ s'.flags = s.flags ∧ s'.out = s.out ∧
      s'.pc = s.pc + 5 ∧ s'.status = Status.running := by
  obtain ⟨h₀, h₁, h₂, h₃⟩ :=
    poke4_bytes (Reg.ofInt (o.eval s.aRegister.toInt s.bRegister.toInt)) haddr
  exact ⟨_, step_intOp fp o hrun hprog haddr hN,
    (congrArg (Option.map Fin.val) h₀).trans rfl, (congrArg (Option.map Fin.val) h₁).trans rfl,
    (congrArg (Option.map Fin.val) h₂).trans rfl, (congrArg (Option.map Fin.val) h₃).trans rfl,
    fun j hj => poke4_frame _ _ _ j hj, poke4_length _ _ _, rfl, rfl, rfl, rfl, rfl, rfl, hrun⟩

theorem int_arith_wraps_witness :
    multintState.aRegister.toInt = 65536 ∧ multintState.bRegister.toInt = -65536 ∧
    wrap32 (IntOp.mul.eval 65536 (-65536)) = 0 ∧
    ∃ s', step idleFloatOps multintState = some s' ∧
      (s'.memory[8]?).map Fin.val = some 0 ∧ (s'.memory[8 + 1]?).map Fin.val = some 0 ∧
      (s'.memory[8 + 2]?).map Fin.val = some 0 ∧ (s'.memory[8 + 3]?).map Fin.val = some 0 ∧
      (∀ j, j < 8 ∨ 8 + 3 < j → s'.memory[j]? = multintState.memory[j]?) ∧
      s'.memory.length = multintState.memory.length ∧
      s'.aRegister = multintState.aRegister ∧ s'.bRegister = multintState.bRegister ∧
      s'.addrRegister = multintState.addrRegister ∧ s'.flags = multintState.flags ∧
      s'.out = multintState.out ∧ s'.pc = multintState.pc + 5 ∧
      s'.status = Status.running :=
  ⟨by decide, by decide, by decide,
    int_arith_wraps idleFloatOps multintState IntOp.mul 8 rfl (by decide) (by decide)
      (by decide)⟩

/-- C15: `cmpint` recomputes the flags from the signed order of `A` and `B` alone: whatever
the previous flags, the new flags are `LT|NE` if `a < b`, `EQ` if `a = b` and `GT|NE` if
`a > b`, where `a`, `b` are the signed 32-bit values of the registers (compared directly,
no difference is formed); the memory, `A`, `B`, `R` and the output are unchanged. -/
theorem cmpint_flags (fp : FloatOps) (s : State) (hrun : s.status = Status.running)
    (hop : s.memory[s.pc]? = some OPCODE_CMPINT) :
    ∃ s', step fp s = some s' ∧
      s'.flags = (if s.aRegister.toInt < s.bRegister.toInt then FLAG_MASK_LT ||| FLAG_MASK_NE
                  else if s.aRegister.toInt = s.bRegister.toInt then FLAG_MASK_EQ
                  else FLAG_MASK_GT ||| FLAG_MASK_NE) ∧
      s'.memory = s.memory ∧ s'.aRegister = s.aRegister ∧ s'.bRegister = s.bRegister ∧
      s'.addrRegister = s.addrRegister ∧ s'.out = s.out ∧ s'.status = Status.running := by
  refine ⟨_, step_cmpint fp hrun hop, ?_, rfl, rfl, rfl, rfl, rfl, hrun⟩
  show cmpFlags s.aRegister.toInt s.bRegister.toInt = _
  rw [cmpFlags_eq]
  rfl

theorem cmpint_flags_witness :
    cmpintMinState.aRegister.toInt = -2147483648 ∧ cmpintMinState.bRegister.toInt = 1 ∧
    ∃ s', step idleFloatOps cmpintMinState = some s' ∧
      s'.flags = FLAG_MASK_LT ||| FLAG_MASK_NE ∧
      s'.memory = cmpintMinState.memory ∧ s'.aRegister = cmpintMinState.aRegister ∧
      s'.bRegister = cmpintMinState.bRegister ∧
      s'.addrRegister = cmpintMinState.addrRegister ∧ s'.out = cmpintMinState.out ∧
      s'.status = Status.running :=
  ⟨by decide, by decide, cmpint_flags idleFloatOps cmpintMinState rfl (by decide)⟩

/-- C16: `jmp` with operand bytes `b₁ b₂ b₃ b₄` at `Memory[PC+1..PC+4]` sets the program
counter to the unsigned little-endian value `b₁ + 256*b₂ + 65536*b₃ + 2^24*b₄` and changes
nothing else: registers, flags, memory, output and the running state are as before. -/
theorem jmp_sets_pc (fp : FloatOps) (s : State) (b₁ b₂ b₃ b₄ : Byte)
    (hrun : s.status = Status.running)
    (hprog : ProgAt s.memory s.pc [OPCODE_JMP, b₁, b₂, b₃, b₄])
    (hpc : s.pc + 1 < 4294967296) :
    step fp s = some { s with
      pc := b₁.val + 256 * b₂.val + 65536 * b₃.val + 16777216 * b₄.val } :=
  step_jmp fp (L := ⟨b₁, b₂, b₃, b₄⟩) hrun hprog hpc

theorem jmp_sets_pc_witness :
    step idleFloatOps jmpFarState = some { jmpFarState with pc := 4294967295 } :=
  jmp_sets_pc idleFloatOps jmpFarState 0xff 0xff 0xff 0xff rfl (by decide) (by decide)

/-- C17: for every flags value, a conditional jump whose operand bytes hold the address `L`
sets the program counter to `L` when its flag condition holds and to `PC + 5` when it
does not, the condition being EQ set for `jeq`, NE set for `jne`, LT set for `jlt`,
LT or EQ set for `jle`, GT set for `jgt`, GT or EQ set for `jge`; flags, registers,
memory and output are unchanged. -/
theorem cond_jump_semantics (fp : FloatOps) (s : State) (J : CondJump) (L : Reg)
    (hrun : s.status = Status.running) (hprog : ProgAt s.memory s.pc (instr J.opcode L))
    (hpc : s.pc + 5 < 4294967296) :
    step fp s = some { s with pc := if J.holds s.flags then L.toNat else s.pc + 5 } :=
  step_condJump fp J hrun hprog hpc

theorem cond_jump_semantics_witness :
    CondJump.jle.holds jleState.flags = true ∧ CondJump.jlt.holds jleState.flags = false ∧
    step idleFloatOps jleState = some { jleState with pc := 256 } :=
  ⟨by decide, by decide,
    cond_jump_semantics idleFloatOps jleState CondJump.jle ⟨0x00, 0x01, 0x00, 0x00⟩ rfl
      (by decide) (by decide)⟩

/-- C18: in a memory of at most `2^31` bytes, `printint addr` appends to the output the
decimal text of the signed 32-bit little-endian value of `Memory[addr .. addr+3]` (digits,
after a `-` when negative, nothing else), and `printchar addr` appends the single byte
`Memory[addr]`; in both cases the text follows everything written before, the memory,
the registers and the flags are unchanged and the program counter becomes `PC + 5`. -/
theorem print_appends (fp : FloatOps) (s : State) (addr : Nat) (txt : String)
    (hrun : s.status = Status.running) (hN : s.memory.length ≤ 2147483648)
    (hsrc :
      (ProgAt s.memory s.pc (instr OPCODE_PRINTINT (Reg.ofNat addr)) ∧
        ∃ w : Reg, s.memory[addr]? = some w.b0 ∧ s.memory[addr + 1]? = some w.b1 ∧
          s.memory[addr + 2]? = some w.b2 ∧ s.memory[addr + 3]? = some w.b3 ∧
          txt = decimal w.toInt) ∨
      (ProgAt s.memory s.pc (instr OPCODE_PRINTCHAR (Reg.ofNat addr)) ∧
        ∃ c : Byte, s.memory[addr]? = some c ∧ txt = String.singleton (Char.ofNat c.val))) :
    step fp s = some { s with out := s.out ++ txt, pc := s.pc + 5 } := by
  rcases hsrc with ⟨hprog, w, h₀, h₁, h₂, h₃, rfl⟩ | ⟨hprog, c, hc, rfl⟩
  · have hlen := hprog.lt_length 4 (by simp [instr])
    have ha : addr < s.memory.length := by
      by_contra hcon
      rw [List.getElem?_eq_none (by omega)] at h₀
      cases h₀
    exact step_printint fp hrun hprog (word_of_bytes h₀ h₁ h₂ h₃) (by omega) (by omega)
  · have hlen := hprog.lt_length 4 (by simp [instr])
    have ha : addr < s.memory.length := by
      by_contra hcon
      rw [List.getElem?_eq_none (by omega)] at hc
      cases hc
    exact step_printchar fp hrun hprog hc (by omega) (by omega)

theorem print_appends_witness :
    decimal (-2) = "-2" ∧
    step idleFloatOps printintState = some { printintState with out := "ab-2", pc := 5 } :=
  ⟨by decide,
    print_appends idleFloatOps printintState 5 "-2" rfl (by decide)
      (Or.inl ⟨by decide, ⟨0xfe, 0xff, 0xff, 0xff⟩, by decide, by decide, by decide, by decide,
        by decide⟩)⟩

/-- C19: `hlt` takes a running machine to the halted state and changes nothing else (no
output); an unhandled opcode byte takes it to the faulted state, adding only the
diagnostic.  Both states are terminal: every further iteration of the loop, and so every
longer run, returns the same state, whatever the memory holds after the instruction. -/
theorem stop_is_terminal (fp : FloatOps) (s : State) (op : Byte)
    (hrun : s.status = Status.running) (hop : s.memory[s.pc]? = some op)
    (hstop : op = OPCODE_HLT ∨ op ∉ handledOpcodes) :
    ∃ s', step fp s = some s' ∧
      (op = OPCODE_HLT → s' = { s with status := Status.halted }) ∧
      (op ∉ handledOpcodes →
        s' = { s with out := s.out ++ invalidOpcodeText op, status := Status.faulted }) ∧
      (s'.status = Status.halted ∨ s'.status = Status.faulted) ∧
      step fp s' = some s' ∧
      (∀ n, 1 ≤ n → run fp n s = some s') ∧
      (∀ t : State, t.status = Status.halted ∨ t.status = Status.faulted →
        step fp t = some t ∧ ∀ n, run fp n t = some t) := by
  have hterm : ∀ t : State, t.status = Status.halted ∨ t.status = Status.faulted →
      step fp t = some t ∧ ∀ n, run fp n t = some t := by
    intro t ht
    have hne : t.status ≠ Status.running := by
      rcases ht with h | h <;> rw [h] <;> decide
    exact ⟨step_of_not_running fp hne, fun n => run_of_not_running fp n hne⟩
  have hmem : OPCODE_HLT ∈ handledOpcodes := by decide
  rcases hstop with rfl | hinv
  · have h₁ := step_hlt fp hrun hop
    refine ⟨_, h₁, fun _ => rfl, fun h => absurd hmem h, Or.inl rfl,
      (hterm _ (Or.inl rfl)).1, ?_, hterm⟩
    intro n hn
    obtain ⟨k, rfl⟩ := Nat.exists_eq_add_of_le hn
    rw [Nat.add_comm, run_succ_of_step fp k h₁]
    exact (hterm _ (Or.inl rfl)).2 k
  · have h₁ := step_invalid fp hrun hop hinv
    refine ⟨_, h₁, fun h => absurd (h ▸ hmem) hinv, fun _ => rfl, Or.inr rfl,
      (hterm _ (Or.inr rfl)).1, ?_, hterm⟩
    intro n hn
    obtain ⟨k, rfl⟩ := Nat.exists_eq_add_of_le hn
    rw [Nat.add_comm, run_succ_of_step fp k h₁]
    exact (hterm _ (Or.inr rfl)).2 k

theorem stop_is_terminal_witness :
    run idleFloatOps 7 hltThenCodeState
      = some { hltThenCodeState with status := Status.halted } := by
  obtain ⟨s', -, hhlt, -, -, -, hn, -⟩ :=
    stop_is_terminal idleFloatOps hltThenCodeState OPCODE_HLT rfl (by decide) (Or.inl rfl)
  rw [← hhlt rfl]
  exact hn 7 (by decide)

/-- C20: when the image fits the buffer, the state before the first fetch has the program
counter at 0, all four bytes of `A`, `B` and `R` zero, all flag bits zero and nothing
written to the output, and `Memory[i]` is byte `i` of the image for every `i` below the
image length; the buffer keeps its size. -/
theorem initial_state (fp : FloatOps) (heap image : List Byte)
    (hfit : image.length ≤ heap.length) :
    ∃ s₀, runImage fp 0 heap image = some s₀ ∧ s₀.status = Status.running ∧ s₀.pc = 0 ∧
      s₀.aRegister = ⟨0, 0, 0, 0⟩ ∧ s₀.bRegister = ⟨0, 0, 0, 0⟩ ∧
      s₀.addrRegister = ⟨0, 0, 0, 0⟩ ∧ s₀.flags = 0 ∧ s₀.out = "" ∧
      s₀.memory.length = heap.length ∧
      ∀ i, i < image.length → s₀.memory[i]? = image[i]? := by
  refine ⟨initialState (image ++ heap.drop image.length), ?_, rfl, rfl, rfl, rfl, rfl, rfl, rfl,
    ?_, ?_⟩
  · unfold runImage loadImage
    rw [if_pos hfit]
    rfl
  · show (image ++ heap.drop image.length).length = heap.length
    rw [List.length_append, List.length_drop]
    omega
  · intro i hi
    show (image ++ heap.drop image.length)[i]? = image[i]?
    exact List.getElem?_append_left hi

set_option maxRecDepth 100000 in
theorem initial_state_witness :
    ∃ s₀, runImage idleFloatOps 0 (List.replicate 128 0xaa) instructions = some s₀ ∧
      s₀.status = Status.running ∧ s₀.pc = 0 ∧
      s₀.aRegister = ⟨0, 0, 0, 0⟩ ∧ s₀.bRegister = ⟨0, 0, 0, 0⟩ ∧
      s₀.addrRegister = ⟨0, 0, 0, 0⟩ ∧ s₀.flags = 0 ∧ s₀.out = "" ∧
      s₀.memory.length = (List.replicate 128 (0xaa : Byte)).length ∧
      ∀ i, i < instructions.length → s₀.memory[i]? = instructions[i]? :=
  initial_state idleFloatOps (List.replicate 128 0xaa) instructions (by decide)

/-- C13, as the claim states it, fails: `loadar` with `R = 1` loads its own operand bytes
`09 09 09 09` into `A`; the direct counterpart `loadam 1` on the same state loads
`01 00 00 00`, and `loadar` with operand bytes `07 07 07 07` loads those. -/
theorem loadar_reads_own_operand :
    (step idleFloatOps loadarSelfState).map State.aRegister = some ⟨9, 9, 9, 9⟩ ∧
    (step idleFloatOps (loadarSelfState.withInstr OPCODE_LOADAM loadarSelfState.addrRegister)).map
      State.aRegister = some ⟨1, 0, 0, 0⟩ ∧
    (step idleFloatOps (loadarSelfState.withInstr OPCODE_LOADAR ⟨7, 7, 7, 7⟩)).map
      State.aRegister = some ⟨7, 7, 7, 7⟩ := by
  decide

/-- C13, amended: on every state whose operand field holds the bytes of `R`, the handler
of the direct instruction returns what the handler of its `R`-suffixed counterpart
returns.  For a state whose instruction lies in memory and, for `loadar`, `loadbr` and
`printrint`, whose four bytes addressed by `R` do not overlap the instruction: the step
of the `R`-suffixed instruction, the step after replacing the instruction by its direct
counterpart with operand `R`, and the step after replacing its operand bytes by any
bytes `x`, are all undefined or agree in program counter, registers, flags, output, loop
state and every memory byte outside the instruction. -/
theorem indirect_matches_direct (fp : FloatOps) (s : State) (I : Indirect) (x : Reg)
    (hrun : s.status = Status.running) (hop : s.memory[s.pc]? = some I.opcode)
    (hlen : s.pc + 4 < s.memory.length) (hpc : s.pc + 1 < 4294967296)
    (hsep : I.reads = true →
      s.addrRegister.toInt + 3 < s.pc ∨ (s.pc : Int) + 4 < s.addrRegister.toInt) :
    (∀ t : State, operand t.memory t.pc = some t.addrRegister.toInt →
      execute fp t I.direct = execute fp t I.opcode) ∧
    SameOutside s.pc (step fp s) (step fp (s.withInstr I.direct s.addrRegister)) ∧
    SameOutside s.pc (step fp s) (step fp (s.withInstr I.opcode x)) := by
  refine ⟨fun t ht => execute_direct_eq fp t I ht, ?_, ?_⟩
  · have hprog := setInstr_progAt s.memory s.pc I.direct s.addrRegister hlen
    have hfetch : (s.withInstr I.direct s.addrRegister).memory[
        (s.withInstr I.direct s.addrRegister).pc]? = some I.direct := hprog.opcode
    have hoper : operand (s.withInstr I.direct s.addrRegister).memory
        (s.withInstr I.direct s.addrRegister).pc
          = some (s.withInstr I.direct s.addrRegister).addrRegister.toInt :=
      hprog.operand_of_lt hpc
    rw [step_fetch fp hrun hop, step_fetch fp (s := s.withInstr I.direct s.addrRegister) hrun
      hfetch, execute_direct_eq fp _ I hoper]
    exact execute_indirect_congr fp s I I.direct s.addrRegister hsep
  · have hprog := setInstr_progAt s.memory s.pc I.opcode x hlen
    have hfetch : (s.withInstr I.opcode x).memory[(s.withInstr I.opcode x).pc]?
        = some I.opcode := hprog.opcode
    rw [step_fetch fp hrun hop, step_fetch fp (s := s.withInstr I.opcode x) hrun hfetch]
    exact execute_indirect_congr fp s I I.opcode x hsep

theorem indirect_matches_direct_witness :
    (step idleFloatOps loadarState).map State.aRegister = some ⟨0xde, 0xad, 0xbe, 0xef⟩ ∧
    (∀ t : State, operand t.memory t.pc = some t.addrRegister.toInt →
      execute idleFloatOps t Indirect.loadar.direct
        = execute idleFloatOps t Indirect.loadar.opcode) ∧
    SameOutside loadarState.pc (step idleFloatOps loadarState)
      (step idleFloatOps (loadarState.withInstr Indirect.loadar.direct
        loadarState.addrRegister)) ∧
    SameOutside loadarState.pc (step idleFloatOps loadarState)
      (step idleFloatOps (loadarState.withInstr Indirect.loadar.opcode ⟨7, 7, 7, 7⟩)) :=
  ⟨by decide,
    indirect_matches_direct idleFloatOps loadarState Indirect.loadar ⟨7, 7, 7, 7⟩ rfl
      (by decide) (by decide) (by decide) (fun _ => Or.inr (by decide))⟩

/-- C21: in a running state whose program counter is at or beyond the memory size there
is no byte at the program counter, and the loop pass only leaves the loop: the state
afterwards, and after any further number of passes, differs from the state before in
nothing but the loop status, so registers, flags, memory and output are untouched.  This
covers a program counter reached by a fall-through and one reached by a jump: a `jmp`
whose operand, read as an unsigned number, is at least the memory size sets the program
counter to that number and the next pass leaves the loop; an operand with its top bit set
is negative as an `int` but is at least 2^31 as the program counter. -/
theorem pc_beyond_memory_stops (fp : FloatOps) (s : State) (hrun : s.status = Status.running)
    (hpc : s.memory.length ≤ s.pc) :
    s.memory[s.pc]? = none ∧
    step fp s = some { s with status := Status.offEnd } ∧
    (∀ n, run fp (n + 1) s = some { s with status := Status.offEnd }) ∧
    (∀ t t' : State, t.status = Status.running → step fp t = some t' →
      t'.status = Status.running → t'.memory.length ≤ t'.pc →
      ∀ n, run fp (n + 2) t = some { t' with status := Status.offEnd }) ∧
    (∀ (t : State) (L : Reg), t.status = Status.running →
      ProgAt t.memory t.pc (instr OPCODE_JMP L) → t.pc + 1 < 4294967296 →
      t.memory.length ≤ L.toNat →
      ∀ n, run fp (n + 2) t = some { t with pc := L.toNat, status := Status.offEnd }) ∧
    (∀ L : Reg, 128 ≤ L.b3.val → L.toInt < 0 ∧ 2147483648 ≤ L.toNat) := by
  refine ⟨List.getElem?_eq_none hpc, step_offEnd fp hrun hpc,
    fun n => run_offEnd fp n hrun hpc, ?_, ?_, ?_⟩
  · intro t t' _ hstep hrun' hpc' n
    rw [run_succ_of_step fp (n + 1) hstep]
    exact run_offEnd fp n hrun' hpc'
  · intro t L htrun hprog hlt hL n
    rw [run_succ_of_step fp (n + 1) (step_jmp fp htrun hprog hlt)]
    exact run_offEnd fp n (s := { t with pc := L.toNat }) htrun hL
  · intro L hL
    have h0 := L.b0.isLt
    have h1 := L.b1.isLt
    have h2 := L.b2.isLt
    have h3 := L.b3.isLt
    have hn : 2147483648 ≤ L.toNat := by unfold Reg.toNat; omega
    have hu : L.toNat < 4294967296 := by unfold Reg.toNat; omega
    refine ⟨?_, hn⟩
    unfold Reg.toInt
    rw [if_neg (by omega)]
    omega

set_option maxRecDepth 100000 in
theorem pc_beyond_memory_stops_witness :
    pastEndState.status = Status.running ∧ pastEndState.memory.length ≤ pastEndState.pc ∧
    step idleFloatOps pastEndState = some { pastEndState with status := Status.offEnd } ∧
    run idleFloatOps 7 pastEndState = some { pastEndState with status := Status.offEnd } ∧
    run idleFloatOps 2 jmpTopBitState
      = some { jmpTopBitState with pc := 2147483648, status := Status.offEnd } :=
  ⟨rfl, by decide,
    (pc_beyond_memory_stops idleFloatOps pastEndState rfl (by decide)).2.1,
    (pc_beyond_memory_stops idleFloatOps pastEndState rfl (by decide)).2.2.1 6,
    (pc_beyond_memory_stops idleFloatOps pastEndState rfl (by decide)).2.2.2.2.1
      jmpTopBitState ⟨0, 0, 0, 0x80⟩ rfl (by decide) (by decide) (by decide) 0⟩

/-- C24: for the image `jmp 0` at address 0, followed by any bytes, the state after any
number `n` of loop passes is the initial state: still running, program counter 0,
registers and flags zero, memory as loaded, no output.  So no number of passes reaches
a halted or faulted state, nor a program counter outside the memory. -/
theorem jmp_cycle_never_stops (fp : FloatOps) (rest : List Byte) (n : Nat) :
    run fp n (initialState (jmpSelf ++ rest)) = some (initialState (jmpSelf ++ rest)) ∧
    (initialState (jmpSelf ++ rest)).status = Status.running ∧
    (initialState (jmpSelf ++ rest)).pc = 0 ∧
    (initialState (jmpSelf ++ rest)).aRegister = Reg.zero ∧
    (initialState (jmpSelf ++ rest)).bRegister = Reg.zero ∧
    (initialState (jmpSelf ++ rest)).addrRegister = Reg.zero ∧
    (initialState (jmpSelf ++ rest)).flags = 0 ∧
    (initialState (jmpSelf ++ rest)).memory = jmpSelf ++ rest ∧
    (initialState (jmpSelf ++ rest)).out = "" ∧
    ∀ s, run fp n (initialState (jmpSelf ++ rest)) = some s →
      s.status ≠ Status.halted ∧ s.status ≠ Status.faulted ∧ s.status ≠ Status.offEnd := by
  have hstep : step fp (initialState (jmpSelf ++ rest)) = some (initialState (jmpSelf ++ rest)) :=
    step_jmp fp (s := initialState (jmpSelf ++ rest)) (L := Reg.zero) rfl rfl
      (show 0 + 1 < 4294967296 by decide)
  have hrun : run fp n (initialState (jmpSelf ++ rest))
      = some (initialState (jmpSelf ++ rest)) := by
    induction n with
    | zero => rfl
    | succ n ih => rw [run_succ_of_step fp n hstep, ih]
  refine ⟨hrun, rfl, rfl, rfl, rfl, rfl, rfl, rfl, rfl, ?_⟩
  intro s hs
  rw [hrun] at hs
  cases hs
  exact ⟨fun hc => (by cases hc), fun hc => (by cases hc), fun hc => (by cases hc)⟩

theorem jmp_cycle_never_stops_witness :
    run idleFloatOps 1000 (initialState (jmpSelf ++ [OPCODE_HLT]))
      = some (initialState (jmpSelf ++ [OPCODE_HLT])) :=
  (jmp_cycle_never_stops idleFloatOps [OPCODE_HLT] 1000).1

/-- C27: in every state reached from the initial state of any memory image after any
number of loop passes, the flags byte is one of 0b0000, 0b0010 (EQ), 0b0101 (LT|NE) and
0b1001 (GT|NE); its upper four bits are zero and NE is set exactly when LT or GT is set.
A step that changes the flags byte is a step that executes `cmpint`.  Each of the four
values occurs in some reachable state. -/
theorem flags_reachable (fp : FloatOps) (memory : List Byte) (n : Nat) (s : State)
    (h : run fp n (initialState memory) = some s) :
    s.flags ∈ validFlags ∧
    s.flags &&& 0b11110000 = 0 ∧
    (flagSet s.flags FLAG_MASK_NE
      = (flagSet s.flags FLAG_MASK_LT || flagSet s.flags FLAG_MASK_GT)) ∧
    (∀ s', step fp s = some s' → s'.flags ≠ s.flags →
      s.status = Status.running ∧ s.memory[s.pc]? = some OPCODE_CMPINT) ∧
    (∀ f, f ∈ validFlags → ∃ m k t, run fp k (initialState m) = some t ∧ t.flags = f) := by
  have hv : s.flags ∈ validFlags :=
    run_flags_valid fp n (s := initialState memory) (show (0 : Byte) ∈ validFlags by decide) h
  refine ⟨hv, (validFlags_bits _ hv).1, (validFlags_bits _ hv).2, ?_, ?_⟩
  · intro s' hs' hne
    rcases step_flags fp hs' with hf | ⟨hrun, hop, _⟩
    · exact absurd hf hne
    · exact ⟨hrun, hop⟩
  · intro f hf
    simp only [validFlags, List.mem_cons, List.mem_nil_iff, or_false] at hf
    rcases hf with hf | hf | hf | hf
    · exact ⟨[], 0, _, rfl, hf.symm⟩
    · exact ⟨instr OPCODE_CMPINT Reg.zero, 1, _, rfl, hf.symm⟩
    · exact ⟨cmpLessProgram, 2, _, rfl, hf.symm⟩
    · exact ⟨cmpGreaterProgram, 2, _, rfl, hf.symm⟩

set_option maxRecDepth 100000 in
theorem flags_reachable_witness :
    run idleFloatOps 2 (initialState cmpLessProgram)
      = some { initialState cmpLessProgram with
          bRegister := ⟨1, 0, 0, 0⟩, flags := 0b0101, pc := 10 } ∧
    (0b0101 : Byte) ∈ validFlags :=
  ⟨rfl, (flags_reachable idleFloatOps cmpLessProgram 2
    { initialState cmpLessProgram with bRegister := ⟨1, 0, 0, 0⟩, flags := 0b0101, pc := 10 }
    rfl).1⟩

/-- C28: the initial flags byte is clear and stays clear as long as no `cmpint` is
executed; in a running state with clear flags each of the six conditional jumps `jeq`,
`jne`, `jlt`, `jle`, `jgt`, `jge` only advances the program counter by 5.  In particular
an image that starts with a conditional jump falls through to address 5 from the initial
state, where the registers A and B are equal, for `jeq` as for `jne`. -/
theorem clear_flags_fall_through (fp : FloatOps) (s : State) (J : CondJump)
    (hrun : s.status = Status.running) (hflags : s.flags = FLAG_CLEAR)
    (hop : s.memory[s.pc]? = some J.opcode) :
    step fp s = some { s with pc := pcPlus s.pc 5 } ∧
    (∀ memory, (initialState memory).flags = FLAG_CLEAR) ∧
    (∀ memory n t, run fp n (initialState memory) = some t →
      NoCompare fp (initialState memory) n → t.flags = FLAG_CLEAR) ∧
    (∀ (L : Reg) (rest : List Byte),
      step fp (initialState (instr J.opcode L ++ rest))
        = some { initialState (instr J.opcode L ++ rest) with pc := 5 } ∧
      (initialState (instr J.opcode L ++ rest)).aRegister
        = (initialState (instr J.opcode L ++ rest)).bRegister) := by
  have key : ∀ t : State, t.status = Status.running → t.flags = FLAG_CLEAR →
      t.memory[t.pc]? = some J.opcode → step fp t = some { t with pc := pcPlus t.pc 5 } := by
    intro t htrun htflags htop
    rw [step_fetch fp htrun htop]
    cases J
    all_goals
      show jumpIf (flagSet t.flags _) t = _
      conv_lhs => rw [htflags]
      rfl
  refine ⟨key s hrun hflags hop, fun _ => rfl, ?_, ?_⟩
  · intro memory n t ht hno
    exact run_flags_clear fp n ht hno
  · intro L rest
    refine ⟨?_, rfl⟩
    have := key (initialState (instr J.opcode L ++ rest)) rfl rfl (by cases J <;> rfl)
    exact this

theorem clear_flags_fall_through_witness :
    step idleFloatOps (initialState (instr OPCODE_JEQ ⟨0x64, 0, 0, 0⟩))
      = some { initialState (instr OPCODE_JEQ ⟨0x64, 0, 0, 0⟩) with pc := 5 } ∧
    step idleFloatOps (initialState (instr OPCODE_JNE ⟨0x64, 0, 0, 0⟩))
      = some { initialState (instr OPCODE_JNE ⟨0x64, 0, 0, 0⟩) with pc := 5 } :=
  ⟨(clear_flags_fall_through idleFloatOps (initialState (instr OPCODE_JEQ ⟨0x64, 0, 0, 0⟩))
      CondJump.jeq rfl rfl (by decide)).1,
    (clear_flags_fall_through idleFloatOps (initialState (instr OPCODE_JNE ⟨0x64, 0, 0, 0⟩))
      CondJump.jne rfl rfl (by decide)).1⟩

set_option maxRecDepth 100000 in
/-- C23: the fetch reads the memory that stores write to.  After a store of register `X`
to an in-bounds address `addr`, the byte at `addr` is the low byte of `X`, and any running
state with that memory and its program counter at `addr` executes that byte as its
opcode.  For the image `loadai 0x000000ff; stoream 10` followed by four zero bytes and
any further bytes: three loop passes end halted at program counter 10, with A = 0xff,
the bytes `ff 00 00 00` at addresses 10..13 and no output, and further passes change
nothing; the byte at address 10 before the store was 0x00, on which a fetch faults. -/
theorem store_then_fetch (fp : FloatOps) (s : State) (X : RegId) (addr : Nat)
    (hrun : s.status = Status.running)
    (hprog : ProgAt s.memory s.pc (instr X.storem (Reg.ofNat addr)))
    (haddr : addr + 3 < s.memory.length) (hN : s.memory.length ≤ 2147483648) :
    (∃ s', step fp s = some s' ∧ s'.memory[addr]? = some (s.reg X).b0 ∧
      ∀ t : State, t.status = Status.running → t.memory = s'.memory → t.pc = addr →
        step fp t = execute fp t (s.reg X).b0) ∧
    (∀ (rest : List Byte) (n : Nat),
      run fp (n + 3) (initialState (selfModProgram ++ rest))
        = some { initialState (selfModProgram ++ rest) with
            pc := 10, aRegister := ⟨0xff, 0, 0, 0⟩, memory := selfModStored rest,
            status := Status.halted }) ∧
    (∀ rest : List Byte,
      step fp { initialState (selfModProgram ++ rest) with pc := 10 }
        = some { initialState (selfModProgram ++ rest) with
            pc := 10, out := "Invalid opcode 00\n", status := Status.faulted }) := by
  refine ⟨⟨_, step_storem fp X hrun hprog haddr hN, (poke4_bytes _ haddr).1, ?_⟩, ?_, ?_⟩
  · intro t htrun htmem htpc
    refine step_fetch fp htrun ?_
    rw [htmem, htpc]
    exact (poke4_bytes _ haddr).1
  · intro rest n
    have h3 : run fp 3 (initialState selfModProgram)
        = some { initialState selfModProgram with
            pc := 10, aRegister := ⟨0xff, 0, 0, 0⟩, memory := selfModStored [],
            status := Status.halted } := rfl
    have h3r := run_append fp rest 3 h3 (fun hc => (by cases hc))
    rw [Nat.add_comm, run_add]
    show (run fp 3 ((initialState selfModProgram).extend rest)).bind _ = _
    rw [h3r]
    exact run_of_not_running fp n (fun hc => (by cases hc))
  · intro rest
    have hop : (selfModProgram ++ rest)[10]? = some (0 : Byte) := rfl
    exact step_invalid fp (s := { initialState (selfModProgram ++ rest) with pc := 10 })
      rfl hop (by decide)

set_option maxRecDepth 100000 in
theorem store_then_fetch_witness :
    run idleFloatOps 3 (initialState (selfModProgram ++ [0, 0]))
      = some { initialState (selfModProgram ++ [0, 0]) with
          pc := 10, aRegister := ⟨0xff, 0, 0, 0⟩, memory := selfModStored [0, 0],
          status := Status.halted } :=
  (store_then_fetch idleFloatOps
    { initialState (selfModProgram ++ [0, 0]) with pc := 5, aRegister := ⟨0xff, 0, 0, 0⟩ }
    RegId.A 10 rfl (by decide) (by decide) (by decide)).2.1 [0, 0] 0

/-- C25: for all register patterns `a`, `b` (signed values `a.toInt`, `b.toInt`), every
conditional jump `J` and every target `L`, the four instructions
`loadai a; loadbi b; cmpint; J L` placed at the program counter run as four normal steps
that leave the program counter at `L` when the signed relation named by `J` holds between
`a` and `b` (`=` for `jeq`, `!=` for `jne`, `<` for `jlt`, `<=` for `jle`, `>` for `jgt`,
`>=` for `jge`) and at the address after the jump otherwise.  On the flags that `cmpint`
computes, the jump test of the dispatch chain is that relation, so exactly one of `jlt`
and `jge`, exactly one of `jgt` and `jle`, and exactly one of `jeq` and `jne` jumps. -/
theorem cmpint_cond_jump (fp : FloatOps) (s : State) (J : CondJump) (a b z L : Reg)
    (hrun : s.status = Status.running)
    (hprog : ProgAt s.memory s.pc
      (instr OPCODE_LOADAI a ++ instr OPCODE_LOADBI b ++ instr OPCODE_CMPINT z ++
        instr J.opcode L))
    (hpc : s.pc + 20 < 4294967296) :
    run fp 4 s = some { s with
      aRegister := a, bRegister := b, flags := cmpFlags a.toInt b.toInt,
      pc := if J.rel a.toInt b.toInt then L.toNat else s.pc + 20 } ∧
    takesJump (cmpFlags a.toInt b.toInt) J.opcode = J.rel a.toInt b.toInt ∧
    (takesJump (cmpFlags a.toInt b.toInt) OPCODE_JEQ = true ↔ a.toInt = b.toInt) ∧
    (takesJump (cmpFlags a.toInt b.toInt) OPCODE_JNE = true ↔ a.toInt ≠ b.toInt) ∧
    (takesJump (cmpFlags a.toInt b.toInt) OPCODE_JLT = true ↔ a.toInt < b.toInt) ∧
    (takesJump (cmpFlags a.toInt b.toInt) OPCODE_JLE = true ↔ a.toInt ≤ b.toInt) ∧
    (takesJump (cmpFlags a.toInt b.toInt) OPCODE_JGT = true ↔ a.toInt > b.toInt) ∧
    takesJump (cmpFlags a.toInt b.toInt) OPCODE_JLT
      = !takesJump (cmpFlags a.toInt b.toInt) OPCODE_JGE ∧
    takesJump (cmpFlags a.toInt b.toInt) OPCODE_JGT
      = !takesJump (cmpFlags a.toInt b.toInt) OPCODE_JLE ∧
    takesJump (cmpFlags a.toInt b.toInt) OPCODE_JEQ
      = !takesJump (cmpFlags a.toInt b.toInt) OPCODE_JNE := by
  have ht : ∀ K : CondJump,
      takesJump (cmpFlags a.toInt b.toInt) K.opcode = K.rel a.toInt b.toInt :=
    fun K => (takesJump_condJump _ K).trans (holds_cmpFlags K _ _)
  have teq := ht CondJump.jeq
  have tne := ht CondJump.jne
  have tlt := ht CondJump.jlt
  have tle := ht CondJump.jle
  have tgt := ht CondJump.jgt
  have tge := ht CondJump.jge
  simp only [CondJump.opcode, CondJump.rel] at teq tne tlt tle tgt tge
  refine ⟨?_, ht J, ?_, ?_, ?_, ?_, ?_, ?_, ?_, ?_⟩
  · simp only [List.append_assoc] at hprog
    have p₁ := hprog.head
    have p₂ := hprog.tail.head
    have p₃ := hprog.tail.tail.head
    have p₄ := hprog.tail.tail.tail
    have e₁ := step_loadai fp hrun p₁ (by omega)
    have e₂ := step_loadbi fp (s := { s with aRegister := a, pc := s.pc + 5 }) hrun p₂
      (by show s.pc + 5 + 5 < 4294967296; omega)
    have e₃ := step_cmpint fp
      (s := { s with aRegister := a, bRegister := b, pc := s.pc + 5 + 5 }) hrun p₃.opcode
    have e₄ := step_condJump fp
      (s := { s with aRegister := a, bRegister := b, flags := cmpFlags a.toInt b.toInt,
                     pc := s.pc + 5 + 5 + 5 }) J hrun p₄
      (by show s.pc + 5 + 5 + 5 + 5 < 4294967296; omega)
    rw [pcPlus_eq (by show s.pc + 5 + 5 + 5 < 4294967296; omega)] at e₃
    refine ((run_succ_of_step fp 3 e₁).trans ((run_succ_of_step fp 2 e₂).trans
      ((run_succ_of_step fp 1 e₃).trans (run_succ_of_step fp 0 e₄)))).trans ?_
    rw [run_zero]
    show some { s with
        aRegister := a, bRegister := b, flags := cmpFlags a.toInt b.toInt,
        pc := if J.holds (cmpFlags a.toInt b.toInt) then L.toNat else s.pc + 5 + 5 + 5 + 5 }
      = some { s with
        aRegister := a, bRegister := b, flags := cmpFlags a.toInt b.toInt,
        pc := if J.rel a.toInt b.toInt then L.toNat else s.pc + 20 }
    rw [holds_cmpFlags]
  · rw [teq, decide_eq_true_iff]
  · rw [tne, decide_eq_true_iff]
  · rw [tlt, decide_eq_true_iff]
  · rw [tle, decide_eq_true_iff]
  · rw [tgt, decide_eq_true_iff]
  · rw [tlt, tge]
    by_cases h : a.toInt < b.toInt
    · simp [h, not_le.2 h]
    · simp [h, not_lt.1 h]
  · rw [tgt, tle]
    by_cases h : a.toInt ≤ b.toInt
    · simp [h, not_lt.2 h]
    · simp [h, not_le.1 h]
  · rw [teq, tne]
    by_cases h : a.toInt = b.toInt <;> simp [h]

set_option maxRecDepth 100000 in
theorem cmpint_cond_jump_witness :
    run idleFloatOps 4 (initialState
        (instr OPCODE_LOADAI ⟨0xff, 0xff, 0xff, 0xff⟩ ++ instr OPCODE_LOADBI ⟨1, 0, 0, 0⟩ ++
          instr OPCODE_CMPINT ⟨0, 0, 0, 0⟩ ++ instr OPCODE_JLT ⟨0x40, 0, 0, 0⟩))
      = some { initialState
        (instr OPCODE_LOADAI ⟨0xff, 0xff, 0xff, 0xff⟩ ++ instr OPCODE_LOADBI ⟨1, 0, 0, 0⟩ ++
          instr OPCODE_CMPINT ⟨0, 0, 0, 0⟩ ++ instr OPCODE_JLT ⟨0x40, 0, 0, 0⟩) with
        aRegister := ⟨0xff, 0xff, 0xff, 0xff⟩, bRegister := ⟨1, 0, 0, 0⟩, flags := 0b0101,
        pc := 0x40 } :=
  (cmpint_cond_jump idleFloatOps _ CondJump.jlt ⟨0xff, 0xff, 0xff, 0xff⟩ ⟨1, 0, 0, 0⟩
    ⟨0, 0, 0, 0⟩ ⟨0x40, 0, 0, 0⟩ rfl (by decide) (by decide)).1

/-- C26: for all contents of `A` and `B` (signed values `a`, `b`) with `b != 0` and not
(`a = INT32_MIN` and `b = -1`), and every operand address `addr` with `addr .. addr+3`
inside a memory of at most `2^31` bytes, there are `q` and `r` with `a = q*b + r`,
`|r| < |b|` and `r` zero or of the sign of `a` (so `q` is the quotient truncated toward
zero), both in the `int` range, such that `divint` leaves the `int` `q` and `modint` the
`int` `r` in `Memory[addr .. addr+3]`; no other memory byte changes, `A`, `B`, `R`, the
flags and the output are unchanged, and the program counter becomes `PC + 5`. -/
theorem div_mod_truncate (fp : FloatOps) (s : State) (o : DivOp) (addr : Nat)
    (hrun : s.status = Status.running) (hN : s.memory.length ≤ 2147483648)
    (hprog : ProgAt s.memory s.pc (instr o.opcode (Reg.ofNat addr)))
    (haddr : addr + 3 < s.memory.length)
    (hb : s.bRegister.toInt ≠ 0)
    (hov : ¬ (s.aRegister.toInt = -2147483648 ∧ s.bRegister.toInt = -1)) :
    ∃ q r : Int,
      s.aRegister.toInt = q * s.bRegister.toInt + r ∧
      r.natAbs < s.bRegister.toInt.natAbs ∧
      (0 ≤ s.aRegister.toInt → 0 ≤ r) ∧ (s.aRegister.toInt ≤ 0 → r ≤ 0) ∧
      -2147483648 ≤ q ∧ q < 2147483648 ∧ -2147483648 ≤ r ∧ r < 2147483648 ∧
      ∃ s', step fp s = some s' ∧
        (load4 s'.memory addr).map Reg.toInt = some (o.pick q r) ∧
        (∀ j, j < addr ∨ addr + 3 < j → s'.memory[j]? = s.memory[j]?) ∧
        s'.memory.length = s.memory.length ∧
        s'.aRegister = s.aRegister ∧ s'.bRegister = s.bRegister ∧
        s'.addrRegister = s.addrRegister ∧ s'.flags = s.flags ∧ s'.out = s.out ∧
        s'.pc = s.pc + 5 ∧ s'.status = Status.running := by
  have ha := s.aRegister.toInt_range
  have hbr := s.bRegister.toInt_range
  have hq := tdiv_range ha.1 ha.2 hb hov
  have hr := natAbs_tmod_lt s.aRegister.toInt hb
  have hr₁ : -2147483648 ≤ Int.tmod s.aRegister.toInt s.bRegister.toInt := by omega
  have hr₂ : Int.tmod s.aRegister.toInt s.bRegister.toInt < 2147483648 := by omega
  have hpick : -2147483648 ≤ o.pick (Int.tdiv s.aRegister.toInt s.bRegister.toInt)
        (Int.tmod s.aRegister.toInt s.bRegister.toInt) ∧
      o.pick (Int.tdiv s.aRegister.toInt s.bRegister.toInt)
        (Int.tmod s.aRegister.toInt s.bRegister.toInt) < 2147483648 := by
    cases o
    · exact hq
    · exact ⟨hr₁, hr₂⟩
  obtain ⟨h₀, h₁, h₂, h₃⟩ := poke4_bytes (m := s.memory) (Reg.ofInt (o.pick
    (Int.tdiv s.aRegister.toInt s.bRegister.toInt)
    (Int.tmod s.aRegister.toInt s.bRegister.toInt))) haddr
  refine ⟨Int.tdiv s.aRegister.toInt s.bRegister.toInt,
    Int.tmod s.aRegister.toInt s.bRegister.toInt,
    (Int.tdiv_add_tmod' _ _).symm, hr, fun h => Int.tmod_nonneg _ h,
    fun h => tmod_nonpos _ _ h, hq.1, hq.2, hr₁, hr₂,
    _, step_divOp fp o hrun hprog haddr hN hb hov, ?_,
    fun j hj => poke4_frame _ _ _ j hj, poke4_length _ _ _, rfl, rfl, rfl, rfl, rfl, rfl, hrun⟩
  show (load4 (poke4 s.memory addr _) (addr : Int)).map Reg.toInt = _
  rw [load4_ofNat _ _ (by omega), word_of_bytes h₀ h₁ h₂ h₃]
  show some (Reg.toInt _) = _
  rw [Reg.toInt_ofInt hpick.1 hpick.2]

set_option maxRecDepth 100000 in
theorem div_mod_truncate_witness :
    divintState.aRegister.toInt = -7 ∧ divintState.bRegister.toInt = 2 ∧
    (∃ q r : Int,
      divintState.aRegister.toInt = q * divintState.bRegister.toInt + r ∧
      r.natAbs < divintState.bRegister.toInt.natAbs ∧
      (0 ≤ divintState.aRegister.toInt → 0 ≤ r) ∧ (divintState.aRegister.toInt ≤ 0 → r ≤ 0) ∧
      -2147483648 ≤ q ∧ q < 2147483648 ∧ -2147483648 ≤ r ∧ r < 2147483648 ∧
      ∃ s', step idleFloatOps divintState = some s' ∧
        (load4 s'.memory 8).map Reg.toInt = some (DivOp.div.pick q r) ∧
        (∀ j, j < 8 ∨ 8 + 3 < j → s'.memory[j]? = divintState.memory[j]?) ∧
        s'.memory.length = divintState.memory.length ∧
        s'.aRegister = divintState.aRegister ∧ s'.bRegister = divintState.bRegister ∧
        s'.addrRegister = divintState.addrRegister ∧ s'.flags = divintState.flags ∧
        s'.out = divintState.out ∧ s'.pc = divintState.pc + 5 ∧
        s'.status = Status.running) ∧
    ((step idleFloatOps divintState).bind fun s' => load4 s'.memory 8)
      = some (Reg.ofInt (-3)) ∧
    ((step idleFloatOps modintState).bind fun s' => load4 s'.memory 8)
      = some (Reg.ofInt (-1)) :=
  ⟨by decide, by decide,
    div_mod_truncate idleFloatOps divintState DivOp.div 8 rfl (by decide) (by decide)
      (by decide) (by decide) (by decide),
    by decide, by decide⟩

set_option maxRecDepth 100000 in
/-- C30: the opcode constants that the dispatch chain tests for are pairwise distinct
and none is 0x00, and so are the declared opcode constants; every byte value equals at
most one of them.  The dispatch chain is the if-else chain over its branches in source
order, and the if-else chain over the same branches in any other order returns the same
result for every fetched byte and every state. -/
theorem dispatch_order_irrelevant :
    handledOpcodes.Nodup ∧ (0 : Byte) ∉ handledOpcodes ∧
    definedOpcodes.Nodup ∧ (0 : Byte) ∉ definedOpcodes ∧
    (∀ op : Byte, handledOpcodes.count op ≤ 1) ∧
    branches.map Prod.fst = handledOpcodes ∧
    (∀ fp s op, execute fp s op = dispatch branches fp s op) ∧
    (∀ bs : List Branch, bs.Perm branches →
      ∀ fp s op, dispatch bs fp s op = execute fp s op) := by
  have hnd : handledOpcodes.Nodup := by decide
  refine ⟨hnd, by decide, by decide, by decide,
    fun op => List.nodup_iff_count_le_one.1 hnd op, rfl, execute_eq_dispatch, ?_⟩
  intro bs hp fp s op
  rw [execute_eq_dispatch]
  exact (dispatch_perm hp.symm fp s op hnd).symm

set_option maxRecDepth 100000 in
theorem dispatch_order_irrelevant_witness :
    dispatch branches.reverse idleFloatOps loadrmState OPCODE_LOADRM
      = execute idleFloatOps loadrmState OPCODE_LOADRM :=
  dispatch_order_irrelevant.2.2.2.2.2.2.2 branches.reverse (List.reverse_perm branches)
    idleFloatOps loadrmState OPCODE_LOADRM

set_option maxRecDepth 100000 in
/-- C22, as the claim states it, fails: on the 128-byte image `jmp 0x7f; ...; hlt` (the
opcode of `hlt` in the last byte) the state after the jump is running with the program
counter at 127, the loop fetches the opcode there and halts, and the addresses 128 to 131
of the operand field lie outside the memory. -/
theorem fetch_at_last_byte :
    jmpToLastByte.length = 128 ∧
    run idleFloatOps 1 (initialState jmpToLastByte) = some atLastByteState ∧
    atLastByteState.status = Status.running ∧ atLastByteState.pc = 127 ∧
    atLastByteState.memory[atLastByteState.pc]? = some OPCODE_HLT ∧
    step idleFloatOps atLastByteState
      = some { atLastByteState with status := Status.halted } ∧
    ¬ (atLastByteState.pc + 1 < atLastByteState.memory.length) := by
  decide

/-- C22, amended: in a running state the loop fetches an opcode exactly when the program
counter is below the memory size `N`, and the fetched byte is the byte at the program
counter; nothing is required of the addresses `PC+1 .. PC+4`.  `hlt` and `cmpint`, which
read no operand, execute as usual wherever in the memory they are fetched; when
`PC + 4 >= N`, an instruction whose handler reads its operand field reads outside the
memory, and the step has no defined result. -/
theorem fetch_guard (fp : FloatOps) (s : State) (hrun : s.status = Status.running) :
    (s.pc < s.memory.length →
      ∃ op, s.memory[s.pc]? = some op ∧ step fp s = execute fp s op) ∧
    (s.memory.length ≤ s.pc →
      s.memory[s.pc]? = none ∧ step fp s = some { s with status := Status.offEnd }) ∧
    (s.memory[s.pc]? = some OPCODE_HLT →
      step fp s = some { s with status := Status.halted }) ∧
    (s.memory[s.pc]? = some OPCODE_CMPINT →
      step fp s = some { s with
        flags := cmpFlags s.aRegister.toInt s.bRegister.toInt, pc := pcPlus s.pc 5 }) ∧
    (∀ op, s.memory[s.pc]? = some op → op ∈ operandReaders →
      s.memory.length ≤ s.pc + 4 → s.pc + 4 < 4294967296 → step fp s = none) := by
  refine ⟨fun hpc => ?_, fun hpc => ⟨List.getElem?_eq_none hpc, step_offEnd fp hrun hpc⟩,
    fun hop => step_hlt fp hrun hop, fun hop => step_cmpint fp hrun hop, ?_⟩
  · have hop : s.memory[s.pc]? = some (s.memory[s.pc]) := List.getElem?_eq_getElem hpc
    exact ⟨_, hop, step_fetch fp hrun hop⟩
  · intro op hop hmem hlen hp
    rw [step_fetch fp hrun hop]
    exact execute_operand_outside fp hlen hp hmem

set_option maxRecDepth 100000 in
theorem fetch_guard_witness :
    atLastByteState.memory[atLastByteState.pc]? = some OPCODE_HLT ∧
    step idleFloatOps atLastByteState
      = some { atLastByteState with status := Status.halted } ∧
    loadaiLastByteState.memory[loadaiLastByteState.pc]? = some OPCODE_LOADAI ∧
    step idleFloatOps loadaiLastByteState = none :=
  ⟨by decide,
    (fetch_guard idleFloatOps atLastByteState rfl).2.2.1 (by decide),
    by decide,
    (fetch_guard idleFloatOps loadaiLastByteState rfl).2.2.2.2 OPCODE_LOADAI (by decide)
      (by decide) (by decide) (by decide)⟩

set_option maxRecDepth 100000 in
/-- C31: the opcode constants of the alternate instruction set, `OPCODE_LUI` to
`OPCODE_PUTCHAR` in declaration order, are 45 constants with the values 1, 2, ..., 45;
they are pairwise distinct and none is 0.  The `byte` counter is `k + 1` after `k`
initialisers for every `k` up to 45, so it ends at 46 and never wraps, which it would
do only when incremented from 255. -/
theorem opcode_counter_values :
    Assembler.declaredOpcodes.length = 45 ∧
    Assembler.declaredOpcodes.map Fin.val = List.range' 1 45 ∧
    Assembler.OPCODE_LUI = 1 ∧ Assembler.OPCODE_PUTCHAR = 45 ∧
    Assembler.declaredOpcodes.Nodup ∧
    (0 : Byte) ∉ Assembler.declaredOpcodes ∧
    (∀ k, k ≤ 45 → (Assembler.counterAfter k).val = k + 1) ∧
    Assembler.counterAfter 45 = 46 ∧
    (Assembler.postIncrement 255).2 = 0 := by
  refine ⟨rfl, by decide, by decide, by decide, by decide, by decide, by decide, by decide,
    by decide⟩

theorem opcode_counter_values_witness :
    (Assembler.counterAfter 45).val = 45 + 1 ∧ (0 : Byte) ∉ Assembler.declaredOpcodes :=
  ⟨opcode_counter_values.2.2.2.2.2.2.1 45 (by decide), opcode_counter_values.2.2.2.2.2.1⟩

/-- C32, as the claim states it, fails for the driver's own call: for `memory_size = 128`
and `bytesPerLine = 5` the last line starts at 125 and `printMemory` reads the indices
128 and 129, outside `[0, 128)`; all its reads lie in `[0, 130)`.  In general, for
`memory_size >= 0` and `bytesPerLine >= 1` with `memory_size + bytesPerLine` an `int`,
the reads are never negative, and they all lie below `memory_size` exactly when
`bytesPerLine` divides `memory_size`; otherwise the index `memory_size` is read. -/
theorem printMemory_reads_past_end :
    (∃ l, printMemoryReads 128 5 = some l ∧ (128 : Int) ∈ l ∧ (129 : Int) ∈ l ∧
      ∀ j, j ∈ l → 0 ≤ j ∧ j < 130) ∧
    (∀ memory_size bytesPerLine : Int, 0 ≤ memory_size → 1 ≤ bytesPerLine →
      memory_size + bytesPerLine ≤ INT_MAX →
      ∃ l, printMemoryReads memory_size bytesPerLine = some l ∧
        (∀ j, j ∈ l → 0 ≤ j) ∧
        ((∀ j, j ∈ l → j < memory_size) ↔ memory_size % bytesPerLine = 0) ∧
        (memory_size % bytesPerLine ≠ 0 → memory_size ∈ l)) := by
  constructor
  · obtain ⟨l, hl, hmem⟩ := @printMemoryFrom_reads 128 5 (by decide) (by decide)
      (128 : Int).toNat 0 (by decide) (by decide)
    refine ⟨l, hl, (hmem 128).2 ⟨25, by decide, by decide, by decide⟩,
      (hmem 129).2 ⟨25, by decide, by decide, by decide⟩, ?_⟩
    intro j hj
    obtain ⟨k, hk, h₁, h₂⟩ := (hmem j).1 hj
    omega
  · intro memory_size bytesPerLine hs hb hmax
    obtain ⟨l, hl, h₀, h₁, h₂⟩ := printMemoryReads_spec hs hb hmax
    refine ⟨l, hl, h₀, ⟨fun h => ?_, h₁⟩, h₂⟩
    by_contra hne
    exact absurd (h _ (h₂ hne)) (lt_irrefl _)

/-- C7: when the byte at the program counter is none of the opcodes the dispatch chain
handles (so in particular when it is none of the declared opcode constants, or 0x00),
one loop iteration writes `Invalid opcode `, the two lowercase hex digits of the byte
(the digit of `byte / 16`, then the digit of `byte % 16`) and a newline, leaves the loop
in the faulted state, and changes nothing else.  The digits of the values 0 to 15 are the
characters `0123456789abcdef`. -/
theorem invalid_opcode_faults (fp : FloatOps) (s : State) (op : Byte)
    (hrun : s.status = Status.running) (hop : s.memory[s.pc]? = some op)
    (hinv : op ∉ handledOpcodes) :
    step fp s = some { s with
      out := s.out ++ ("Invalid opcode " ++
        String.mk [lowerHexDigit (op.val / 16), lowerHexDigit (op.val % 16)] ++ "\n")
      status := Status.faulted } ∧
    String.mk ((List.range 16).map lowerHexDigit) = "0123456789abcdef" := by
  refine ⟨?_, by decide⟩
  rw [step_invalid fp hrun hop hinv]
  have hhi : (0b11110000 &&& op.val) >>> 4 = op.val / 16 := nibble_high op
  have hlo : (0b00001111 &&& op.val) >>> 0 = op.val % 16 := nibble_low op
  have h₁ : op.val / 16 < 16 := by
    have := op.isLt
    omega
  have h₂ : op.val % 16 < 16 := Nat.mod_lt _ (by decide)
  unfold invalidOpcodeText
  rw [hhi, hlo, hexDigit_eq_lowerHexDigit _ h₁, hexDigit_eq_lowerHexDigit _ h₂]

set_option maxRecDepth 100000 in
theorem invalid_opcode_faults_witness :
    (0x00 : Byte) ∉ definedOpcodes ∧ (0x00 : Byte) ∉ handledOpcodes ∧
    step idleFloatOps (initialState [0x00, 0x01, 0x02, 0x03, 0x04]) =
      some { initialState [0x00, 0x01, 0x02, 0x03, 0x04] with
        out := "Invalid opcode 00\n", status := Status.faulted } ∧
    step idleFloatOps (initialState [0xab, 0x01, 0x02, 0x03, 0x04]) =
      some { initialState [0xab, 0x01, 0x02, 0x03, 0x04] with
        out := "Invalid opcode ab\n", status := Status.faulted } ∧
    step idleFloatOps (initialState [0x9f, 0x01, 0x02, 0x03, 0x04]) =
      some { initialState [0x9f, 0x01, 0x02, 0x03, 0x04] with
        out := "Invalid opcode 9f\n", status := Status.faulted } ∧
    step idleFloatOps (initialState [0x41, 0x01, 0x02, 0x03, 0x04]) =
      some { initialState [0x41, 0x01, 0x02, 0x03, 0x04] with
        out := "Invalid opcode 41\n", status := Status.faulted } :=
  ⟨by decide, by decide,
    (invalid_opcode_faults idleFloatOps (initialState [0x00, 0x01, 0x02, 0x03, 0x04]) 0x00 rfl
      (by decide) (by decide)).1,
    (invalid_opcode_faults idleFloatOps (initialState [0xab, 0x01, 0x02, 0x03, 0x04]) 0xab rfl
      (by decide) (by decide)).1,
    (invalid_opcode_faults idleFloatOps (initialState [0x9f, 0x01, 0x02, 0x03, 0x04]) 0x9f rfl
      (by decide) (by decide)).1,
    (invalid_opcode_faults idleFloatOps (initialState [0x41, 0x01, 0x02, 0x03, 0x04]) 0x41 rfl
      (by decide) (by decide)).1⟩

/-- C29, as the claim states it, fails: the 16-byte image `divint 8` takes no jump and
its only data address, 8, is in bounds, but its first pass divides 0 by 0 and has no
defined result; so no number of passes ends halted, faulted or with the program counter
at or beyond `N`. -/
theorem no_jump_run_undefined :
    divZeroImage.length = 16 ∧
    (initialState divZeroImage).memory[(initialState divZeroImage).pc]? = some OPCODE_DIVINT ∧
    operand divZeroImage 0 = some 8 ∧
    (∀ n, NoJump idleFloatOps (initialState divZeroImage) n) ∧
    step idleFloatOps (initialState divZeroImage) = none ∧
    (∀ n, run idleFloatOps (n + 1) (initialState divZeroImage) = none) ∧
    ¬ ∃ n s, run idleFloatOps n (initialState divZeroImage) = some s ∧
      s.status ≠ Status.running := by
  have hstep : step idleFloatOps (initialState divZeroImage) = none := by decide
  refine ⟨by decide, by decide, by decide, ?_, hstep,
    fun n => run_of_step_none idleFloatOps n hstep, ?_⟩
  · intro n k _ u hu _ op hop
    cases k with
    | zero =>
      cases hu
      cases hop
      rfl
    | succ k =>
      rw [run_of_step_none idleFloatOps k hstep] at hu
      cases hu
  · rintro ⟨n, s, hs, hstatus⟩
    cases n with
    | zero =>
      cases hs
      exact hstatus rfl
    | succ n =>
      rw [run_of_step_none idleFloatOps n hstep] at hs
      cases hs

/-- C29, amended: a pass of the loop that takes no jump (it fetches neither `jmp` nor a
conditional jump whose flag test succeeds, or fetches nothing) and has a result stops the
loop or increases the program counter by exactly 5.  So for a memory of `N <= 2^31` bytes
and a run from the initial state in which no jump is taken: a state that is still running
after `k` passes has the program counter `5 * k` with `k <= ceil(N/5)`, and fetches a
further instruction only if `k < ceil(N/5)`; a state reached after more than `ceil(N/5)`
passes has left the loop, halted, faulted or with the program counter at or beyond `N`;
and when the run has no result, the pass without a result is the execution of one of
these at most `ceil(N/5)` fetched instructions. -/
theorem no_jump_run_terminates (fp : FloatOps) (memory : List Byte) (n : Nat)
    (hN : memory.length ≤ 2147483648)
    (hno : NoJump fp (initialState memory) n) :
    (∀ t t' : State, t.status = Status.running → step fp t = some t' →
      (∀ op, t.memory[t.pc]? = some op → takesJump t.flags op = false) →
      t'.status ≠ Status.running ∨ (t'.pc = pcPlus t.pc 5 ∧ t'.status = Status.running)) ∧
    (∀ k u, k ≤ n → run fp k (initialState memory) = some u → u.status = Status.running →
      u.pc = 5 * k ∧ k ≤ (memory.length + 4) / 5 ∧
        (u.pc < memory.length → k < (memory.length + 4) / 5)) ∧
    (∀ s, (memory.length + 4) / 5 < n → run fp n (initialState memory) = some s →
      s.status = Status.halted ∨ s.status = Status.faulted ∨
        (s.status = Status.offEnd ∧ memory.length ≤ s.pc)) ∧
    (run fp n (initialState memory) = none →
      ∃ k u, k < n ∧ k < (memory.length + 4) / 5 ∧
        run fp k (initialState memory) = some u ∧ u.status = Status.running ∧
        u.pc = 5 * k ∧ u.pc < memory.length ∧ step fp u = none) := by
  have hrunning : ∀ k u, k ≤ n → run fp k (initialState memory) = some u →
      u.status = Status.running →
      u.pc = 5 * k ∧ k ≤ (memory.length + 4) / 5 ∧
        (u.pc < memory.length → k < (memory.length + 4) / 5) := by
    intro k u hk hu hs
    have hnok : NoJump fp (initialState memory) k := fun j hj => hno j (by omega)
    obtain ⟨hpc, _, hlt⟩ := run_noJump fp k (s := initialState memory) hN hu hnok hs
    have hpc' : u.pc = 5 * k := by
      rw [hpc]
      show 0 + 5 * k = 5 * k
      omega
    refine ⟨hpc', ?_, fun h => by omega⟩
    rcases Nat.eq_zero_or_pos k with h0 | hpos
    · omega
    · have h' : 0 + 5 * (k - 1) < memory.length := hlt hpos
      omega
  refine ⟨?_, hrunning, ?_, ?_⟩
  · intro t t' ht hstep hnj
    rcases step_noJump fp ht hstep hnj with hst | ⟨_, hp, hst⟩
    · exact Or.inl hst
    · exact Or.inr ⟨hp, hst⟩
  · intro s hn hrun
    have hstop : s.status ≠ Status.running := fun hs => by
      have := (hrunning n s (le_refl n) hrun hs).2.1
      omega
    have hlen : s.memory.length = memory.length := run_length fp n hrun
    have hoff := run_offEnd_pc fp n (s := initialState memory)
      (fun hc => (by cases hc)) hrun
    rw [hlen] at hoff
    cases hs : s.status with
    | running => exact absurd hs hstop
    | halted => exact Or.inl rfl
    | faulted => exact Or.inr (Or.inl rfl)
    | offEnd => exact Or.inr (Or.inr ⟨rfl, hoff hs⟩)
  · intro hrun
    obtain ⟨k, u, hk, hu, hstep⟩ := run_none_first fp n hrun
    have hurun : u.status = Status.running := by
      by_contra hc
      rw [step_of_not_running fp hc] at hstep
      cases hstep
    have hlen : u.memory.length = memory.length := run_length fp k hu
    have hupc : u.pc < memory.length := by
      by_contra hc
      rw [step_offEnd fp hurun (by omega)] at hstep
      cases hstep
    obtain ⟨hpc, _, hlt⟩ := hrunning k u (by omega) hu hurun
    exact ⟨k, u, hk, hlt hupc, hu, hurun, hpc, hupc, hstep⟩

set_option maxRecDepth 100000 in
theorem no_jump_run_terminates_witness :
    run idleFloatOps 3 (initialState cmpintTwice) = some cmpintTwiceEnd ∧
    (cmpintTwice.length + 4) / 5 < 3 ∧
    (cmpintTwiceEnd.status = Status.halted ∨ cmpintTwiceEnd.status = Status.faulted ∨
      (cmpintTwiceEnd.status = Status.offEnd ∧ cmpintTwice.length ≤ cmpintTwiceEnd.pc)) ∧
    run idleFloatOps 1 (initialState loadaiCutOff)
      = some { initialState loadaiCutOff with pc := 5 } ∧
    run idleFloatOps 3 (initialState loadaiCutOff) = none ∧
    (∃ k u, k < 3 ∧ k < (loadaiCutOff.length + 4) / 5 ∧
      run idleFloatOps k (initialState loadaiCutOff) = some u ∧
      u.status = Status.running ∧ u.pc = 5 * k ∧ u.pc < loadaiCutOff.length ∧
      step idleFloatOps u = none) :=
  ⟨rfl, by decide,
    (no_jump_run_terminates idleFloatOps cmpintTwice 3 (by decide) (by
      intro k hk u hu hrun op hop
      have hk3 : k = 0 ∨ k = 1 ∨ k = 2 := by omega
      rcases hk3 with rfl | rfl | rfl
      · cases hu
        cases hop
        rfl
      · cases hu
        cases hop
        rfl
      · cases hu
        cases hop)).2.2.1 cmpintTwiceEnd (by decide) rfl,
    rfl, rfl,
    (no_jump_run_terminates idleFloatOps loadaiCutOff 3 (by decide) (by
      intro k hk u hu hrun op hop
      have hk3 : k = 0 ∨ k = 1 ∨ k = 2 := by omega
      rcases hk3 with rfl | rfl | rfl
      · cases hu
        cases hop
        rfl
      · cases hu
        cases hop
        rfl
      · cases hu)).2.2.2 rfl⟩

end AmyBin
